import Mathlib

/-!
Verification of the metric fetching / filtering / serialization core of the
`hrmm` repository (package `internal/fetcher`, command `cmd/print.go`).

The Go code is shallowly embedded: Go strings are Lean `String`s, Go
`map[string]string` label maps are association lists with unique keys,
Go `float64` values are the inductive `FloatVal` (NaN, ±Inf, or an exact
decimal `num / 10^pow`, which is the fragment produced by parsing and
printing decimal metric text), Go pointers `*T` are `Option T`, and Go
byte-wise string comparison (`sort.Strings`) is the structural
code-point comparison `strLe` (identical to Go's byte order on the
UTF-8 strings involved, since UTF-8 byte order coincides with code
point order).
-/

namespace Fetcher

/-! ### Characters and strings -/

/-- Lexicographic (byte/code-point) comparison of character lists; this is
the order `sort.Strings` uses on UTF-8 strings. -/
def clLe : List Char → List Char → Bool
  | [], _ => true
  | _ :: _, [] => false
  | a :: as, b :: bs =>
    if a.toNat < b.toNat then true
    else if b.toNat < a.toNat then false
    else clLe as bs

/-- `strLe a b`: Go's `a <= b` on strings. -/
def strLe (a b : String) : Bool := clLe a.data b.data

/-- Model of Go's `sort.Strings` (the sorted value is unique, so any
correct sorting algorithm models it). -/
def sortStrings (l : List String) : List String :=
  l.insertionSort (fun a b => strLe a b = true)

/-- Model of Go's `strings.ToUpper` on one ASCII character. -/
def upChar (c : Char) : Char :=
  if 97 ≤ c.toNat ∧ c.toNat ≤ 122 then Char.ofNat (c.toNat - 32) else c

/-- Model of Go's `strings.ToUpper` (ASCII range, which is all the code
applies it to: metric type names). -/
def upStr (s : String) : String := ⟨s.data.map upChar⟩

/-- Model of Go's `strings.ToLower` on one ASCII character. -/
def lowChar (c : Char) : Char :=
  if 65 ≤ c.toNat ∧ c.toNat ≤ 90 then Char.ofNat (c.toNat + 32) else c

/-- Model of Go's `strings.ToLower` (ASCII range). -/
def lowStr (s : String) : String := ⟨s.data.map lowChar⟩

/-- Model of Go's `strings.Join` / `String.intercalate` written by
structural recursion so that it reduces in the kernel. -/
def joinSep (sep : String) : List String → String
  | [] => ""
  | [s] => s
  | s :: rest => s ++ sep ++ joinSep sep rest

/-- The decimal digit characters. -/
def digitChar (d : Nat) : Char :=
  match d with
  | 0 => '0' | 1 => '1' | 2 => '2' | 3 => '3' | 4 => '4'
  | 5 => '5' | 6 => '6' | 7 => '7' | 8 => '8' | _ => '9'

/-- Digits of `n` in base 10, most significant first (no leading zeros;
`n = 0` gives `[]`).  Fuel-driven so it is structurally recursive. -/
def natCharsAux : Nat → Nat → List Char
  | 0, _ => []
  | fuel + 1, n =>
    if n = 0 then []
    else natCharsAux fuel (n / 10) ++ [digitChar (n % 10)]

/-- Decimal rendering of a natural number (`"0"` for zero): the model of
Go's `%d` on the unsigned counters in the code. -/
def natChars (n : Nat) : List Char :=
  if n = 0 then ['0'] else natCharsAux n n

/-- `natStr n` is `fmt.Sprintf("%d", n)`. -/
def natStr (n : Nat) : String := ⟨natChars n⟩

/-! ### Float values

`FloatVal` is the value space relevant to this program: NaN, the two
infinities, and exact decimals `num / 10^pow` (every numeric literal in
an exposition document, and every value the serializer prints, is of
this form). -/

inductive FloatVal where
  | nan : FloatVal
  | inf (pos : Bool) : FloatVal
  | dec (num : Int) (pow : Nat) : FloatVal
deriving DecidableEq, Repr

/-- Model of Go's `math.IsNaN`. -/
def isNaN : FloatVal → Bool
  | .nan => true
  | _ => false

/-- Canonicalize a decimal pair: drop trailing zero digits of the
fractional part (fuel-driven division by 10). -/
def stripDec : Nat → Int → Nat → Int × Nat
  | 0, n, p => (n, p)
  | fuel + 1, n, p =>
    if n = 0 then (0, 0)
    else if p ≠ 0 ∧ n % 10 = 0 then stripDec fuel (n / 10) (p - 1)
    else (n, p)

/-- Fractional digits of `fp`, left-padded with zeros to exactly `p`
digits. -/
def padDigits (p fp : Nat) : List Char :=
  List.replicate (p - (if fp = 0 then 1 else (natCharsAux fp fp).length)) '0'
    ++ natChars fp

/-- Model of Go's `fmt` `%g` formatting on the values of this program:
`NaN`, `+Inf`, `-Inf` print as those literals, and a finite decimal
prints as its shortest plain decimal form (`%g` prints the shortest
uniquely-identifying decimal; on this exact-decimal value space that is
the decimal with trailing fractional zeros removed).  The scientific
fallback `%g` uses for very large/small magnitudes is numerically
equivalent formatting and is not modelled. -/
def formatG (v : FloatVal) : String :=
  match v with
  | .nan => "NaN"
  | .inf true => "+Inf"
  | .inf false => "-Inf"
  | .dec num pow =>
    let np := stripDec pow num pow
    let n := np.1
    let p := np.2
    let sign : String := if n < 0 then "-" else ""
    let m := n.natAbs
    if p = 0 then sign ++ natStr m
    else sign ++ natStr (m / 10 ^ p) ++ "." ++ (⟨padDigits p (m % 10 ^ p)⟩ : String)

/-- Numeric (semantic) equality of two float values: NaN only equals
NaN (these are parsed tokens, not IEEE comparisons), infinities by
sign, decimals by cross multiplication. -/
def valEq : FloatVal → FloatVal → Bool
  | .nan, .nan => true
  | .inf a, .inf b => a == b
  | .dec n1 p1, .dec n2 p2 => n1 * (10 : Int) ^ p2 == n2 * (10 : Int) ^ p1
  | _, _ => false

/-- Model of `encoding/json`'s `json.Marshal` applied to a `float64`:
it fails on NaN and on ±Inf (`json: unsupported value`), and renders a
finite value as a bare JSON number. -/
def jsonMarshalFloat : FloatVal → Except String String
  | .nan => .error "json: unsupported value: NaN"
  | .inf _ => .error "json: unsupported value: Inf"
  | .dec n p => .ok (formatG (.dec n p))

/-- `NullableFloat64.MarshalJSON` from `fetcher.go`: NaN marshals as
`null`, everything else is handed to `json.Marshal`. -/
def marshalJSON (nf : FloatVal) : Except String String :=
  if isNaN nf then .ok "null" else jsonMarshalFloat nf

/-! ### Label maps -/

/-- A Go `map[string]string` as an association list with unique keys
(iteration order is irrelevant everywhere the code reads one: the
serializer sorts, and lookups are key-based). -/
abbrev LabelMap := List (String × String)

/-- Go map assignment `m[k] = v`. -/
def mapSet (m : LabelMap) (k v : String) : LabelMap :=
  if m.any (fun kv => kv.1 == k) then
    m.map (fun kv => if kv.1 == k then (k, v) else kv)
  else m ++ [(k, v)]

/-- Go map lookup `m[k]` (`none` when absent). -/
def mapGet (m : LabelMap) (k : String) : Option String :=
  (m.find? (fun kv => kv.1 == k)).map (fun kv => kv.2)

/-- One rendered label pair, `fmt.Sprintf("%s=\"%s\"", key, value)`. -/
def renderPair (k v : String) : String := k ++ "=\"" ++ v ++ "\""

/-- The sorted rendered pair list shared by `formatLabels` and
`printSimple`: render every pair as `key="value"`, then
`sort.Strings`. -/
def sortedPairs (labels : LabelMap) : List String :=
  sortStrings (labels.map (fun kv => renderPair kv.1 kv.2))

/-- `MetricData.formatLabels` from `fetcher.go`: empty map renders as
the empty string, otherwise the `key="value"` pairs joined with commas
after `sort.Strings`. -/
def formatLabels (labels : LabelMap) : String :=
  if labels.length = 0 then ""
  else joinSep "," (sortedPairs labels)

/-! ### The metric model (`fetcher.go` structs) -/

/-- `HistogramBucket` from `fetcher.go`. -/
structure HistogramBucket where
  UpperBound : FloatVal
  CumulativeCount : Nat
deriving DecidableEq, Repr

/-- `SummaryQuantile` from `fetcher.go`. -/
structure SummaryQuantile where
  Quantile : FloatVal
  Value : FloatVal
deriving DecidableEq, Repr

/-- `MetricData` from `fetcher.go`.  `Typ` stands for the Go field
`Type` (a reserved word in Lean); the `*uint64` / `*NullableFloat64`
pointer fields are `Option`s; the `Buckets` / `Quantiles` slices are
lists (`[]` for Go `nil`, which is how `Fetch` leaves them when no
bucket/quantile is appended). -/
structure MetricData where
  Name : String
  Help : String
  Typ : String
  Labels : LabelMap
  Value : FloatVal
  SampleCount : Option Nat
  SampleSum : Option FloatVal
  Buckets : List HistogramBucket
  Quantiles : List SummaryQuantile
deriving DecidableEq, Repr

/-- `MetricData.printSimple` from `fetcher.go` (returning the string
written to the buffer): `name{sorted pairs} value` with `%g`-formatted
value, omitting the braces when the label map is empty. -/
def printSimple (m : MetricData) : String :=
  if m.Labels.length > 0 then
    m.Name ++ "\x7b" ++ joinSep "," (sortedPairs m.Labels) ++ "\x7d " ++ formatG m.Value ++ "\n"
  else
    m.Name ++ " " ++ formatG m.Value ++ "\n"

/-- `MetricData.String` from `fetcher.go`: the `TODO` placeholders for
histogram and summary (selected by `strings.ToUpper` on the type), and
the `printSimple` line otherwise. -/
def stringRepr (m : MetricData) : String :=
  if upStr m.Typ = "HISTOGRAM" then "TODO: Histogram\n"
  else if upStr m.Typ = "SUMMARY" then "TODO: Summary\n"
  else printSimple m

/-! ### A heap of Go label maps

`printHistogram` and `printSummary` copy the sample's label map before
adding the synthetic `le` / `quantile` key.  To state that they do not
mutate the sample's base map, Go's reference semantics for maps is made
explicit: a heap assigns map contents to addresses, `m.Labels` becomes
an address (`none` is a `nil` map), `make` allocates, and `m[k] = v`
mutates the heap cell in place. -/

structure Heap where
  store : List LabelMap
deriving DecidableEq, Repr

/-- Read the map at address `a` (out-of-range reads never occur for the
addresses the code uses; they default to the empty map). -/
def Heap.get (h : Heap) (a : Nat) : LabelMap :=
  (h.store.getD a [])

/-- Allocate a fresh map holding `m` (`make` plus a copy loop). -/
def Heap.alloc (h : Heap) (m : LabelMap) : Heap × Nat :=
  (⟨h.store ++ [m]⟩, h.store.length)

/-- In-place Go map assignment `h[a][k] = v`. -/
def Heap.ins (h : Heap) (a : Nat) (k v : String) : Heap :=
  ⟨h.store.set a (mapSet (h.get a) k v)⟩

/-- Read a possibly-`nil` map reference. -/
def getLabels (h : Heap) : Option Nat → LabelMap
  | none => []
  | some a => h.get a

/-- One iteration of the bucket loop of `printHistogram`: take the
label map reference (allocating an empty map when it is `nil`), copy it
into a fresh map, set `le` on the copy, and render the `_bucket`
line. -/
def bucketStep (h : Heap) (name : String) (labelsAddr : Option Nat) (b : HistogramBucket) :
    Heap × String :=
  let hb : Heap × Nat :=
    match labelsAddr with
    | some a => (h, a)
    | none => h.alloc []
  let hc := hb.1.alloc (hb.1.get hb.2)
  let h2 := hc.1.ins hc.2 "le" (formatG b.UpperBound)
  let s := formatLabels (h2.get hc.2)
  let line :=
    if s ≠ "" then
      name ++ "_bucket\x7b" ++ s ++ "\x7d " ++ natStr b.CumulativeCount ++ "\n"
    else
      name ++ "_bucket\x7ble=\"" ++ formatG b.UpperBound ++ "\"\x7d " ++ natStr b.CumulativeCount ++ "\n"
  (h2, line)

/-- The bucket loop of `printHistogram`. -/
def bucketLoop (name : String) (labelsAddr : Option Nat) :
    Heap → List HistogramBucket → Heap × String
  | h, [] => (h, "")
  | h, b :: rest =>
    let hs := bucketStep h name labelsAddr b
    let hr := bucketLoop name labelsAddr hs.1 rest
    (hr.1, hs.2 ++ hr.2)

/-- The `_sum` lines shared by `printHistogram` and `printSummary`
(`baseLabels` is the string computed from the base map before the
loop). -/
def sumLines (name : String) (baseLabels : String) : Option FloatVal → String
  | none => ""
  | some s =>
    if baseLabels ≠ "" then name ++ "_sum\x7b" ++ baseLabels ++ "\x7d " ++ formatG s ++ "\n"
    else name ++ "_sum " ++ formatG s ++ "\n"

/-- The `_count` lines shared by `printHistogram` and `printSummary`. -/
def countLines (name : String) (baseLabels : String) : Option Nat → String
  | none => ""
  | some c =>
    if baseLabels ≠ "" then name ++ "_count\x7b" ++ baseLabels ++ "\x7d " ++ natStr c ++ "\n"
    else name ++ "_count " ++ natStr c ++ "\n"

/-- `MetricData.printHistogram` from `fetcher.go`, heap-explicit: the
sample's `Labels` field is the map reference `labelsAddr`; the buckets,
sum and count are the remaining fields it reads.  Returns the final
heap and the text written to the buffer. -/
def printHistogramH (h : Heap) (name : String) (labelsAddr : Option Nat)
    (buckets : List HistogramBucket) (sampleSum : Option FloatVal)
    (sampleCount : Option Nat) : Heap × String :=
  let baseLabels := formatLabels (getLabels h labelsAddr)
  let hb := bucketLoop name labelsAddr h buckets
  (hb.1, hb.2 ++ sumLines name baseLabels sampleSum ++ countLines name baseLabels sampleCount)

/-- One iteration of the quantile loop of `printSummary` (same copy
pattern as `bucketStep`, with the `quantile` key and a plain `name`
line). -/
def quantileStep (h : Heap) (name : String) (labelsAddr : Option Nat) (q : SummaryQuantile) :
    Heap × String :=
  let hb : Heap × Nat :=
    match labelsAddr with
    | some a => (h, a)
    | none => h.alloc []
  let hc := hb.1.alloc (hb.1.get hb.2)
  let h2 := hc.1.ins hc.2 "quantile" (formatG q.Quantile)
  let s := formatLabels (h2.get hc.2)
  let line :=
    if s ≠ "" then
      name ++ "\x7b" ++ s ++ "\x7d " ++ formatG q.Value ++ "\n"
    else
      name ++ "\x7bquantile=\"" ++ formatG q.Quantile ++ "\"\x7d " ++ formatG q.Value ++ "\n"
  (h2, line)

/-- The quantile loop of `printSummary`. -/
def quantileLoop (name : String) (labelsAddr : Option Nat) :
    Heap → List SummaryQuantile → Heap × String
  | h, [] => (h, "")
  | h, q :: rest =>
    let hs := quantileStep h name labelsAddr q
    let hr := quantileLoop name labelsAddr hs.1 rest
    (hr.1, hs.2 ++ hr.2)

/-- `MetricData.printSummary` from `fetcher.go`, heap-explicit. -/
def printSummaryH (h : Heap) (name : String) (labelsAddr : Option Nat)
    (quantiles : List SummaryQuantile) (sampleSum : Option FloatVal)
    (sampleCount : Option Nat) : Heap × String :=
  let baseLabels := formatLabels (getLabels h labelsAddr)
  let hq := quantileLoop name labelsAddr h quantiles
  (hq.1, hq.2 ++ sumLines name baseLabels sampleSum ++ countLines name baseLabels sampleCount)

/-- The `_bucket` line `printHistogram` emits for bucket `b` of a
sample whose base label map holds `base`: `le` is merged into a copy of
the base pairs (value-level statement of the heap computation). -/
def bucketLineOf (name : String) (base : LabelMap) (b : HistogramBucket) : String :=
  name ++ "_bucket\x7b" ++ formatLabels (mapSet base "le" (formatG b.UpperBound)) ++ "\x7d "
    ++ natStr b.CumulativeCount ++ "\n"

/-- Concatenation of a list of output lines. -/
def concatAll : List String → String
  | [] => ""
  | s :: rest => s ++ concatAll rest

/-- Pure rendering of `printHistogram` over the base label map value
(proved below to be what `printHistogramH` writes). -/
def printHistogramStr (name : String) (base : LabelMap) (buckets : List HistogramBucket)
    (sampleSum : Option FloatVal) (sampleCount : Option Nat) : String :=
  concatAll (buckets.map (bucketLineOf name base))
    ++ sumLines name (formatLabels base) sampleSum
    ++ countLines name (formatLabels base) sampleCount

/-- Validity of a (possibly `nil`) map reference in a heap: every
reference the program creates points inside the store. -/
def addrOk (h : Heap) : Option Nat → Prop
  | none => True
  | some a => a < h.store.length

/-! ### The parsed protobuf model (`dto` package) consumed by `Fetch`

`expfmt.TextParser` produces `dto.MetricFamily` protobuf messages whose
scalar fields are pointers; the generated `GetX` accessors return the
zero value when the field (or the whole message) is absent.  The
structures below are those messages with `Option` for every pointer. -/

/-- `dto.Counter` / `dto.Gauge` / `dto.Untyped` (each is a message with
one optional `value` field). -/
structure DtoValue where
  value : Option FloatVal
deriving DecidableEq, Repr

/-- `dto.Bucket`. -/
structure DtoBucket where
  upperBound : Option FloatVal
  cumulativeCount : Option Nat
deriving DecidableEq, Repr

/-- `dto.Histogram`. -/
structure DtoHistogram where
  sampleCount : Option Nat
  sampleSum : Option FloatVal
  bucket : List DtoBucket
deriving DecidableEq, Repr

/-- `dto.Quantile`. -/
structure DtoQuantile where
  quantile : Option FloatVal
  value : Option FloatVal
deriving DecidableEq, Repr

/-- `dto.Summary`. -/
structure DtoSummary where
  sampleCount : Option Nat
  sampleSum : Option FloatVal
  quantile : List DtoQuantile
deriving DecidableEq, Repr

/-- `dto.Metric`: the label pairs plus one sub-message per shape. -/
structure DtoMetric where
  label : List (String × String)
  counter : Option DtoValue
  gauge : Option DtoValue
  histogram : Option DtoHistogram
  summary : Option DtoSummary
  untyped : Option DtoValue
deriving DecidableEq, Repr

/-- `dto.MetricType`. -/
inductive DtoMetricType where
  | counter | gauge | summary | untyped | histogram
deriving DecidableEq, Repr

/-- `dto.MetricType.String()`. -/
def typeName : DtoMetricType → String
  | .counter => "COUNTER"
  | .gauge => "GAUGE"
  | .summary => "SUMMARY"
  | .untyped => "UNTYPED"
  | .histogram => "HISTOGRAM"

/-- One entry of the family map `TextToMetricFamilies` returns (the
family name is the map key; `GetHelp`/`GetType` default absent fields
to `""` and `UNTYPED` exactly as the generated accessors do). -/
structure DtoFamily where
  name : String
  help : Option String
  typ : Option DtoMetricType
  metric : List DtoMetric
deriving DecidableEq, Repr

/-- `family.GetHelp()`. -/
def famHelp (f : DtoFamily) : String := f.help.getD ""

/-- `family.GetType()`. -/
def famType (f : DtoFamily) : DtoMetricType := f.typ.getD .untyped

/-- The label-map construction at the top of `Fetch`'s inner loop:
`labels[pair.GetName()] = pair.GetValue()` over `metric.GetLabel()`. -/
def labelsOf (metric : DtoMetric) : LabelMap :=
  metric.label.foldl (fun m kv => mapSet m kv.1 kv.2) []

/-- `hasMatchingLabels` from `fetcher.go`: some requested token is a
key of the metric's labels, or equals a key, or equals a
`fmt.Sprintf("%s=%s", key, value)` pair. -/
def hasMatchingLabels (metricLabels : LabelMap) (requestedLabels : List String) : Bool :=
  requestedLabels.any (fun r =>
    (mapGet metricLabels r).isSome
      || metricLabels.any (fun kv => r == kv.1 || r == kv.1 ++ "=" ++ kv.2))

/-- The `switch family.GetType()` body of `Fetch` that fills in the
shape-specific fields of the freshly created `MetricData`. -/
def extractTyped (f : DtoFamily) (metric : DtoMetric) (md : MetricData) : MetricData :=
  match famType f with
  | .counter =>
    match metric.counter with
    | some c => { md with Value := c.value.getD (.dec 0 0) }
    | none => md
  | .gauge =>
    match metric.gauge with
    | some g => { md with Value := g.value.getD (.dec 0 0) }
    | none => md
  | .histogram =>
    match metric.histogram with
    | some hg =>
      { md with
        SampleCount := some (hg.sampleCount.getD 0)
        SampleSum := some (hg.sampleSum.getD (.dec 0 0))
        Buckets := hg.bucket.map (fun b =>
          { UpperBound := b.upperBound.getD (.dec 0 0)
            CumulativeCount := b.cumulativeCount.getD 0 }) }
    | none => md
  | .summary =>
    match metric.summary with
    | some sm =>
      { md with
        SampleCount := some (sm.sampleCount.getD 0)
        SampleSum := some (sm.sampleSum.getD (.dec 0 0))
        Quantiles := sm.quantile.map (fun q =>
          { Quantile := q.quantile.getD (.dec 0 0)
            Value := q.value.getD (.dec 0 0) }) }
    | none => md
  | .untyped =>
    match metric.untyped with
    | some u => { md with Value := u.value.getD (.dec 0 0) }
    | none => md

/-- The `MetricData` `Fetch` builds for one metric of one family (base
struct literal, then the type `switch`). -/
def extractMetricData (f : DtoFamily) (metric : DtoMetric) : MetricData :=
  extractTyped f metric
    { Name := f.name
      Help := famHelp f
      Typ := typeName (famType f)
      Labels := labelsOf metric
      Value := .dec 0 0
      SampleCount := none
      SampleSum := none
      Buckets := []
      Quantiles := [] }

/-- The filter/extract loop of `Fetch` over the parsed family map
(modelled as a list of entries; the claims proved about it do not
depend on the Go map's iteration order). -/
def fetchFilter (families : List DtoFamily) (metricsF labelsF : List String) :
    List MetricData :=
  families.flatMap (fun f =>
    if metricsF.length > 0 && !(metricsF.contains f.name) then []
    else
      f.metric.filterMap (fun metric =>
        if labelsF.length > 0 && !(hasMatchingLabels (labelsOf metric) labelsF) then none
        else some (extractMetricData f metric)))

/-! ### `Fetch` end to end -/

/-- Go `error` values as built by `fmt.Errorf`: either a plain message
or a `%w`-wrap of an inner error behind a message prefix. -/
inductive GoError where
  | msg (s : String) : GoError
  | wrap (pre : String) (inner : GoError) : GoError
deriving DecidableEq, Repr

/-- The observable outcome of `mf.client.Get` followed by reading and
parsing the body: a network error, or a status code together with the
parse outcome of the body (the parse is performed by the external
`expfmt.TextParser`, so it enters the model as data). -/
inductive HttpOutcome where
  | netErr (e : GoError) : HttpOutcome
  | resp (status : Nat) (parsed : Except GoError (List DtoFamily)) : HttpOutcome
deriving Repr

/-- `MetricsFetcher.Fetch` from `fetcher.go`.  The Go function returns
`([]MetricData, error)`; `none` in the first component is Go's `nil`
slice, which is what every error path returns. -/
def fetchModel (url : String) (metricsF labelsF : List String) (conn : HttpOutcome) :
    Option (List MetricData) × Option GoError :=
  match conn with
  | .netErr e =>
    (none, some (.wrap ("failed to fetch metrics from " ++ url ++ ": ") e))
  | .resp status parsed =>
    if status ≠ 200 then
      (none, some (.msg ("received non-200 status code " ++ natStr status ++ " from " ++ url)))
    else
      match parsed with
      | .error e => (none, some (.wrap "failed to parse metrics: " e))
      | .ok fams => (some (fetchFilter fams metricsF labelsF), none)

/-! ### The exposition-format text parser (C1)

`Fetch` delegates parsing to `expfmt.TextParser`, an external library
whose source is not part of this repository; only the spec (§4.1)
describes it.  The functions below are therefore modelled from the
spec, not from repository source. -/

/-- Decidable equality for `Except` values (not derived by this
Mathlib snapshot). -/
instance exceptDecEq {α β : Type} [DecidableEq α] [DecidableEq β] : DecidableEq (Except α β) :=
  fun a b =>
    match a, b with
    | .error x, .error y =>
      if h : x = y then .isTrue (by rw [h])
      else .isFalse (by intro hc; cases hc; exact h rfl)
    | .ok x, .ok y =>
      if h : x = y then .isTrue (by rw [h])
      else .isFalse (by intro hc; cases hc; exact h rfl)
    | .error _, .ok _ => .isFalse (by intro hc; cases hc)
    | .ok _, .error _ => .isFalse (by intro hc; cases hc)

/-- Split a character stream into lines at `'\n'` (the line-oriented
grammar of §4.1). -/
def splitLinesAux : List Char → List Char → List (List Char)
  | acc, [] => [acc.reverse]
  | acc, c :: rest =>
    if c = '\n' then acc.reverse :: splitLinesAux [] rest
    else splitLinesAux (c :: acc) rest

/-- ASCII decimal digit test. -/
def isDigitCh (c : Char) : Bool := 48 ≤ c.toNat && c.toNat ≤ 57

/-- Numeric value of a digit character. -/
def digVal (c : Char) : Nat := c.toNat - 48

/-- Accumulating base-10 reading of a digit list. -/
def parseDigitsAcc : Nat → List Char → Nat
  | a, [] => a
  | a, c :: rest => parseDigitsAcc (a * 10 + digVal c) rest

/-- Modelled from the spec: the integer-and-fraction part of a numeric
literal — `digits [ "." digits ]`; returns the combined digits as a
natural number, the number of fractional digits, and the rest. -/
def parseMantissa (cs : List Char) : Option (Nat × Nat × List Char) :=
  let d1 := cs.takeWhile isDigitCh
  let r1 := cs.dropWhile isDigitCh
  if d1.isEmpty then none
  else if r1.head? = some '.' then
    let r2 := r1.tail
    let d2 := r2.takeWhile isDigitCh
    let r3 := r2.dropWhile isDigitCh
    if d2.isEmpty then none
    else some (parseDigitsAcc (parseDigitsAcc 0 d1) d2, d2.length, r3)
  else some (parseDigitsAcc 0 d1, 0, r1)

/-- Apply a decimal exponent to a mantissa `n / 10^p`. -/
def applyExp (n : Int) (p : Nat) (e : Int) : FloatVal :=
  if 0 ≤ e then .dec (n * (10 : Int) ^ e.natAbs) p
  else .dec n (p + e.natAbs)

/-- Split a leading sign off a numeric token. -/
def splitSign (cs : List Char) : Bool × List Char :=
  match cs with
  | [] => (false, [])
  | c :: rest =>
    if c = '-' then (true, rest)
    else if c = '+' then (false, rest)
    else (false, c :: rest)

/-- Modelled from the spec: the exponent tail of a numeric literal. -/
def parseExpPart (n : Int) (p : Nat) (cs : List Char) : Option FloatVal :=
  let sc := splitSign cs
  let d := sc.2.takeWhile isDigitCh
  let r := sc.2.dropWhile isDigitCh
  if d.isEmpty then none
  else if !r.isEmpty then none
  else
    let e : Int := if sc.1 then -(parseDigitsAcc 0 d : Int) else (parseDigitsAcc 0 d : Int)
    some (applyExp n p e)

/-- The numeric branch of `parseValue`: optional sign, mantissa,
optional exponent tail. -/
def parseNum (cs : List Char) : Option FloatVal :=
  let sc := splitSign cs
  match parseMantissa sc.2 with
  | none => none
  | some npr =>
    let sn : Int := if sc.1 then -(npr.1 : Int) else (npr.1 : Int)
    if npr.2.2.isEmpty then some (.dec sn npr.2.1)
    else if npr.2.2.head? = some 'e' then parseExpPart sn npr.2.1 npr.2.2.tail
    else if npr.2.2.head? = some 'E' then parseExpPart sn npr.2.1 npr.2.2.tail
    else none

/-- Modelled from the spec: `value` parses as a double, accepting
`NaN`, `+Inf`, `-Inf`, plain decimals and exponential notation. -/
def parseValue (cs : List Char) : Option FloatVal :=
  if cs = "NaN".data then some .nan
  else if cs = "+Inf".data then some (.inf true)
  else if cs = "-Inf".data then some (.inf false)
  else parseNum cs

/-- Modelled from the spec: the label-value escapes `\"`, `\\`, `\n`. -/
def decodeEsc (c : Char) : Option Char :=
  if c = '"' then some '"'
  else if c = '\\' then some '\\'
  else if c = 'n' then some '\n'
  else none

/-- Modelled from the spec: scan a double-quoted label value (after the
opening quote), decoding escapes, up to the closing quote; returns the
decoded value and the rest. -/
def scanValue : List Char → Option (List Char × List Char)
  | [] => none
  | c :: rest =>
    if c = '"' then some ([], rest)
    else if c = '\\' then
      match rest with
      | [] => none
      | e :: rest2 =>
        match decodeEsc e with
        | none => none
        | some d =>
          match scanValue rest2 with
          | none => none
          | some vr => some (d :: vr.1, vr.2)
    else
      match scanValue rest with
      | none => none
      | some vr => some (c :: vr.1, vr.2)

/-- Characters that end a label name. -/
def labelKeyStop (c : Char) : Bool := c == '=' || c == '\x7d' || c == '"' || c == ','

/-- Modelled from the spec: the label pairs of a label block (after the
opening brace), `name="value"` separated by commas, up to the closing
brace; fuel-driven (one unit per pair). -/
def parsePairs : Nat → List Char → Except String (LabelMap × List Char)
  | 0, _ => .error "labels: too many pairs"
  | fuel + 1, cs =>
    let k := cs.takeWhile (fun c => !labelKeyStop c)
    let r1 := cs.dropWhile (fun c => !labelKeyStop c)
    if k.isEmpty then .error "labels: empty label name"
    else
      match r1 with
      | '=' :: '"' :: r2 =>
        match scanValue r2 with
        | none => .error "labels: unterminated label value"
        | some vr =>
          match vr.2 with
          | ',' :: r4 =>
            match parsePairs fuel r4 with
            | .error e => .error e
            | .ok pr => .ok ((⟨k⟩, ⟨vr.1⟩) :: pr.1, pr.2)
          | '\x7d' :: r4 => .ok ([(⟨k⟩, ⟨vr.1⟩)], r4)
          | _ => .error "labels: expected comma or closing brace"
      | _ => .error "labels: expected = and quoted value"

/-- Characters that end a metric name on a sample line. -/
def nameStop (c : Char) : Bool := c == '\x7b' || c == ' '

/-- Modelled from the spec: the value (and ignored optional timestamp)
after the name/label part of a sample line. -/
def parseValueAfter (nm : String) (ps : LabelMap) (cs : List Char) :
    Except String (String × LabelMap × FloatVal) :=
  if cs.head? = some ' ' then
    let r := cs.tail.dropWhile (fun c => c == ' ')
    let tok := r.takeWhile (fun c => !(c == ' '))
    match parseValue tok with
    | none => .error "sample: unparsable value"
    | some v => .ok (nm, ps, v)
  else .error "sample: expected space before value"

/-- Modelled from the spec: a sample line
`metric_name{label1="v1",...} value [timestamp]` (label block
optional). -/
def parseSampleLine (cs : List Char) : Except String (String × LabelMap × FloatVal) :=
  let nm := cs.takeWhile (fun c => !nameStop c)
  let r1 := cs.dropWhile (fun c => !nameStop c)
  if nm.isEmpty then .error "sample: empty metric name"
  else if r1.head? = some '\x7b' then
    match parsePairs (r1.tail.length + 1) r1.tail with
    | .error e => .error e
    | .ok pr => parseValueAfter ⟨nm⟩ pr.1 pr.2
  else parseValueAfter ⟨nm⟩ [] r1

/-- Modelled from the spec: `<type>` of a `# TYPE` line,
case-insensitively one of counter/gauge/histogram/summary/untyped;
unknown types default to untyped. -/
def parseTypeKeyword (s : String) : DtoMetricType :=
  if lowStr s = "counter" then .counter
  else if lowStr s = "gauge" then .gauge
  else if lowStr s = "histogram" then .histogram
  else if lowStr s = "summary" then .summary
  else .untyped

/-- Find a family by name in the accumulating family list. -/
def famFind (fams : List DtoFamily) (nm : String) : Option DtoFamily :=
  fams.find? (fun f => f.name == nm)

/-- Set the help string for family `nm` (create if absent, §4.1). -/
def setHelp (fams : List DtoFamily) (nm help : String) : List DtoFamily :=
  if (famFind fams nm).isSome then
    fams.map (fun f => if f.name == nm then { f with help := some help } else f)
  else fams ++ [⟨nm, some help, none, []⟩]

/-- Set the type for family `nm` (create if absent, §4.1). -/
def setType (fams : List DtoFamily) (nm : String) (t : DtoMetricType) : List DtoFamily :=
  if (famFind fams nm).isSome then
    fams.map (fun f => if f.name == nm then { f with typ := some t } else f)
  else fams ++ [⟨nm, none, some t, []⟩]

/-- Append a complete metric to family `nm` (create if absent). -/
def addMetric (fams : List DtoFamily) (nm : String) (metric : DtoMetric) : List DtoFamily :=
  if (famFind fams nm).isSome then
    fams.map (fun f => if f.name == nm then { f with metric := f.metric ++ [metric] } else f)
  else fams ++ [⟨nm, none, none, [metric]⟩]

/-- One-directional label containment, by lookup. -/
def labelsSubset (a b : LabelMap) : Bool :=
  a.all (fun kv => mapGet b kv.1 == some kv.2)

/-- Two label lists denote the same map. -/
def labelsEquivB (a b : LabelMap) : Bool := labelsSubset a b && labelsSubset b a

/-- Remove a label key (the synthetic `le` / `quantile` key, §4.1). -/
def dropKey (ps : LabelMap) (k : String) : LabelMap :=
  ps.filter (fun kv => !(kv.1 == k))

/-- A metric carrying only a label set. -/
def emptyMetric (ps : LabelMap) : DtoMetric := ⟨ps, none, none, none, none, none⟩

/-- Update (or create) the metric of a family identified by its label
set (§4.1: "the remaining labels identify which MetricSample it
augments"). -/
def updMetricIn : List DtoMetric → LabelMap → (DtoMetric → DtoMetric) → List DtoMetric
  | [], rest, upd => [upd (emptyMetric rest)]
  | m :: ms, rest, upd =>
    if labelsEquivB m.label rest then upd m :: ms
    else m :: updMetricIn ms rest upd

/-- Apply a synthetic-series update to the sample of family `nm`
identified by label set `rest` (create family/sample when absent). -/
def updSample (fams : List DtoFamily) (nm : String) (rest : LabelMap)
    (upd : DtoMetric → DtoMetric) : List DtoFamily :=
  if (famFind fams nm).isSome then
    fams.map (fun f =>
      if f.name == nm then { f with metric := updMetricIn f.metric rest upd } else f)
  else fams ++ [⟨nm, none, none, [upd (emptyMetric rest)]⟩]

/-- A float that is in fact an unsigned integer (for `_bucket` /
`_count` counts). -/
def floatToCount (v : FloatVal) : Option Nat :=
  match v with
  | .dec n p =>
    let s := stripDec p n p
    if s.2 = 0 && decide (0 ≤ s.1) then some s.1.toNat else none
  | _ => none

/-- The declared type of family `nm`, when the family exists. -/
def declType (fams : List DtoFamily) (nm : String) : Option DtoMetricType :=
  (famFind fams nm).map famType

/-- Modelled from the spec: a `name_bucket` line contributes one
histogram bucket keyed by its `le` label; the remaining labels identify
the sample. -/
def attachBucket (fams : List DtoFamily) (base : String) (ps : LabelMap) (v : FloatVal) :
    Except String (List DtoFamily) :=
  match mapGet ps "le" with
  | none => .error "histogram bucket line without le label"
  | some leStr =>
    match parseValue leStr.data with
    | none => .error "histogram bucket line with unparsable le value"
    | some bound =>
      match floatToCount v with
      | none => .error "histogram bucket line with non-integer count"
      | some cnt =>
        .ok (updSample fams base (dropKey ps "le") (fun m =>
          let h := m.histogram.getD ⟨none, none, []⟩
          { m with histogram := some { h with bucket := h.bucket ++ [⟨some bound, some cnt⟩] } }))

/-- Modelled from the spec: a `name_sum` line attaches `sampleSum` to
the sample of the base family sharing the remaining label set. -/
def attachSum (fams : List DtoFamily) (base : String) (ps : LabelMap) (v : FloatVal)
    (isHist : Bool) : Except String (List DtoFamily) :=
  .ok (updSample fams base ps (fun m =>
    if isHist then
      let h := m.histogram.getD ⟨none, none, []⟩
      { m with histogram := some { h with sampleSum := some v } }
    else
      let s := m.summary.getD ⟨none, none, []⟩
      { m with summary := some { s with sampleSum := some v } }))

/-- Modelled from the spec: a `name_count` line attaches `sampleCount`
to the sample of the base family sharing the remaining label set. -/
def attachCount (fams : List DtoFamily) (base : String) (ps : LabelMap) (v : FloatVal)
    (isHist : Bool) : Except String (List DtoFamily) :=
  match floatToCount v with
  | none => .error "count line with non-integer value"
  | some cnt =>
    .ok (updSample fams base ps (fun m =>
      if isHist then
        let h := m.histogram.getD ⟨none, none, []⟩
        { m with histogram := some { h with sampleCount := some cnt } }
      else
        let s := m.summary.getD ⟨none, none, []⟩
        { m with summary := some { s with sampleCount := some cnt } }))

/-- Modelled from the spec: a quantile series of a summary family —
the `quantile` label selects the `(quantile, value)` pair, the
remaining labels identify the owning sample. -/
def attachQuantile (fams : List DtoFamily) (nm : String) (ps : LabelMap) (v : FloatVal) :
    Except String (List DtoFamily) :=
  match mapGet ps "quantile" with
  | none => .error "summary sample line without quantile label"
  | some qStr =>
    match parseValue qStr.data with
    | none => .error "summary sample line with unparsable quantile value"
    | some q =>
      .ok (updSample fams nm (dropKey ps "quantile") (fun m =>
        let s := m.summary.getD ⟨none, none, []⟩
        { m with summary := some { s with quantile := s.quantile ++ [⟨some q, some v⟩] } }))

/-- Strip a suffix from a name, when present. -/
def stripSuffixStr (s suf : String) : Option String :=
  let n := s.data.length
  let k := suf.data.length
  if k ≤ n && decide (s.data.drop (n - k) = suf.data) then some ⟨s.data.take (n - k)⟩
  else none

/-- The plain sample a line contributes, with the value stored in the
field selected by the family's declared type. -/
def plainMetric (t : Option DtoMetricType) (ps : LabelMap) (v : FloatVal) : DtoMetric :=
  match t with
  | some .counter => ⟨ps, some ⟨some v⟩, none, none, none, none⟩
  | some .gauge => ⟨ps, none, some ⟨some v⟩, none, none, none⟩
  | _ => ⟨ps, none, none, none, none, some ⟨some v⟩⟩

/-- Modelled from the spec: a plain sample line attaches a value to the
family of its own name with the type-appropriate value field; a
summary family consumes it as a quantile series; a histogram family
accepts no plain line. -/
def routePlain (fams : List DtoFamily) (nm : String) (ps : LabelMap) (v : FloatVal) :
    Except String (List DtoFamily) :=
  match declType fams nm with
  | some .summary =>
    if (mapGet ps "quantile").isSome then attachQuantile fams nm ps v
    else .error "sample line for summary family without quantile label"
  | some .histogram => .error "plain sample line for histogram family"
  | t => .ok (addMetric fams nm (plainMetric t ps v))

/-- Modelled from the spec: synthetic-series routing — `_bucket` /
`_sum` / `_count` suffixed lines belong to the base family when that
family's declared type is Histogram (or Summary for sum/count),
otherwise the line is a plain sample of its own family. -/
def routeSample (fams : List DtoFamily) (nm : String) (ps : LabelMap) (v : FloatVal) :
    Except String (List DtoFamily) :=
  match stripSuffixStr nm "_bucket" with
  | some base =>
    if declType fams base = some .histogram then attachBucket fams base ps v
    else routePlain fams nm ps v
  | none =>
    match stripSuffixStr nm "_sum" with
    | some base =>
      if declType fams base = some .histogram then attachSum fams base ps v true
      else if declType fams base = some .summary then attachSum fams base ps v false
      else routePlain fams nm ps v
    | none =>
      match stripSuffixStr nm "_count" with
      | some base =>
        if declType fams base = some .histogram then attachCount fams base ps v true
        else if declType fams base = some .summary then attachCount fams base ps v false
        else routePlain fams nm ps v
      | none => routePlain fams nm ps v

/-- Modelled from the spec: process one line — blank and comment lines
are ignored, `# HELP` / `# TYPE` update family metadata, anything else
is a sample line. -/
def procLine (fams : List DtoFamily) (line : List Char) : Except String (List DtoFamily) :=
  if line.isEmpty then .ok fams
  else if line.take 7 = "# HELP ".data then
    let r2 := line.drop 7
    let nm := r2.takeWhile (fun c => !(c == ' '))
    let r3 := r2.dropWhile (fun c => !(c == ' '))
    if r3.head? = some ' ' then
      if nm.isEmpty then .ok fams else .ok (setHelp fams ⟨nm⟩ ⟨r3.tail⟩)
    else .ok fams
  else if line.take 7 = "# TYPE ".data then
    let r2 := line.drop 7
    let nm := r2.takeWhile (fun c => !(c == ' '))
    let r3 := r2.dropWhile (fun c => !(c == ' '))
    if r3.head? = some ' ' then
      if nm.isEmpty then .ok fams else .ok (setType fams ⟨nm⟩ (parseTypeKeyword ⟨r3.tail⟩))
    else .ok fams
  else if line.head? = some '#' then .ok fams
  else if line.all (fun c => c == ' ') then .ok fams
  else
    match parseSampleLine line with
    | .error e => .error e
    | .ok r => routeSample fams r.1 r.2.1 r.2.2

/-- Fold `procLine` over the lines of a document. -/
def parseLines : List (List Char) → List DtoFamily → Except String (List DtoFamily)
  | [], fams => .ok fams
  | l :: rest, fams =>
    match procLine fams l with
    | .error e => .error e
    | .ok fams2 => parseLines rest fams2

/-- Modelled from the spec: the whole exposition parser
`parse(text) -> mapping<name, MetricFamily> | ParseError` (in the
repository this is the external `expfmt.TextParser`). -/
def parseExposition (s : String) : Except String (List DtoFamily) :=
  parseLines (splitLinesAux [] s.data) []

/-! ### The exposition-text serializer of `cmd/print.go` (C1)

`printPrometheusFormat` in `cmd/print.go` groups the fetched samples
by name, sorts the names, prints `# HELP` / `# TYPE` headers once per
family and then each sample; its `printSimpleMetric` /
`printHistogramMetric` / `printSummaryMetric` / `formatLabels` are
verbatim copies of the `fetcher.go` printers modelled above. -/

/-- The quantile line of `printSummary` for quantile `q` of a sample
with base labels `base` (value-level form, like `bucketLineOf`). -/
def quantileLineOf (name : String) (base : LabelMap) (q : SummaryQuantile) : String :=
  name ++ "\x7b" ++ formatLabels (mapSet base "quantile" (formatG q.Quantile)) ++ "\x7d "
    ++ formatG q.Value ++ "\n"

/-- Pure rendering of `printSummary` over the base label map value
(the summary counterpart of `printHistogramStr`). -/
def printSummaryStr (name : String) (base : LabelMap) (quantiles : List SummaryQuantile)
    (sampleSum : Option FloatVal) (sampleCount : Option Nat) : String :=
  concatAll (quantiles.map (quantileLineOf name base))
    ++ sumLines name (formatLabels base) sampleSum
    ++ countLines name (formatLabels base) sampleCount

/-- The per-metric output of `printPrometheusFormat`'s type switch
(`strings.ToLower`). -/
def printMetricLower (m : MetricData) : String :=
  if lowStr m.Typ = "histogram" then
    printHistogramStr m.Name m.Labels m.Buckets m.SampleSum m.SampleCount
  else if lowStr m.Typ = "summary" then
    printSummaryStr m.Name m.Labels m.Quantiles m.SampleSum m.SampleCount
  else printSimple m

/-- The per-metric output of `MetricData.Print` from `fetcher.go`
(`strings.ToUpper` switch; value-level form of the heap printers). -/
def printMetricUpper (m : MetricData) : String :=
  if upStr m.Typ = "HISTOGRAM" then
    printHistogramStr m.Name m.Labels m.Buckets m.SampleSum m.SampleCount
  else if upStr m.Typ = "SUMMARY" then
    printSummaryStr m.Name m.Labels m.Quantiles m.SampleSum m.SampleCount
  else printSimple m

/-- `Print` applied to every returned sample in order (the
serialization named by the round-trip claim). -/
def printAll (results : List MetricData) : String :=
  concatAll (results.map printMetricUpper)

/-- The metric names in first-appearance order (the key set of
`metricGroups`; the map iteration order is immaterial because the
names are sorted afterwards). -/
def collectNames (results : List MetricData) : List String :=
  results.foldl (fun acc m => if acc.contains m.Name then acc else acc ++ [m.Name]) []

/-- One family block of `printPrometheusFormat`: `# HELP` when the
(first sample's) help is non-empty, `# TYPE` with the lower-cased type
when non-empty, then every sample of the group. -/
def famBlock (results : List MetricData) (nm : String) : String :=
  match results.filter (fun m => m.Name == nm) with
  | [] => ""
  | meta :: rest =>
    (if meta.Help ≠ "" then "# HELP " ++ nm ++ " " ++ meta.Help ++ "\n" else "")
      ++ (if meta.Typ ≠ "" then "# TYPE " ++ nm ++ " " ++ lowStr meta.Typ ++ "\n" else "")
      ++ concatAll ((meta :: rest).map printMetricLower)

/-- `printPrometheusFormat` from `cmd/print.go` (one blank line
between family blocks, families in sorted name order). -/
def printPrometheusFormat (results : List MetricData) : String :=
  joinSep "\n" ((sortStrings (collectNames results)).map (famBlock results))

/-- The one-line content (no trailing newline) of `printSimple`. -/
def printSimpleContent (m : MetricData) : String :=
  if m.Labels.length > 0 then
    m.Name ++ "\x7b" ++ joinSep "," (sortedPairs m.Labels) ++ "\x7d " ++ formatG m.Value
  else m.Name ++ " " ++ formatG m.Value

/-- The line contents of one family block (simple families consist of
the optional `# HELP`, the optional `# TYPE` and one line per
sample). -/
def blockLines (results : List MetricData) (nm : String) : List (List Char) :=
  match results.filter (fun m => m.Name == nm) with
  | [] => []
  | meta :: rest =>
    (if meta.Help ≠ "" then [("# HELP " ++ nm ++ " " ++ meta.Help).data] else [])
      ++ (if meta.Typ ≠ "" then [("# TYPE " ++ nm ++ " " ++ lowStr meta.Typ).data] else [])
      ++ (meta :: rest).map (fun m => (printSimpleContent m).data)

/-- Rejoin line contents, one `'\n'` after each. -/
def flattenNl : List (List Char) → List Char
  | [] => []
  | l :: rest => l ++ '\n' :: flattenNl rest

/-- Concatenate per-block line lists with one blank line between
blocks (the `fmt.Println()` separator). -/
def interBlank : List (List (List Char)) → List (List Char)
  | [] => []
  | [b] => b
  | b :: rest => b ++ [] :: interBlank rest

/-! ### Semantic equivalence of parsed documents (C1)

"Same families, same samples, same numeric values up to formatting
canonicalization": families are compared as a map from name to
(help, type, sample list); samples pointwise; label sets as maps;
numeric values by `valEq`. -/

/-- Optional values compared numerically. -/
def valOptEq (a b : Option FloatVal) : Bool :=
  match a, b with
  | none, none => true
  | some x, some y => valEq x y
  | _, _ => false

/-- Counter/gauge/untyped sub-messages compared numerically. -/
def dvalEq (a b : Option DtoValue) : Bool :=
  match a, b with
  | none, none => true
  | some x, some y => valOptEq x.value y.value
  | _, _ => false

/-- Histogram buckets compared pointwise. -/
def bucketsEquiv : List DtoBucket → List DtoBucket → Bool
  | [], [] => true
  | x :: xs, y :: ys =>
    valOptEq x.upperBound y.upperBound && x.cumulativeCount == y.cumulativeCount
      && bucketsEquiv xs ys
  | _, _ => false

/-- Summary quantiles compared pointwise. -/
def quantsEquiv : List DtoQuantile → List DtoQuantile → Bool
  | [], [] => true
  | x :: xs, y :: ys =>
    valOptEq x.quantile y.quantile && valOptEq x.value y.value && quantsEquiv xs ys
  | _, _ => false

/-- Histogram sub-messages compared semantically. -/
def histEquiv (a b : Option DtoHistogram) : Bool :=
  match a, b with
  | none, none => true
  | some x, some y =>
    x.sampleCount == y.sampleCount && valOptEq x.sampleSum y.sampleSum
      && bucketsEquiv x.bucket y.bucket
  | _, _ => false

/-- Summary sub-messages compared semantically. -/
def summEquiv (a b : Option DtoSummary) : Bool :=
  match a, b with
  | none, none => true
  | some x, some y =>
    x.sampleCount == y.sampleCount && valOptEq x.sampleSum y.sampleSum
      && quantsEquiv x.quantile y.quantile
  | _, _ => false

/-- Two samples are the same: same label map, same shape, same
numbers. -/
def metricEquiv (m1 m2 : DtoMetric) : Bool :=
  labelsEquivB m1.label m2.label && dvalEq m1.counter m2.counter
    && dvalEq m1.gauge m2.gauge && dvalEq m1.untyped m2.untyped
    && histEquiv m1.histogram m2.histogram && summEquiv m1.summary m2.summary

/-- Sample lists compared pointwise (order within a family is
preserved by the pipeline). -/
def metricsEquiv : List DtoMetric → List DtoMetric → Bool
  | [], [] => true
  | x :: xs, y :: ys => metricEquiv x y && metricsEquiv xs ys
  | _, _ => false

/-- Two families are the same (help and type via the zero-defaulting
accessors). -/
def famEquivAt (f g : DtoFamily) : Bool :=
  famHelp f == famHelp g && decide (famType f = famType g) && metricsEquiv f.metric g.metric

/-- Two parsed documents are semantically equivalent: the same family
names, and for each name the same family. -/
def famsEquivB (a b : List DtoFamily) : Bool :=
  a.all (fun f => match famFind b f.name with
    | some g => famEquivAt f g
    | none => false)
  && b.all (fun g => match famFind a g.name with
    | some f => famEquivAt f g
    | none => false)

/-! ### Well-formedness of a parsed document (C1 hypotheses) -/

/-- Label-name characters that survive the round trip (no structural
characters of the label block, no escapes, no spaces). -/
def cleanKeyChar (c : Char) : Bool :=
  !(c == '=') && !(c == '"') && !(c == ',') && !(c == '\x7b') && !(c == '\x7d')
    && !(c == '\\') && !(c == '\n') && !(c == ' ')

/-- Label-value characters that survive the round trip (the serializer
does not escape, so no quote, backslash or newline). -/
def cleanValChar (c : Char) : Bool :=
  !(c == '"') && !(c == '\\') && !(c == '\n')

/-- Metric-name characters that survive the round trip. -/
def cleanNameChar (c : Char) : Bool :=
  !(c == '\x7b') && !(c == ' ') && !(c == '\n')

/-- A clean label pair: non-empty clean key, clean value. -/
def cleanPair (kv : String × String) : Bool :=
  !kv.1.data.isEmpty && kv.1.data.all cleanKeyChar && kv.2.data.all cleanValChar

/-- Unique label keys (Go maps and the dto guarantee this). -/
def KeysNodup (ps : LabelMap) : Prop := (ps.map Prod.fst).Nodup

instance : DecidablePred KeysNodup :=
  fun ps => List.nodupDecidable (ps.map Prod.fst)

/-- A clean simple sample of declared type `t`: clean unique labels,
exactly the type-appropriate value field present. -/
def cleanMetricAt (t : DtoMetricType) (m : DtoMetric) : Bool :=
  m.label.all cleanPair && decide (KeysNodup m.label)
    && m.histogram.isNone && m.summary.isNone
    && (match t with
        | .counter =>
          (match m.counter with | some c => c.value.isSome | none => false)
            && m.gauge.isNone && m.untyped.isNone
        | .gauge =>
          (match m.gauge with | some g => g.value.isSome | none => false)
            && m.counter.isNone && m.untyped.isNone
        | _ =>
          (match m.untyped with | some u => u.value.isSome | none => false)
            && m.counter.isNone && m.gauge.isNone)

/-- The simple (non-synthetic) metric shapes. -/
def simpleTypeB : DtoMetricType → Bool
  | .counter => true
  | .gauge => true
  | .untyped => true
  | _ => false

/-- A clean simple family: non-empty clean name, simple type, help
without newlines, at least one sample, all samples clean. -/
def cleanFam (f : DtoFamily) : Bool :=
  !f.name.data.isEmpty && f.name.data.all cleanNameChar
    && !(f.name.data.head? == some '#')
    && simpleTypeB (famType f)
    && (famHelp f).data.all (fun c => !(c == '\n'))
    && !f.metric.isEmpty
    && f.metric.all (cleanMetricAt (famType f))

/-- A clean parsed document of simple families: distinct names, every
family clean. -/
def cleanFams (fams : List DtoFamily) : Bool :=
  decide ((fams.map (fun f => f.name)).Nodup) && fams.all cleanFam

/-! ### Proof-level state predicates and reconstruction relations (C1) -/

/-- No family in the state carries this name yet. -/
def FreshName (S : List DtoFamily) (nm : String) : Prop := ∀ f ∈ S, f.name ≠ nm

/-- Every family in the state has a simple declared type. -/
def SimpleState (S : List DtoFamily) : Prop := ∀ f ∈ S, simpleTypeB (famType f) = true

/-- What the parser reconstructs for one printed simple sample: the
plain metric of the declared type, with an equivalent label set and an
equal value. -/
def reconRel (t : DtoMetricType) (m : MetricData) (dm : DtoMetric) : Prop :=
  ∃ qs w, dm = plainMetric (some t) qs w ∧ labelsEquivB m.Labels qs = true
    ∧ KeysNodup qs ∧ valEq w m.Value = true

/-- The line sequence of the whole printed document: the blocks' lines
with one blank line between consecutive blocks and one trailing empty
line (the text ends in `'\n'`). -/
def blockSeq (results : List MetricData) : List String → List (List Char)
  | [] => [[]]
  | [nm] => blockLines results nm ++ [[]]
  | nm :: rest => blockLines results nm ++ [] :: blockSeq results rest

/-- The family the parser reconstructs for one printed block: the name,
the first sample's help when non-empty, the declared simple type, and
the reconstructed samples. -/
def famRecon (results : List MetricData) (nm : String) (g : DtoFamily) : Prop :=
  ∃ t meta grest ms2, results.filter (fun m => m.Name == nm) = meta :: grest
    ∧ simpleTypeB t = true ∧ meta.Typ = typeName t
    ∧ g = ⟨nm, if meta.Help = "" then none else some meta.Help, some t, ms2⟩
    ∧ List.Forall₂ (reconRel t) (meta :: grest) ms2

/-- The per-name conditions under which one family block re-parses. -/
def blockOk (results : List MetricData) (nm : String) : Prop :=
  ∃ t meta grest, results.filter (fun m => m.Name == nm) = meta :: grest
    ∧ simpleTypeB t = true ∧ meta.Typ = typeName t
    ∧ nm.data ≠ [] ∧ (∀ c ∈ nm.data, cleanNameChar c = true) ∧ nm.data.head? ≠ some '#'
    ∧ ∀ m ∈ meta :: grest, m.Name = nm ∧ (∀ kv ∈ m.Labels, cleanPair kv = true)
        ∧ KeysNodup m.Labels

/-- The value stored in the type-selected simple sub-message. -/
def dtoSimpleValue (t : DtoMetricType) (mtr : DtoMetric) : Option FloatVal :=
  match t with
  | .counter => mtr.counter.bind (fun c => c.value)
  | .gauge => mtr.gauge.bind (fun g => g.value)
  | _ => mtr.untyped.bind (fun u => u.value)

/-- A concrete two-family exposition document for the round-trip
witness. -/
def docW : String :=
  "# HELP a Alpha metric\n# TYPE a counter\na\x7bx=\"1\"\x7d 2\n\n# TYPE b gauge\nb 3.5\n"

/-- The families `docW` parses to. -/
def famsW : List DtoFamily :=
  [⟨"a", some "Alpha metric", some .counter,
      [⟨[("x", "1")], some ⟨some (.dec 2 0)⟩, none, none, none, none⟩]⟩,
    ⟨"b", none, some .gauge,
      [⟨[], none, some ⟨some (.dec 35 1)⟩, none, none, none⟩]⟩]

/-! ### Order lemmas for the string comparison -/

theorem clLe_total : ∀ a b : List Char, clLe a b = true ∨ clLe b a = true
  | [], [] => Or.inl rfl
  | [], _ :: _ => Or.inl rfl
  | _ :: _, [] => Or.inr rfl
  | a :: as, b :: bs => by
    simp only [clLe]
    rcases Nat.lt_trichotomy a.toNat b.toNat with h | h | h
    · left; simp [h]
    · have h1 : ¬ a.toNat < b.toNat := by omega
      have h2 : ¬ b.toNat < a.toNat := by omega
      simp only [h1, h2, if_false]
      exact clLe_total as bs
    · right; simp [h]

theorem clLe_trans : ∀ a b c : List Char,
    clLe a b = true → clLe b c = true → clLe a c = true
  | [], _, _ => by intro _ _; rfl
  | _ :: _, [], _ => by intro h _; simp [clLe] at h
  | _ :: _, _ :: _, [] => by intro _ h; simp [clLe] at h
  | a :: as, b :: bs, c :: cs => by
    intro hab hbc
    simp only [clLe] at hab hbc ⊢
    rcases Nat.lt_trichotomy a.toNat c.toNat with h | h | h
    · simp [h]
    · have h1 : ¬ a.toNat < c.toNat := by omega
      have h2 : ¬ c.toNat < a.toNat := by omega
      simp only [h1, h2, if_false]
      by_cases hab1 : a.toNat < b.toNat
      · by_cases hbc1 : b.toNat < c.toNat
        · omega
        · by_cases hbc2 : c.toNat < b.toNat
          · simp [hbc1, hbc2] at hbc
          · omega
      · by_cases hab2 : b.toNat < a.toNat
        · simp [hab1, hab2] at hab
        · by_cases hbc1 : b.toNat < c.toNat
          · omega
          · by_cases hbc2 : c.toNat < b.toNat
            · omega
            · simp only [hab1, hab2, if_false] at hab
              simp only [hbc1, hbc2, if_false] at hbc
              exact clLe_trans as bs cs hab hbc
    · exfalso
      by_cases hab1 : a.toNat < b.toNat
      · by_cases hbc1 : b.toNat < c.toNat
        · omega
        · by_cases hbc2 : c.toNat < b.toNat
          · simp [hbc1, hbc2] at hbc
          · omega
      · by_cases hab2 : b.toNat < a.toNat
        · simp [hab1, hab2] at hab
        · by_cases hbc1 : b.toNat < c.toNat
          · omega
          · by_cases hbc2 : c.toNat < b.toNat
            · simp [hbc1, hbc2] at hbc
            · omega

instance : IsTotal String (fun a b => strLe a b = true) :=
  ⟨fun a b => clLe_total a.data b.data⟩

instance : IsTrans String (fun a b => strLe a b = true) :=
  ⟨fun a b c => clLe_trans a.data b.data c.data⟩

instance : DecidableRel (fun (a b : String) => strLe a b = true) :=
  fun a b => instDecidableEqBool (strLe a b) true

theorem sortedPairs_sorted (labels : LabelMap) :
    List.Sorted (fun a b => strLe a b = true) (sortedPairs labels) :=
  List.sorted_insertionSort _ _

theorem sortedPairs_perm (labels : LabelMap) :
    (sortedPairs labels).Perm (labels.map (fun kv => renderPair kv.1 kv.2)) :=
  List.perm_insertionSort _ _

/-! ### Small string facts -/

theorem renderPair_length (k v : String) : 0 < (renderPair k v).length := by
  have h1 : ("=\"" : String).length = 2 := rfl
  have h2 : ("\"" : String).length = 1 := rfl
  simp [renderPair, String.length_append, h1, h2]

theorem joinSep_length_pos : ∀ l : List String, l ≠ [] → (∀ s ∈ l, 0 < s.length) →
    0 < (joinSep "," l).length
  | [], h, _ => absurd rfl h
  | [s], _, hall => by
    simpa [joinSep] using hall s (by simp)
  | s :: t :: rest, _, hall => by
    have := hall s (by simp)
    simp [joinSep, String.length_append]
    omega

theorem mapSet_ne_nil (m : LabelMap) (k v : String) : mapSet m k v ≠ [] := by
  unfold mapSet
  split
  · rename_i h
    intro hc
    rw [List.map_eq_nil_iff] at hc
    subst hc
    simp at h
  · simp

theorem String.length_pos_ne_empty (s : String) (h : 0 < s.length) : s ≠ "" := by
  intro hc
  subst hc
  simp at h

theorem formatLabels_mapSet_ne_empty (m : LabelMap) (k v : String) :
    formatLabels (mapSet m k v) ≠ "" := by
  unfold formatLabels
  have hne : mapSet m k v ≠ [] := mapSet_ne_nil m k v
  have hlen : (mapSet m k v).length ≠ 0 := by
    simpa [List.length_eq_zero] using hne
  simp only [hlen, if_false]
  apply String.length_pos_ne_empty
  apply joinSep_length_pos
  · intro hc
    have := (sortedPairs_perm (mapSet m k v)).length_eq
    rw [hc] at this
    simp at this
    exact hlen (by simpa using this.symm)
  · intro s hs
    have : s ∈ (mapSet m k v).map (fun kv => renderPair kv.1 kv.2) :=
      (sortedPairs_perm (mapSet m k v)).mem_iff.mp hs
    rw [List.mem_map] at this
    obtain ⟨kv, _, rfl⟩ := this
    exact renderPair_length kv.1 kv.2

/-! ### Theorems for the claims -/

/-- C2 counterexample: the claim says `MarshalJSON` yields `null` for
infinite values, but at `+Inf` the `IsNaN` guard does not fire and
`json.Marshal` rejects the value with an error, so the result is not
`null`. -/
theorem marshalJSON_posInf_not_null :
    ¬ marshalJSON (FloatVal.inf true) = Except.ok "null" := by
  intro hc
  rw [show marshalJSON (FloatVal.inf true)
        = Except.error "json: unsupported value: Inf" from rfl] at hc
  exact Except.noConfusion hc

/-- C2 (amended): `MarshalJSON` returns `null` exactly for NaN; for
`+Inf` and `-Inf` it returns the error produced by `json.Marshal` on an
unsupported value, never `null`. -/
theorem marshalJSON_nan_null_inf_error :
    marshalJSON FloatVal.nan = Except.ok "null" ∧
    (∀ s : Bool, marshalJSON (FloatVal.inf s) = Except.error "json: unsupported value: Inf") ∧
    (∀ s : Bool, marshalJSON (FloatVal.inf s) ≠ Except.ok "null") := by
  refine ⟨rfl, fun s => ?_, fun s hc => ?_⟩ <;> cases s
  · rfl
  · rfl
  · exact Except.noConfusion hc
  · exact Except.noConfusion hc

/-- C10: `MetricData.String` returns the fixed placeholder for any
type string whose upper-casing is `HISTOGRAM` or `SUMMARY` (hence
case-insensitively), independent of the metric's buckets, quantiles,
sum and count, and gives the real one-line `printSimple` rendering for
every other type. -/
theorem stringRepr_spec (m : MetricData) :
    (upStr m.Typ = "HISTOGRAM" → stringRepr m = "TODO: Histogram\n") ∧
    (upStr m.Typ = "SUMMARY" → stringRepr m = "TODO: Summary\n") ∧
    (upStr m.Typ ≠ "HISTOGRAM" → upStr m.Typ ≠ "SUMMARY" → stringRepr m = printSimple m) := by
  refine ⟨fun h => ?_, fun h => ?_, fun h1 h2 => ?_⟩
  · unfold stringRepr
    rw [if_pos h]
  · unfold stringRepr
    have hne : upStr m.Typ ≠ "HISTOGRAM" := by
      rw [h]
      decide
    rw [if_neg hne, if_pos h]
  · unfold stringRepr
    rw [if_neg h1, if_neg h2]

/-- Witness for C10 at a mixed-case histogram type and a concrete
metric whose buckets and counts are present but ignored. -/
theorem stringRepr_spec_witness :
    stringRepr ⟨"h", "", "hIstOgRam", [], FloatVal.dec 1 0, some 20,
      some (FloatVal.dec 35 1), [⟨FloatVal.inf true, 20⟩], []⟩ = "TODO: Histogram\n" :=
  (stringRepr_spec _).1 (by decide)

/-- C8: a simple metric whose value is NaN prints the literal `NaN` in
exposition text, and its value marshals to `null` (and not to the
string `"NaN"`) in the structured JSON mode. -/
theorem nan_text_and_json (m : MetricData) (h : m.Value = FloatVal.nan) :
    printSimple m =
      (if m.Labels.length > 0 then
        m.Name ++ "\x7b" ++ joinSep "," (sortedPairs m.Labels) ++ "\x7d "
      else m.Name ++ " ") ++ "NaN" ++ "\n" ∧
    marshalJSON m.Value = Except.ok "null" ∧
    marshalJSON m.Value ≠ Except.ok "\"NaN\"" := by
  rw [h]
  refine ⟨?_, rfl, fun hc => absurd (Except.ok.inj hc) (by decide)⟩
  unfold printSimple
  rw [h]
  split <;> rfl

/-- Witness for C8 at a concrete labelled gauge holding NaN. -/
theorem nan_text_and_json_witness :
    printSimple ⟨"g", "", "GAUGE", [("a", "x")], FloatVal.nan, none, none, [], []⟩
      = "g\x7ba=\"x\"\x7d NaN\n" := by
  have h := (nan_text_and_json
    ⟨"g", "", "GAUGE", [("a", "x")], FloatVal.nan, none, none, [], []⟩ rfl).1
  rw [h]
  decide

/-- C7: `Fetch` returns a `nil` sample list and an error naming the
status code when the response is not 200; a parse failure is returned
as a wrap of the parser's error, unchanged, again with a `nil` sample
list; and every error outcome carries no samples. -/
theorem fetch_error_spec (url : String) (mF lF : List String) (status : Nat)
    (parsed : Except GoError (List DtoFamily)) (e : GoError) :
    (status ≠ 200 → fetchModel url mF lF (.resp status parsed) =
      (none, some (.msg ("received non-200 status code " ++ natStr status ++ " from " ++ url)))) ∧
    (status = 200 → parsed = .error e → fetchModel url mF lF (.resp status parsed) =
      (none, some (.wrap "failed to parse metrics: " e))) ∧
    (∀ conn : HttpOutcome, (fetchModel url mF lF conn).2.isSome →
      (fetchModel url mF lF conn).1 = none) := by
  refine ⟨fun h => ?_, fun h200 hp => ?_, fun conn herr => ?_⟩
  · simp [fetchModel, h]
  · subst hp
    simp [fetchModel, h200]
  · match conn with
    | .netErr e2 => rfl
    | .resp st p =>
      by_cases hst : st ≠ 200
      · simp [fetchModel, hst]
      · simp only [ne_eq, not_not] at hst
        subst hst
        match p with
        | .error e2 => rfl
        | .ok fams =>
          simp [fetchModel] at herr

/-- Witness for C7: an HTTP 503 response yields the status error and
no samples. -/
theorem fetch_error_spec_witness :
    fetchModel "http://x" [] [] (.resp 503 (.ok [])) =
      (none, some (.msg ("received non-200 status code " ++ natStr 503 ++ " from " ++ "http://x"))) :=
  (fetch_error_spec "http://x" [] [] 503 (.ok []) (.msg "")).1 (by decide)

/-- C3 counterexample: a parsed histogram whose source document had no
`_sum` series leaves the protobuf `sampleSum` field unset, but `Fetch`
unconditionally materializes `SampleSum` via `GetSampleSum()`, so the
resulting `MetricData` carries a present zero value instead of an
absent field. -/
theorem extract_omitted_sum_present_zero :
    (extractMetricData ⟨"h", none, some .histogram, []⟩
        ⟨[], none, none, some ⟨some 5, none, []⟩, none, none⟩).SampleSum
      = some (FloatVal.dec 0 0) ∧
    some (FloatVal.dec 0 0) ≠ (none : Option FloatVal) := by
  exact ⟨rfl, by decide⟩

/-- C3 (amended): for a histogram or summary metric whose protobuf
message is present, `Fetch` always sets `SampleCount` and `SampleSum`
(to the accessor defaults `0` when the source omitted the `_sum` /
`_count` series), while `Buckets` / `Quantiles` are absent exactly when
the source had none. -/
theorem extract_sum_count_always_present (f : DtoFamily) (metric : DtoMetric) :
    (∀ hg : DtoHistogram, famType f = .histogram → metric.histogram = some hg →
      (extractMetricData f metric).SampleCount = some (hg.sampleCount.getD 0) ∧
      (extractMetricData f metric).SampleSum = some (hg.sampleSum.getD (FloatVal.dec 0 0)) ∧
      ((extractMetricData f metric).Buckets = [] ↔ hg.bucket = [])) ∧
    (∀ sm : DtoSummary, famType f = .summary → metric.summary = some sm →
      (extractMetricData f metric).SampleCount = some (sm.sampleCount.getD 0) ∧
      (extractMetricData f metric).SampleSum = some (sm.sampleSum.getD (FloatVal.dec 0 0)) ∧
      ((extractMetricData f metric).Quantiles = [] ↔ sm.quantile = [])) := by
  constructor
  · intro hg hty hh
    unfold extractMetricData extractTyped
    rw [hty, hh]
    simp
  · intro sm hty hh
    unfold extractMetricData extractTyped
    rw [hty, hh]
    simp

/-- Witness for C3 (amended) at the histogram of the counterexample:
count present as 5, sum present as zero, buckets absent. -/
theorem extract_sum_count_always_present_witness :
    (extractMetricData ⟨"h", none, some .histogram, []⟩
        ⟨[], none, none, some ⟨some 5, none, []⟩, none, none⟩).SampleCount = some 5 ∧
    (extractMetricData ⟨"h", none, some .histogram, []⟩
        ⟨[], none, none, some ⟨some 5, none, []⟩, none, none⟩).SampleSum
      = some (FloatVal.dec 0 0) ∧
    ((extractMetricData ⟨"h", none, some .histogram, []⟩
        ⟨[], none, none, some ⟨some 5, none, []⟩, none, none⟩).Buckets = []
      ↔ ([] : List DtoBucket) = []) :=
  (extract_sum_count_always_present ⟨"h", none, some .histogram, []⟩
      ⟨[], none, none, some ⟨some 5, none, []⟩, none, none⟩).1
    ⟨some 5, none, []⟩ rfl rfl

/-- C4 counterexample: for keys `a < a0` (key `a` is a proper prefix
and `'0' < '='`), the rendered pair of the *larger* key `a0` is placed
first, because the code sorts the rendered `key="value"` strings, not
the keys. -/
theorem labels_not_sorted_by_key :
    sortedPairs [("a", "x"), ("a0", "y")] = ["a0=\"y\"", "a=\"x\""] ∧
    strLe "a" "a0" = true ∧ ("a" : String) ≠ "a0" ∧
    printSimple ⟨"m", "", "GAUGE", [("a", "x"), ("a0", "y")], FloatVal.dec 1 0,
        none, none, [], []⟩
      = "m\x7ba0=\"y\",a=\"x\"\x7d 1\n" := by
  refine ⟨by decide, by decide, by decide, by decide⟩

/-- C4 (amended): the serializer orders the label pairs inside the
braces lexicographically by the full rendered `key="value"` string (a
permutation of the stored pairs; this coincides with ordering by key
except when one key is a proper prefix of another whose next character
is below `'='`), and a sample with an empty label set is emitted with
no braces at all. -/
theorem labels_sorted_by_rendered_pair (labels : LabelMap) (m : MetricData) :
    List.Sorted (fun a b => strLe a b = true) (sortedPairs labels) ∧
    (sortedPairs labels).Perm (labels.map (fun kv => renderPair kv.1 kv.2)) ∧
    (m.Labels = [] → printSimple m = m.Name ++ " " ++ formatG m.Value ++ "\n") := by
  refine ⟨sortedPairs_sorted labels, sortedPairs_perm labels, fun h => ?_⟩
  unfold printSimple
  rw [h]
  rfl

/-- Witness for C4 (amended) at a two-label map and a label-free
metric. -/
theorem labels_sorted_by_rendered_pair_witness :
    List.Sorted (fun a b => strLe a b = true) (sortedPairs [("b", "2"), ("a", "1")]) ∧
    (sortedPairs [("b", "2"), ("a", "1")]).Perm
      ([("b", "2"), ("a", "1")].map (fun kv => renderPair kv.1 kv.2)) ∧
    printSimple ⟨"m", "", "", [], FloatVal.dec 7 0, none, none, [], []⟩
      = "m" ++ " " ++ formatG (FloatVal.dec 7 0) ++ "\n" :=
  ⟨(labels_sorted_by_rendered_pair [("b", "2"), ("a", "1")]
      ⟨"m", "", "", [], FloatVal.dec 7 0, none, none, [], []⟩).1,
   (labels_sorted_by_rendered_pair [("b", "2"), ("a", "1")]
      ⟨"m", "", "", [], FloatVal.dec 7 0, none, none, [], []⟩).2.1,
   (labels_sorted_by_rendered_pair [("b", "2"), ("a", "1")]
      ⟨"m", "", "", [], FloatVal.dec 7 0, none, none, [], []⟩).2.2 rfl⟩

/-! ### Filter membership (C5) -/

theorem mapGet_isSome_iff (l : LabelMap) (r : String) :
    (mapGet l r).isSome = true ↔ ∃ kv ∈ l, kv.1 = r := by
  simp [mapGet, List.find?_isSome, beq_iff_eq]

theorem nameFilterPass (mF : List String) (nm : String) :
    ¬ (mF.length > 0 && !(mF.contains nm)) = true ↔ (mF = [] ∨ nm ∈ mF) := by
  cases mF with
  | nil => simp
  | cons a t =>
    simp
    tauto

theorem hasMatchingLabels_iff (l : LabelMap) (toks : List String) :
    hasMatchingLabels l toks = true ↔
      ∃ tok ∈ toks, (mapGet l tok).isSome = true ∨ ∃ kv ∈ l, tok = kv.1 ++ "=" ++ kv.2 := by
  unfold hasMatchingLabels
  simp only [List.any_eq_true, Bool.or_eq_true, beq_iff_eq]
  constructor
  · rintro ⟨r, hr, h⟩
    refine ⟨r, hr, ?_⟩
    rcases h with h | ⟨kv, hkv, h | h⟩
    · exact Or.inl h
    · exact Or.inl ((mapGet_isSome_iff l r).mpr ⟨kv, hkv, h.symm⟩)
    · exact Or.inr ⟨kv, hkv, h⟩
  · rintro ⟨r, hr, h⟩
    refine ⟨r, hr, ?_⟩
    rcases h with h | ⟨kv, hkv, h⟩
    · exact Or.inl h
    · exact Or.inr ⟨kv, hkv, Or.inr h⟩

theorem labelFilterPass (l : LabelMap) (lF : List String) :
    ¬ (lF.length > 0 && !(hasMatchingLabels l lF)) = true ↔
      (lF = [] ∨ ∃ tok ∈ lF, (mapGet l tok).isSome = true ∨
        ∃ kv ∈ l, tok = kv.1 ++ "=" ++ kv.2) := by
  rw [← hasMatchingLabels_iff]
  cases lF with
  | nil => simp [hasMatchingLabels]
  | cons a t => simp

/-- C5: a sample appears in the `Fetch` result exactly when the name
filter passes (empty list, or the family name is a member) AND the
label filter passes (empty list, or some token is a key of the
sample's labels, or some token equals a rendered `key=value` pair);
label tokens are OR-combined with each other and AND-combined with the
name filter. -/
theorem fetch_sample_membership (families : List DtoFamily) (mF lF : List String)
    (md : MetricData) :
    md ∈ fetchFilter families mF lF ↔
      ∃ f ∈ families, ∃ metric ∈ f.metric,
        (mF = [] ∨ f.name ∈ mF) ∧
        (lF = [] ∨ ∃ tok ∈ lF, (mapGet (labelsOf metric) tok).isSome = true ∨
          ∃ kv ∈ labelsOf metric, tok = kv.1 ++ "=" ++ kv.2) ∧
        md = extractMetricData f metric := by
  unfold fetchFilter
  rw [List.mem_flatMap]
  constructor
  · rintro ⟨f, hf, hmd⟩
    by_cases hc : (mF.length > 0 && !(mF.contains f.name)) = true
    · rw [if_pos hc] at hmd
      simp at hmd
    · rw [if_neg hc] at hmd
      rw [List.mem_filterMap] at hmd
      obtain ⟨metric, hmet, hsome⟩ := hmd
      by_cases hl : (lF.length > 0 && !(hasMatchingLabels (labelsOf metric) lF)) = true
      · rw [if_pos hl] at hsome
        exact absurd hsome (by simp)
      · rw [if_neg hl] at hsome
        exact ⟨f, hf, metric, hmet, (nameFilterPass mF f.name).mp hc,
          (labelFilterPass (labelsOf metric) lF).mp hl,
          (Option.some.inj hsome).symm⟩
  · rintro ⟨f, hf, metric, hmet, hname, hlab, rfl⟩
    refine ⟨f, hf, ?_⟩
    rw [if_neg ((nameFilterPass mF f.name).mpr hname)]
    rw [List.mem_filterMap]
    exact ⟨metric, hmet,
      by rw [if_neg ((labelFilterPass (labelsOf metric) lF).mpr hlab)]⟩

/-! ### Heap lemmas and the synthetic-series printers (C6, C9) -/

theorem Heap.get_alloc_old (h : Heap) (m : LabelMap) (x : Nat) (hx : x < h.store.length) :
    (h.alloc m).1.get x = h.get x := by
  unfold Heap.alloc Heap.get
  exact List.getD_append _ _ _ _ hx

theorem Heap.get_alloc_new (h : Heap) (m : LabelMap) :
    (h.alloc m).1.get (h.alloc m).2 = m := by
  unfold Heap.alloc Heap.get
  rw [List.getD_append_right _ _ _ _ (le_refl _)]
  simp

theorem Heap.len_alloc (h : Heap) (m : LabelMap) :
    (h.alloc m).1.store.length = h.store.length + 1 := by
  unfold Heap.alloc
  simp

theorem Heap.alloc_addr_lt (h : Heap) (m : LabelMap) :
    (h.alloc m).2 < (h.alloc m).1.store.length := by
  unfold Heap.alloc
  simp

theorem Heap.get_ins_other (h : Heap) (b a : Nat) (k v : String) (hne : b ≠ a) :
    (h.ins b k v).get a = h.get a := by
  unfold Heap.ins Heap.get
  simp [List.getD, List.get?_eq_getElem?, List.getElem?_set_ne hne]

theorem Heap.get_ins_self (h : Heap) (b : Nat) (k v : String) (hb : b < h.store.length) :
    (h.ins b k v).get b = mapSet (h.get b) k v := by
  unfold Heap.ins Heap.get
  simp [List.getD, List.get?_eq_getElem?, List.getElem?_set_self hb]

theorem Heap.len_ins (h : Heap) (b : Nat) (k v : String) :
    (h.ins b k v).store.length = h.store.length := by
  unfold Heap.ins
  simp

theorem bucketStep_out (h : Heap) (name : String) (la : Option Nat) (b : HistogramBucket)
    (hok : addrOk h la) :
    (bucketStep h name la b).2 = bucketLineOf name (getLabels h la) b := by
  cases la with
  | some a =>
    simp only [bucketStep]
    rw [Heap.get_ins_self _ _ _ _ (Heap.alloc_addr_lt _ _), Heap.get_alloc_new]
    rw [if_pos (formatLabels_mapSet_ne_empty _ _ _)]
    rfl
  | none =>
    simp only [bucketStep]
    rw [Heap.get_ins_self _ _ _ _ (Heap.alloc_addr_lt _ _), Heap.get_alloc_new,
      Heap.get_alloc_new]
    rw [if_pos (formatLabels_mapSet_ne_empty _ _ _)]
    rfl

theorem bucketStep_frame (h : Heap) (name : String) (la : Option Nat) (b : HistogramBucket)
    (x : Nat) (hx : x < h.store.length) :
    (bucketStep h name la b).1.get x = h.get x := by
  cases la with
  | some a =>
    simp only [bucketStep]
    rw [Heap.get_ins_other, Heap.get_alloc_old _ _ _ hx]
    unfold Heap.alloc
    simp
    omega
  | none =>
    simp only [bucketStep]
    rw [Heap.get_ins_other, Heap.get_alloc_old, Heap.get_alloc_old _ _ _ hx]
    · rw [Heap.len_alloc]
      omega
    · unfold Heap.alloc
      simp
      omega

theorem bucketStep_len (h : Heap) (name : String) (la : Option Nat) (b : HistogramBucket) :
    h.store.length ≤ (bucketStep h name la b).1.store.length := by
  cases la with
  | some a =>
    simp only [bucketStep]
    rw [Heap.len_ins, Heap.len_alloc]
    omega
  | none =>
    simp only [bucketStep]
    rw [Heap.len_ins, Heap.len_alloc, Heap.len_alloc]
    omega

theorem bucketLoop_spec (name : String) (la : Option Nat) :
    ∀ (bs : List HistogramBucket) (h : Heap), addrOk h la →
      (bucketLoop name la h bs).2 = concatAll (bs.map (bucketLineOf name (getLabels h la))) ∧
      (∀ x, x < h.store.length → (bucketLoop name la h bs).1.get x = h.get x) ∧
      h.store.length ≤ (bucketLoop name la h bs).1.store.length
  | [], h, _ => ⟨rfl, fun _ _ => rfl, le_refl _⟩
  | b :: rest, h, hok => by
    have hstep_len := bucketStep_len h name la b
    have hok' : addrOk (bucketStep h name la b).1 la := by
      cases la with
      | none => trivial
      | some a => exact lt_of_lt_of_le hok hstep_len
    have ih := bucketLoop_spec name la rest (bucketStep h name la b).1 hok'
    have hlab : getLabels (bucketStep h name la b).1 la = getLabels h la := by
      cases la with
      | none => rfl
      | some a => exact bucketStep_frame h name (some a) b a hok
    refine ⟨?_, ?_, ?_⟩
    · show (bucketStep h name la b).2
        ++ (bucketLoop name la (bucketStep h name la b).1 rest).2 = _
      rw [ih.1, hlab, bucketStep_out h name la b hok]
      rfl
    · intro x hx
      show (bucketLoop name la (bucketStep h name la b).1 rest).1.get x = h.get x
      rw [ih.2.1 x (lt_of_lt_of_le hx hstep_len), bucketStep_frame h name la b x hx]
    · exact le_trans hstep_len ih.2.2

theorem quantileStep_frame (h : Heap) (name : String) (la : Option Nat) (q : SummaryQuantile)
    (x : Nat) (hx : x < h.store.length) :
    (quantileStep h name la q).1.get x = h.get x := by
  cases la with
  | some a =>
    simp only [quantileStep]
    rw [Heap.get_ins_other, Heap.get_alloc_old _ _ _ hx]
    unfold Heap.alloc
    simp
    omega
  | none =>
    simp only [quantileStep]
    rw [Heap.get_ins_other, Heap.get_alloc_old, Heap.get_alloc_old _ _ _ hx]
    · rw [Heap.len_alloc]
      omega
    · unfold Heap.alloc
      simp
      omega

theorem quantileStep_len (h : Heap) (name : String) (la : Option Nat) (q : SummaryQuantile) :
    h.store.length ≤ (quantileStep h name la q).1.store.length := by
  cases la with
  | some a =>
    simp only [quantileStep]
    rw [Heap.len_ins, Heap.len_alloc]
    omega
  | none =>
    simp only [quantileStep]
    rw [Heap.len_ins, Heap.len_alloc, Heap.len_alloc]
    omega

theorem quantileLoop_frame (name : String) (la : Option Nat) :
    ∀ (qs : List SummaryQuantile) (h : Heap),
      (∀ x, x < h.store.length → (quantileLoop name la h qs).1.get x = h.get x) ∧
      h.store.length ≤ (quantileLoop name la h qs).1.store.length
  | [], _ => ⟨fun _ _ => rfl, le_refl _⟩
  | q :: rest, h => by
    have hstep_len := quantileStep_len h name la q
    have ih := quantileLoop_frame name la rest (quantileStep h name la q).1
    refine ⟨?_, le_trans hstep_len ih.2⟩
    intro x hx
    show (quantileLoop name la (quantileStep h name la q).1 rest).1.get x = h.get x
    rw [ih.1 x (lt_of_lt_of_le hx hstep_len), quantileStep_frame h name la q x hx]

/-- C6: the exposition-text output of `printHistogram` is exactly one
`name_bucket` line per bucket, in the stored bucket order, each with
the synthetic `le` label merged into (a copy of) the base labels,
followed by one `name_sum` line if `SampleSum` is present and then one
`name_count` line if `SampleCount` is present, both carrying only the
base labels (see `printHistogramStr`, `bucketLineOf`, `sumLines`,
`countLines`). -/
theorem printHistogram_structure (h : Heap) (name : String) (la : Option Nat)
    (bs : List HistogramBucket) (ss : Option FloatVal) (sc : Option Nat)
    (hok : addrOk h la) :
    (printHistogramH h name la bs ss sc).2
      = printHistogramStr name (getLabels h la) bs ss sc := by
  show (bucketLoop name la h bs).2
      ++ sumLines name (formatLabels (getLabels h la)) ss
      ++ countLines name (formatLabels (getLabels h la)) sc = _
  rw [(bucketLoop_spec name la bs h hok).1]
  rfl

/-- Witness for C6: a concrete two-bucket histogram with labels,
evaluated to its exact output text. -/
theorem printHistogram_structure_witness :
    (printHistogramH ⟨[[("a", "x")]]⟩ "h" (some 0)
        [⟨FloatVal.dec 1 1, 10⟩, ⟨FloatVal.inf true, 20⟩]
        (some (FloatVal.dec 35 1)) (some 20)).2
      = "h_bucket\x7ba=\"x\",le=\"0.1\"\x7d 10\nh_bucket\x7ba=\"x\",le=\"+Inf\"\x7d 20\nh_sum\x7ba=\"x\"\x7d 3.5\nh_count\x7ba=\"x\"\x7d 20\n" := by
  rw [printHistogram_structure ⟨[[("a", "x")]]⟩ "h" (some 0)
    [⟨FloatVal.dec 1 1, 10⟩, ⟨FloatVal.inf true, 20⟩]
    (some (FloatVal.dec 35 1)) (some 20) Nat.one_pos]
  decide

/-- C9: serializing a histogram or summary sample leaves the sample's
base label map unchanged in the heap — each synthetic line works on a
freshly allocated copy of the base map, and no `le` / `quantile` key is
ever inserted at the base map's address. -/
theorem print_preserves_base_labels (h : Heap) (name : String) (a : Nat)
    (bs : List HistogramBucket) (qs : List SummaryQuantile)
    (ss : Option FloatVal) (sc : Option Nat) (ha : a < h.store.length) :
    ((printHistogramH h name (some a) bs ss sc).1).get a = h.get a ∧
    ((printSummaryH h name (some a) qs ss sc).1).get a = h.get a :=
  ⟨(bucketLoop_spec name (some a) bs h ha).2.1 a ha,
   (quantileLoop_frame name (some a) qs h).1 a ha⟩

/-- Witness for C9 at a concrete labelled histogram and summary: the
base map at address 0 still holds exactly its original pairs. -/
theorem print_preserves_base_labels_witness :
    ((printHistogramH ⟨[[("a", "x")]]⟩ "m" (some 0) [⟨FloatVal.inf true, 20⟩]
        (some (FloatVal.dec 35 1)) (some 20)).1).get 0 = [("a", "x")] ∧
    ((printSummaryH ⟨[[("a", "x")]]⟩ "m" (some 0) [⟨FloatVal.dec 5 1, FloatVal.dec 1 0⟩]
        (some (FloatVal.dec 35 1)) (some 20)).1).get 0 = [("a", "x")] := by
  have h := print_preserves_base_labels ⟨[[("a", "x")]]⟩ "m" 0
    [⟨FloatVal.inf true, 20⟩] [⟨FloatVal.dec 5 1, FloatVal.dec 1 0⟩]
    (some (FloatVal.dec 35 1)) (some 20) Nat.one_pos
  exact ⟨h.1.trans (by decide), h.2.trans (by decide)⟩

/-! ### C1: the round trip.  Counterexample to the claim as stated -/

set_option maxHeartbeats 2000000 in
/-- C1 counterexample: serializing with `MetricData.Print` alone (the
serialization the claim names) emits no `# HELP` / `# TYPE` lines, so
re-parsing the output of a round trip of the document
`# HELP g h\n# TYPE g gauge\ng 1\n` yields a family with no help and
untyped — not semantically equivalent to the original gauge family. -/
theorem roundtrip_print_only_loses_meta :
    parseExposition "# HELP g h\n# TYPE g gauge\ng 1\n"
      = .ok [⟨"g", some "h", some .gauge,
          [⟨[], none, some ⟨some (.dec 1 0)⟩, none, none, none⟩]⟩] ∧
    printAll (fetchFilter
        [⟨"g", some "h", some .gauge,
          [⟨[], none, some ⟨some (.dec 1 0)⟩, none, none, none⟩]⟩] [] []) = "g 1\n" ∧
    parseExposition "g 1\n"
      = .ok [⟨"g", none, none,
          [⟨[], none, none, none, none, some ⟨some (.dec 1 0)⟩⟩]⟩] ∧
    famsEquivB
        [⟨"g", some "h", some .gauge,
          [⟨[], none, some ⟨some (.dec 1 0)⟩, none, none, none⟩]⟩]
        [⟨"g", none, none,
          [⟨[], none, none, none, none, some ⟨some (.dec 1 0)⟩⟩]⟩] = false := by
  refine ⟨by decide, by decide, by decide, by decide⟩

/-! ### C1: digit strings round-trip -/

theorem parseDigitsAcc_append (a : Nat) (xs ys : List Char) :
    parseDigitsAcc a (xs ++ ys) = parseDigitsAcc (parseDigitsAcc a xs) ys := by
  induction xs generalizing a with
  | nil => rfl
  | cons c rest ih => exact ih (a * 10 + digVal c)

theorem digVal_digitChar (d : Nat) (h : d < 10) : digVal (digitChar d) = d := by
  interval_cases d <;> rfl

theorem isDigitCh_digitChar (d : Nat) (h : d < 10) : isDigitCh (digitChar d) = true := by
  interval_cases d <;> rfl

theorem parseDigitsAcc_nil (a : Nat) : parseDigitsAcc a [] = a := rfl

theorem parseDigitsAcc_cons (a : Nat) (c : Char) (rest : List Char) :
    parseDigitsAcc a (c :: rest) = parseDigitsAcc (a * 10 + digVal c) rest := rfl

theorem natCharsAux_zero (fuel : Nat) : natCharsAux fuel 0 = [] := by
  cases fuel with
  | zero => rfl
  | succ f =>
    show (if 0 = 0 then [] else _) = []
    rw [if_pos rfl]

theorem natCharsAux_succ (fuel n : Nat) (hn : n ≠ 0) :
    natCharsAux (fuel + 1) n = natCharsAux fuel (n / 10) ++ [digitChar (n % 10)] := by
  show (if n = 0 then [] else natCharsAux fuel (n / 10) ++ [digitChar (n % 10)]) = _
  rw [if_neg hn]

theorem natCharsAux_parse (fuel : Nat) : ∀ (n a : Nat), n ≤ fuel →
    parseDigitsAcc a (natCharsAux fuel n)
      = a * 10 ^ (natCharsAux fuel n).length + n := by
  induction fuel with
  | zero =>
    intro n a h
    have hn : n = 0 := by omega
    subst hn
    rw [natCharsAux_zero, parseDigitsAcc_nil]
    simp
  | succ fuel ih =>
    intro n a h
    by_cases hn : n = 0
    · subst hn
      rw [natCharsAux_zero, parseDigitsAcc_nil]
      simp
    · rw [natCharsAux_succ fuel n hn, parseDigitsAcc_append]
      have hle : n / 10 ≤ fuel := by omega
      rw [ih (n / 10) a hle]
      have hmod : digVal (digitChar (n % 10)) = n % 10 := digVal_digitChar _ (by omega)
      have hdm : n / 10 * 10 + n % 10 = n := by omega
      rw [parseDigitsAcc_cons, parseDigitsAcc_nil, hmod, List.length_append,
        List.length_cons, List.length_nil]
      calc (a * 10 ^ (natCharsAux fuel (n / 10)).length + n / 10) * 10 + n % 10
          = a * (10 ^ (natCharsAux fuel (n / 10)).length * 10) + (n / 10 * 10 + n % 10) := by
            ring
        _ = a * 10 ^ ((natCharsAux fuel (n / 10)).length + (0 + 1)) + n := by
            rw [hdm, Nat.zero_add, pow_succ]

theorem natChars_parse_pow (n a : Nat) :
    parseDigitsAcc a (natChars n) = a * 10 ^ (natChars n).length + n := by
  unfold natChars
  by_cases h : n = 0
  · subst h
    rw [if_pos rfl]
    rw [parseDigitsAcc_cons, parseDigitsAcc_nil]
    show a * 10 + 0 = a * 10 ^ 1 + 0
    ring
  · rw [if_neg h]
    exact natCharsAux_parse n n a (le_refl n)

theorem natChars_parse (n : Nat) : parseDigitsAcc 0 (natChars n) = n := by
  rw [natChars_parse_pow]
  simp

theorem natCharsAux_digits (fuel : Nat) : ∀ n, ∀ c ∈ natCharsAux fuel n, isDigitCh c = true := by
  induction fuel with
  | zero => intro n c hc; simp [natCharsAux_zero 0, natCharsAux] at hc
  | succ fuel ih =>
    intro n c hc
    by_cases hn : n = 0
    · subst hn
      rw [natCharsAux_zero] at hc
      simp at hc
    · rw [natCharsAux_succ fuel n hn] at hc
      rcases List.mem_append.mp hc with h | h
      · exact ih (n / 10) c h
      · simp at h
        subst h
        exact isDigitCh_digitChar _ (by omega)

theorem natChars_digits (n : Nat) : ∀ c ∈ natChars n, isDigitCh c = true := by
  unfold natChars
  by_cases h : n = 0
  · subst h
    rw [if_pos rfl]
    intro c hc
    simp at hc
    subst hc
    rfl
  · rw [if_neg h]; exact natCharsAux_digits n n

theorem natChars_ne_nil (n : Nat) : natChars n ≠ [] := by
  unfold natChars
  by_cases h : n = 0
  · subst h; simp
  · rw [if_neg h]
    match n, h with
    | m + 1, h =>
      rw [natCharsAux_succ m (m + 1) h]
      simp

theorem natCharsAux_length_le (fuel : Nat) : ∀ n p, n ≤ fuel → n < 10 ^ p →
    (natCharsAux fuel n).length ≤ p := by
  induction fuel with
  | zero =>
    intro n p h _
    have : n = 0 := by omega
    subst this
    simp [natCharsAux]
  | succ fuel ih =>
    intro n p h hp
    by_cases hn : n = 0
    · subst hn; simp [natCharsAux]
    · rw [natCharsAux_succ fuel n hn, List.length_append]
      have hp1 : 1 ≤ p := by
        by_contra hc
        have hz : p = 0 := by omega
        subst hz
        simp at hp
        omega
      have hdiv : n / 10 < 10 ^ (p - 1) := by
        rw [Nat.div_lt_iff_lt_mul (by omega)]
        calc n < 10 ^ p := hp
          _ = 10 ^ (p - 1) * 10 := by
            rw [← pow_succ]
            congr 1
            omega
      have := ih (n / 10) (p - 1) (by omega) hdiv
      simp
      omega

theorem natChars_length (n : Nat) :
    (natChars n).length = if n = 0 then 1 else (natCharsAux n n).length := by
  unfold natChars
  by_cases h : n = 0
  · subst h; rfl
  · rw [if_neg h, if_neg h]

theorem parseDigitsAcc_replicate_zero (k : Nat) : ∀ a : Nat,
    parseDigitsAcc a (List.replicate k '0') = a * 10 ^ k := by
  induction k with
  | zero => intro a; simp [parseDigitsAcc_nil]
  | succ k ih =>
    intro a
    rw [List.replicate_succ, parseDigitsAcc_cons, ih]
    have : digVal '0' = 0 := rfl
    rw [this]
    ring

theorem padDigits_length (p fp : Nat) (h : fp < 10 ^ p) (hp : 0 < p) :
    (padDigits p fp).length = p := by
  unfold padDigits
  rw [List.length_append, List.length_replicate]
  rw [show (if fp = 0 then 1 else (natCharsAux fp fp).length) = (natChars fp).length from
    (natChars_length fp).symm]
  have hle : (natChars fp).length ≤ p := by
    rw [natChars_length]
    by_cases h0 : fp = 0
    · rw [if_pos h0]; omega
    · rw [if_neg h0]
      exact natCharsAux_length_le fp fp p (le_refl fp) h
  omega

theorem padDigits_digits (p fp : Nat) : ∀ c ∈ padDigits p fp, isDigitCh c = true := by
  intro c hc
  unfold padDigits at hc
  rcases List.mem_append.mp hc with h | h
  · rw [List.eq_of_mem_replicate h]
    rfl
  · exact natChars_digits fp c h

theorem padDigits_parse (p fp a : Nat) (h : fp < 10 ^ p) (hp : 0 < p) :
    parseDigitsAcc a (padDigits p fp) = a * 10 ^ p + fp := by
  unfold padDigits
  rw [parseDigitsAcc_append, parseDigitsAcc_replicate_zero, natChars_parse_pow]
  rw [show (if fp = 0 then 1 else (natCharsAux fp fp).length) = (natChars fp).length from
    (natChars_length fp).symm]
  have hle : (natChars fp).length ≤ p := by
    rw [natChars_length]
    by_cases h0 : fp = 0
    · rw [if_pos h0]; omega
    · rw [if_neg h0]
      exact natCharsAux_length_le fp fp p (le_refl fp) h
  have hpow : 10 ^ (p - (natChars fp).length) * 10 ^ (natChars fp).length = 10 ^ p := by
    rw [← pow_add]
    congr 1
    omega
  rw [mul_assoc, hpow]

/-! ### C1: `stripDec` preserves the numeric value -/

theorem stripDec_cross (fuel : Nat) : ∀ (n : Int) (p : Nat),
    (stripDec fuel n p).1 * (10 : Int) ^ p = n * (10 : Int) ^ (stripDec fuel n p).2 := by
  induction fuel with
  | zero => intro n p; rfl
  | succ fuel ih =>
    intro n p
    have hunf : stripDec (fuel + 1) n p
        = if n = 0 then ((0 : Int), (0 : Nat))
          else if p ≠ 0 ∧ n % 10 = 0 then stripDec fuel (n / 10) (p - 1) else (n, p) := rfl
    rw [hunf]
    by_cases h0 : n = 0
    · subst h0
      rw [if_pos rfl]
      simp
    · rw [if_neg h0]
      by_cases hc : p ≠ 0 ∧ n % 10 = 0
      · rw [if_pos hc]
        have ih' := ih (n / 10) (p - 1)
        have hdvd : (10 : Int) ∣ n := Int.dvd_of_emod_eq_zero hc.2
        have hn10 : n / 10 * 10 = n := Int.ediv_mul_cancel hdvd
        have hp : p - 1 + 1 = p := by omega
        calc (stripDec fuel (n / 10) (p - 1)).1 * (10 : Int) ^ p
            = (stripDec fuel (n / 10) (p - 1)).1 * (10 : Int) ^ (p - 1) * 10 := by
              rw [mul_assoc, ← pow_succ, hp]
          _ = n / 10 * (10 : Int) ^ (stripDec fuel (n / 10) (p - 1)).2 * 10 := by rw [ih']
          _ = n / 10 * 10 * (10 : Int) ^ (stripDec fuel (n / 10) (p - 1)).2 := by ring
          _ = n * (10 : Int) ^ (stripDec fuel (n / 10) (p - 1)).2 := by rw [hn10]
      · rw [if_neg hc]

theorem stripDec_valEq (num : Int) (pow : Nat) :
    valEq (.dec (stripDec pow num pow).1 (stripDec pow num pow).2) (.dec num pow) = true := by
  show ((stripDec pow num pow).1 * (10 : Int) ^ pow
    == num * (10 : Int) ^ (stripDec pow num pow).2) = true
  rw [beq_iff_eq]
  exact stripDec_cross pow num pow

/-! ### C1: span lemmas -/

theorem takeWhile_append_stop (p : Char → Bool) (xs : List Char) (y : Char) (ys : List Char)
    (hall : ∀ c ∈ xs, p c = true) (hy : p y = false) :
    (xs ++ y :: ys).takeWhile p = xs ∧ (xs ++ y :: ys).dropWhile p = y :: ys := by
  induction xs with
  | nil => simp [List.takeWhile_cons, List.dropWhile_cons, hy]
  | cons c rest ih =>
    have hc := hall c (by simp)
    have ih' := ih (fun c h => hall c (by simp [h]))
    simp only [List.cons_append, List.takeWhile_cons, List.dropWhile_cons, hc]
    simp only [if_true]
    exact ⟨by rw [ih'.1], ih'.2⟩

theorem takeWhile_all (p : Char → Bool) (xs : List Char) (hall : ∀ c ∈ xs, p c = true) :
    xs.takeWhile p = xs ∧ xs.dropWhile p = [] := by
  induction xs with
  | nil => simp
  | cons c rest ih =>
    have hc := hall c (by simp)
    have ih' := ih (fun c h => hall c (by simp [h]))
    simp only [List.takeWhile_cons, List.dropWhile_cons, hc]
    simp only [if_true]
    exact ⟨by rw [ih'.1], ih'.2⟩

/-! ### C1: value literals round-trip through the parser -/

theorem digit_ne (c : Char) (h : isDigitCh c = true) :
    c ≠ '-' ∧ c ≠ '+' ∧ c ≠ '.' ∧ c ≠ ' ' ∧ c ≠ '\n' ∧ c ≠ 'N' ∧ c ≠ 'I' := by
  unfold isDigitCh at h
  simp only [Bool.and_eq_true, decide_eq_true_eq] at h
  refine ⟨?_, ?_, ?_, ?_, ?_, ?_, ?_⟩ <;> intro hc <;> subst hc <;> revert h <;> decide

theorem natChars_cons (m : Nat) : ∃ c cs, natChars m = c :: cs ∧ isDigitCh c = true := by
  cases hm : natChars m with
  | nil => exact absurd hm (natChars_ne_nil m)
  | cons c cs =>
    refine ⟨c, cs, rfl, ?_⟩
    have := natChars_digits m c (by rw [hm]; simp)
    exact this

theorem splitSign_digits (m : Nat) : splitSign (natChars m) = (false, natChars m) := by
  obtain ⟨c, cs, hcc, hd⟩ := natChars_cons m
  rw [hcc]
  show (if c = '-' then (true, cs) else if c = '+' then (false, cs) else (false, c :: cs)) = _
  rw [if_neg (digit_ne c hd).1, if_neg (digit_ne c hd).2.1]

theorem isEmpty_false_of_ne_nil {l : List Char} (h : l ≠ []) : l.isEmpty = false := by
  cases l with
  | nil => exact absurd rfl h
  | cons c cs => rfl

theorem parseMantissa_digits (m : Nat) :
    parseMantissa (natChars m) = some (m, 0, ([] : List Char)) := by
  unfold parseMantissa
  have hsp := takeWhile_all isDigitCh (natChars m) (natChars_digits m)
  rw [hsp.1, hsp.2]
  dsimp only
  rw [isEmpty_false_of_ne_nil (natChars_ne_nil m)]
  simp only [Bool.false_eq_true, if_false, List.head?_nil]
  rw [if_neg (by simp)]
  rw [natChars_parse]

theorem parseMantissa_frac (ip p fp : Nat) (h : fp < 10 ^ p) (hp : 0 < p) :
    parseMantissa (natChars ip ++ '.' :: padDigits p fp)
      = some (ip * 10 ^ p + fp, p, ([] : List Char)) := by
  unfold parseMantissa
  have hsp := takeWhile_append_stop isDigitCh (natChars ip) '.' (padDigits p fp)
    (natChars_digits ip) (by decide)
  rw [hsp.1, hsp.2]
  dsimp only
  rw [isEmpty_false_of_ne_nil (natChars_ne_nil ip)]
  simp only [Bool.false_eq_true, if_false, List.head?_cons, List.tail_cons,
    if_true, if_pos]
  have hsp2 := takeWhile_all isDigitCh (padDigits p fp) (padDigits_digits p fp)
  rw [hsp2.1, hsp2.2]
  have hne : padDigits p fp ≠ [] := by
    intro hc
    have := padDigits_length p fp h hp
    rw [hc] at this
    simp at this
    omega
  rw [isEmpty_false_of_ne_nil hne]
  simp only [Bool.false_eq_true, if_false]
  rw [natChars_parse, padDigits_parse p fp ip h hp, padDigits_length p fp h hp]

theorem parseNum_digits_pos (m : Nat) : parseNum (natChars m) = some (.dec (m : Int) 0) := by
  unfold parseNum
  rw [splitSign_digits]
  dsimp only
  rw [parseMantissa_digits]
  simp

theorem splitSign_neg (cs : List Char) : splitSign ('-' :: cs) = (true, cs) := rfl

theorem parseNum_digits_neg (m : Nat) :
    parseNum ('-' :: natChars m) = some (.dec (-(m : Int)) 0) := by
  unfold parseNum
  rw [splitSign_neg]
  dsimp only
  rw [parseMantissa_digits]
  simp

theorem splitSign_frac (ip p fp : Nat) :
    splitSign (natChars ip ++ '.' :: padDigits p fp)
      = (false, natChars ip ++ '.' :: padDigits p fp) := by
  obtain ⟨c, cs, hcc, hd⟩ := natChars_cons ip
  rw [hcc]
  show (if c = '-' then _ else if c = '+' then _ else (false, c :: (cs ++ '.' :: padDigits p fp))) = _
  rw [if_neg (digit_ne c hd).1, if_neg (digit_ne c hd).2.1]
  simp

theorem parseNum_frac_pos (ip p fp : Nat) (h : fp < 10 ^ p) (hp : 0 < p) :
    parseNum (natChars ip ++ '.' :: padDigits p fp)
      = some (.dec ((ip * 10 ^ p + fp : Nat) : Int) p) := by
  unfold parseNum
  rw [splitSign_frac]
  dsimp only
  rw [parseMantissa_frac ip p fp h hp]
  simp

theorem parseNum_frac_neg (ip p fp : Nat) (h : fp < 10 ^ p) (hp : 0 < p) :
    parseNum ('-' :: (natChars ip ++ '.' :: padDigits p fp))
      = some (.dec (-((ip * 10 ^ p + fp : Nat) : Int)) p) := by
  unfold parseNum
  rw [splitSign_neg]
  dsimp only
  rw [parseMantissa_frac ip p fp h hp]
  simp

theorem headDigit_ne_tokens (c : Char) (cs : List Char) (h : isDigitCh c = true) :
    c :: cs ≠ "NaN".data ∧ c :: cs ≠ "+Inf".data ∧ c :: cs ≠ "-Inf".data := by
  refine ⟨?_, ?_, ?_⟩ <;> intro hc
  · rw [show "NaN".data = ['N', 'a', 'N'] from rfl] at hc
    injection hc with h1 _
    subst h1
    exact absurd h (by decide)
  · rw [show "+Inf".data = ['+', 'I', 'n', 'f'] from rfl] at hc
    injection hc with h1 _
    subst h1
    exact absurd h (by decide)
  · rw [show "-Inf".data = ['-', 'I', 'n', 'f'] from rfl] at hc
    injection hc with h1 _
    subst h1
    exact absurd h (by decide)

theorem negHead_ne_tokens (c : Char) (cs : List Char) (h : isDigitCh c = true) :
    '-' :: c :: cs ≠ "NaN".data ∧ '-' :: c :: cs ≠ "+Inf".data ∧ '-' :: c :: cs ≠ "-Inf".data := by
  refine ⟨?_, ?_, ?_⟩ <;> intro hc
  · rw [show "NaN".data = ['N', 'a', 'N'] from rfl] at hc
    injection hc with h1 _
    exact absurd h1 (by decide)
  · rw [show "+Inf".data = ['+', 'I', 'n', 'f'] from rfl] at hc
    injection hc with h1 _
    exact absurd h1 (by decide)
  · rw [show "-Inf".data = ['-', 'I', 'n', 'f'] from rfl] at hc
    injection hc with _ h2
    injection h2 with h1 _
    subst h1
    exact absurd h (by decide)

theorem parseValue_not_token (cs : List Char) (h1 : cs ≠ "NaN".data)
    (h2 : cs ≠ "+Inf".data) (h3 : cs ≠ "-Inf".data) :
    parseValue cs = parseNum cs := by
  unfold parseValue
  rw [if_neg h1, if_neg h2, if_neg h3]

theorem formatG_dec_data (num : Int) (pow : Nat) :
    (formatG (.dec num pow)).data
      = (if (stripDec pow num pow).1 < 0 then ['-'] else [])
        ++ (if (stripDec pow num pow).2 = 0
            then natChars (stripDec pow num pow).1.natAbs
            else natChars ((stripDec pow num pow).1.natAbs / 10 ^ (stripDec pow num pow).2)
              ++ '.' :: padDigits (stripDec pow num pow).2
                  ((stripDec pow num pow).1.natAbs % 10 ^ (stripDec pow num pow).2)) := by
  show ((let np := stripDec pow num pow
        let n := np.1
        let p := np.2
        let sign : String := if n < 0 then "-" else ""
        let m := n.natAbs
        if p = 0 then sign ++ natStr m
        else sign ++ natStr (m / 10 ^ p) ++ "." ++ (⟨padDigits p (m % 10 ^ p)⟩ : String)) : String).data = _
  dsimp only
  by_cases hp : (stripDec pow num pow).2 = 0 <;>
    by_cases hneg : (stripDec pow num pow).1 < 0 <;>
    simp [hp, hneg, String.data_append, natStr]

theorem parseValue_formatG_dec (num : Int) (pow : Nat) :
    parseValue (formatG (.dec num pow)).data
      = some (.dec (stripDec pow num pow).1 (stripDec pow num pow).2) := by
  rw [formatG_dec_data]
  by_cases hp : (stripDec pow num pow).2 = 0 <;>
    by_cases hneg : (stripDec pow num pow).1 < 0
  · -- integer, negative
    rw [if_pos hneg, if_pos hp]
    obtain ⟨c, cs', hcc, hd⟩ := natChars_cons (stripDec pow num pow).1.natAbs
    rw [hcc]
    have hne := negHead_ne_tokens c cs' hd
    rw [List.singleton_append]
    rw [parseValue_not_token _ hne.1 hne.2.1 hne.2.2]
    rw [← hcc, parseNum_digits_neg]
    congr 1
    congr 1
    · omega
    · omega
  · -- integer, nonnegative
    rw [if_neg hneg, if_pos hp]
    obtain ⟨c, cs', hcc, hd⟩ := natChars_cons (stripDec pow num pow).1.natAbs
    rw [hcc]
    have hne := headDigit_ne_tokens c cs' hd
    rw [List.nil_append]
    rw [parseValue_not_token _ hne.1 hne.2.1 hne.2.2]
    rw [← hcc, parseNum_digits_pos]
    congr 1
    congr 1
    · omega
    · omega
  · -- fraction, negative
    rw [if_pos hneg, if_neg hp]
    have hfp : (stripDec pow num pow).1.natAbs % 10 ^ (stripDec pow num pow).2
        < 10 ^ (stripDec pow num pow).2 :=
      Nat.mod_lt _ (pow_pos (by omega) _)
    have hppos : 0 < (stripDec pow num pow).2 := by omega
    obtain ⟨c, cs', hcc, hd⟩ := natChars_cons
      ((stripDec pow num pow).1.natAbs / 10 ^ (stripDec pow num pow).2)
    rw [hcc]
    simp only [List.cons_append, List.singleton_append, List.nil_append]
    have hne := negHead_ne_tokens c (cs' ++ '.' :: padDigits (stripDec pow num pow).2
      ((stripDec pow num pow).1.natAbs % 10 ^ (stripDec pow num pow).2)) hd
    rw [parseValue_not_token _ hne.1 hne.2.1 hne.2.2]
    rw [← List.cons_append, ← hcc, parseNum_frac_neg _ _ _ hfp hppos]
    congr 1
    congr 1
    rw [Nat.div_add_mod']
    omega
  · -- fraction, nonnegative
    rw [if_neg hneg, if_neg hp]
    have hfp : (stripDec pow num pow).1.natAbs % 10 ^ (stripDec pow num pow).2
        < 10 ^ (stripDec pow num pow).2 :=
      Nat.mod_lt _ (pow_pos (by omega) _)
    have hppos : 0 < (stripDec pow num pow).2 := by omega
    obtain ⟨c, cs', hcc, hd⟩ := natChars_cons
      ((stripDec pow num pow).1.natAbs / 10 ^ (stripDec pow num pow).2)
    rw [hcc]
    simp only [List.cons_append, List.singleton_append, List.nil_append]
    have hne := headDigit_ne_tokens c (cs' ++ '.' :: padDigits (stripDec pow num pow).2
      ((stripDec pow num pow).1.natAbs % 10 ^ (stripDec pow num pow).2)) hd
    rw [parseValue_not_token _ hne.1 hne.2.1 hne.2.2]
    rw [← List.cons_append, ← hcc, parseNum_frac_pos _ _ _ hfp hppos]
    congr 1
    congr 1
    rw [Nat.div_add_mod']
    omega

theorem parseValue_formatG (v : FloatVal) :
    ∃ w, parseValue (formatG v).data = some w ∧ valEq w v = true := by
  match v with
  | .nan => exact ⟨.nan, by decide, rfl⟩
  | .inf true => exact ⟨.inf true, by decide, rfl⟩
  | .inf false => exact ⟨.inf false, by decide, rfl⟩
  | .dec num pow =>
    exact ⟨.dec (stripDec pow num pow).1 (stripDec pow num pow).2,
      parseValue_formatG_dec num pow, stripDec_valEq num pow⟩

/-! ### C1: label blocks round-trip through the parser -/

theorem renderPair_data (k v : String) :
    (renderPair k v).data = k.data ++ '=' :: '"' :: (v.data ++ ['"']) := by
  show (k ++ "=\"" ++ v ++ "\"").data = _
  simp [String.data_append]

theorem cleanKeyChar_not_stop (c : Char) (h : cleanKeyChar c = true) :
    (!labelKeyStop c) = true := by
  unfold cleanKeyChar at h
  unfold labelKeyStop
  simp only [Bool.and_eq_true, Bool.not_eq_true', beq_eq_false_iff_ne, ne_eq] at h
  simp only [Bool.not_eq_true', Bool.or_eq_false_iff, beq_eq_false_iff_ne, ne_eq]
  tauto

theorem scanValue_append (v : List Char) (rest : List Char)
    (hclean : ∀ c ∈ v, cleanValChar c = true) :
    scanValue (v ++ '"' :: rest) = some (v, rest) := by
  induction v with
  | nil =>
    show scanValue ('"' :: rest) = some ([], rest)
    unfold scanValue
    rw [if_pos rfl]
  | cons c v' ih =>
    have hc := hclean c (by simp)
    unfold cleanValChar at hc
    simp only [Bool.and_eq_true, Bool.not_eq_true', beq_eq_false_iff_ne, ne_eq] at hc
    obtain ⟨⟨hq, hb⟩, hn⟩ := hc
    show scanValue (c :: (v' ++ '"' :: rest)) = _
    unfold scanValue
    rw [if_neg hq, if_neg hb]
    rw [ih (fun c h => hclean c (by simp [h]))]


theorem cleanPair_parts (k v : String) (h : cleanPair (k, v) = true) :
    k.data ≠ [] ∧ (∀ c ∈ k.data, cleanKeyChar c = true) ∧ (∀ c ∈ v.data, cleanValChar c = true) := by
  unfold cleanPair at h
  simp only [Bool.and_eq_true, List.all_eq_true, Bool.not_eq_true'] at h
  obtain ⟨⟨hne, hk⟩, hv⟩ := h
  refine ⟨?_, hk, hv⟩
  intro hc
  rw [hc] at hne
  simp at hne

theorem parsePairs_last (k v : String) (rest : List Char) (fuel : Nat)
    (hkv : cleanPair (k, v) = true) :
    parsePairs (fuel + 1) ((renderPair k v).data ++ '\x7d' :: rest) = .ok ([(k, v)], rest) := by
  obtain ⟨hne, hk, hv⟩ := cleanPair_parts k v hkv
  rw [renderPair_data]
  have hassoc : (k.data ++ '=' :: '"' :: (v.data ++ ['"'])) ++ '\x7d' :: rest
      = k.data ++ '=' :: '"' :: (v.data ++ '"' :: '\x7d' :: rest) := by simp
  rw [hassoc]
  unfold parsePairs
  have hsp := takeWhile_append_stop (fun c => !labelKeyStop c) k.data '='
    ('"' :: (v.data ++ '"' :: '\x7d' :: rest)) (fun c hc => cleanKeyChar_not_stop c (hk c hc))
    (by decide)
  rw [hsp.1, hsp.2]
  dsimp only
  rw [isEmpty_false_of_ne_nil hne]
  simp only [Bool.false_eq_true, if_false]
  rw [scanValue_append v.data ('\x7d' :: rest) hv]
  rfl

theorem parsePairs_more (k v : String) (r4 : List Char) (fuel : Nat)
    (hkv : cleanPair (k, v) = true) :
    parsePairs (fuel + 1) ((renderPair k v).data ++ ',' :: r4)
      = (match parsePairs fuel r4 with
        | .error e => .error e
        | .ok pr => .ok ((k, v) :: pr.1, pr.2)) := by
  obtain ⟨hne, hk, hv⟩ := cleanPair_parts k v hkv
  rw [renderPair_data]
  have hassoc : (k.data ++ '=' :: '"' :: (v.data ++ ['"'])) ++ ',' :: r4
      = k.data ++ '=' :: '"' :: (v.data ++ '"' :: ',' :: r4) := by simp
  rw [hassoc]
  conv_lhs => unfold parsePairs
  have hsp := takeWhile_append_stop (fun c => !labelKeyStop c) k.data '='
    ('"' :: (v.data ++ '"' :: ',' :: r4)) (fun c hc => cleanKeyChar_not_stop c (hk c hc))
    (by decide)
  rw [hsp.1, hsp.2]
  dsimp only
  rw [isEmpty_false_of_ne_nil hne]
  simp only [Bool.false_eq_true, if_false]
  rw [scanValue_append v.data (',' :: r4) hv]
  rfl

theorem joinSep_data_cons (s : String) (s2 : String) (ss : List String) :
    (joinSep "," (s :: s2 :: ss)).data = s.data ++ ',' :: (joinSep "," (s2 :: ss)).data := by
  show (s ++ "," ++ joinSep "," (s2 :: ss)).data = _
  simp [String.data_append]

theorem parsePairs_strings : ∀ (ss : List String) (fuel : Nat) (rest : List Char),
    ss ≠ [] →
    (∀ s ∈ ss, ∃ kv : String × String, cleanPair kv = true ∧ s = renderPair kv.1 kv.2) →
    ss.length ≤ fuel →
    ∃ qs : LabelMap, parsePairs fuel ((joinSep "," ss).data ++ '\x7d' :: rest) = .ok (qs, rest)
      ∧ qs.map (fun kv => renderPair kv.1 kv.2) = ss ∧ (∀ kv ∈ qs, cleanPair kv = true)
  | [], _, _, hne, _, _ => absurd rfl hne
  | [s], fuel, rest, _, hcl, hlen => by
    obtain ⟨kv, hkvc, hs⟩ := hcl s (by simp)
    match fuel, hlen with
    | f + 1, _ =>
      refine ⟨[kv], ?_, by simp [hs], by simp [hkvc]⟩
      subst hs
      show parsePairs (f + 1) ((renderPair kv.1 kv.2).data ++ '\x7d' :: rest) = _
      rw [parsePairs_last kv.1 kv.2 rest f hkvc]
  | s :: s2 :: ss, fuel, rest, _, hcl, hlen => by
    obtain ⟨kv, hkvc, hs⟩ := hcl s (by simp)
    match fuel, hlen with
    | f + 1, hlen =>
      have hlen2 : (s2 :: ss).length ≤ f := by
        simp at hlen ⊢
        omega
      obtain ⟨qs', hq1, hq2, hq3⟩ := parsePairs_strings (s2 :: ss) f rest (by simp) 
        (fun t ht => hcl t (by simp [ht])) hlen2
      refine ⟨kv :: qs', ?_, by simp [hs, hq2], ?_⟩
      · subst hs
        rw [joinSep_data_cons]
        have hassoc : (renderPair kv.1 kv.2).data ++ ',' :: (joinSep "," (s2 :: ss)).data
            ++ '\x7d' :: rest
            = (renderPair kv.1 kv.2).data ++ ',' :: ((joinSep "," (s2 :: ss)).data
              ++ '\x7d' :: rest) := by simp
        rw [hassoc, parsePairs_more kv.1 kv.2 _ f hkvc, hq1]
      · intro kv2 h2
        rcases List.mem_cons.mp h2 with h | h
        · subst h; exact hkvc
        · exact hq3 kv2 h

theorem renderPair_inj (k1 v1 k2 v2 : String)
    (h1 : cleanPair (k1, v1) = true) (h2 : cleanPair (k2, v2) = true)
    (heq : renderPair k1 v1 = renderPair k2 v2) : k1 = k2 ∧ v1 = v2 := by
  obtain ⟨_, hk1, hv1⟩ := cleanPair_parts k1 v1 h1
  obtain ⟨_, hk2, hv2⟩ := cleanPair_parts k2 v2 h2
  have hd : (renderPair k1 v1).data = (renderPair k2 v2).data := by rw [heq]
  rw [renderPair_data, renderPair_data] at hd
  have key1 := takeWhile_append_stop (fun c => !labelKeyStop c) k1.data '='
    ('"' :: (v1.data ++ ['"'])) (fun c hc => cleanKeyChar_not_stop c (hk1 c hc)) (by decide)
  have key2 := takeWhile_append_stop (fun c => !labelKeyStop c) k2.data '='
    ('"' :: (v2.data ++ ['"'])) (fun c hc => cleanKeyChar_not_stop c (hk2 c hc)) (by decide)
  have hkeq : k1.data = k2.data := by
    rw [← key1.1, ← key2.1, hd]
  have hrest : '=' :: '"' :: (v1.data ++ ['"']) = '=' :: '"' :: (v2.data ++ ['"']) := by
    rw [← key1.2, ← key2.2, hd]
  have hval : v1.data ++ ['"'] = v2.data ++ ['"'] := by
    have ha := List.cons.inj hrest
    have hb := List.cons.inj ha.2
    exact hb.2
  have hvq : ∀ c ∈ v1.data, (fun c => !(c == '"')) c = true := by
    intro c hc
    have := hv1 c hc
    unfold cleanValChar at this
    simp only [Bool.and_eq_true, Bool.not_eq_true'] at this ⊢
    exact this.1.1
  have hvq2 : ∀ c ∈ v2.data, (fun c => !(c == '"')) c = true := by
    intro c hc
    have := hv2 c hc
    unfold cleanValChar at this
    simp only [Bool.and_eq_true, Bool.not_eq_true'] at this ⊢
    exact this.1.1
  have hv1' := takeWhile_append_stop (fun c => !(c == '"')) v1.data '"' [] hvq (by decide)
  have hv2' := takeWhile_append_stop (fun c => !(c == '"')) v2.data '"' [] hvq2 (by decide)
  have hveq : v1.data = v2.data := by
    have hx : v1.data ++ '"' :: [] = v2.data ++ '"' :: [] := hval
    rw [← hv1'.1, ← hv2'.1, hx]
  exact ⟨String.ext hkeq, String.ext hveq⟩

theorem mapGet_of_mem_nodup (ps : LabelMap) (k v : String)
    (hmem : (k, v) ∈ ps) (hnodup : KeysNodup ps) : mapGet ps k = some v := by
  induction ps with
  | nil => simp at hmem
  | cons kv rest ih =>
    unfold KeysNodup at hnodup
    rw [List.map_cons, List.nodup_cons] at hnodup
    rcases List.mem_cons.mp hmem with h | h
    · subst h
      unfold mapGet
      rw [List.find?_cons_of_pos _ (by simp)]
      rfl
    · have hne : kv.1 ≠ k := by
        intro hc
        exact hnodup.1 (hc ▸ List.mem_map_of_mem Prod.fst h)
      unfold mapGet
      rw [List.find?_cons_of_neg _ (by simpa using hne)]
      exact ih h hnodup.2

theorem mapGet_mem (ps : LabelMap) (k v : String) (h : mapGet ps k = some v) :
    (k, v) ∈ ps := by
  unfold mapGet at h
  cases hf : ps.find? (fun kv => kv.1 == k) with
  | none => rw [hf] at h; simp at h
  | some kv =>
    rw [hf] at h
    have hv : kv.2 = v := Option.some.inj h
    have hmem := List.mem_of_find?_eq_some hf
    have hp := List.find?_some hf
    simp only [beq_iff_eq] at hp
    have hkv : kv = (k, v) := by
      cases kv
      simp at hp hv
      simp [hp, hv]
    rw [← hkv]
    exact hmem

theorem labelsEquivB_of (ps qs : LabelMap)
    (hpq : ∀ kv ∈ ps, kv ∈ qs) (hqp : ∀ kv ∈ qs, kv ∈ ps)
    (hp : KeysNodup ps) (hq : KeysNodup qs) : labelsEquivB ps qs = true := by
  unfold labelsEquivB labelsSubset
  simp only [Bool.and_eq_true, List.all_eq_true]
  constructor
  · intro kv hmem
    rw [mapGet_of_mem_nodup qs kv.1 kv.2 (hpq _ (by exact hmem)) hq]
    simp
  · intro kv hmem
    rw [mapGet_of_mem_nodup ps kv.1 kv.2 (hqp _ (by exact hmem)) hp]
    simp

theorem pair_eta (kv : String × String) : (kv.1, kv.2) = kv := rfl

theorem parsed_labels_equiv (ps qs : LabelMap)
    (hpsclean : ∀ kv ∈ ps, cleanPair kv = true) (hpsnodup : KeysNodup ps)
    (hq : qs.map (fun kv => renderPair kv.1 kv.2) = sortedPairs ps)
    (hqclean : ∀ kv ∈ qs, cleanPair kv = true) :
    labelsEquivB ps qs = true ∧ KeysNodup qs := by
  have hperm := sortedPairs_perm ps
  have memb1 : ∀ kv ∈ qs, kv ∈ ps := by
    intro kv hkv
    have h1 : renderPair kv.1 kv.2 ∈ qs.map (fun kv => renderPair kv.1 kv.2) :=
      List.mem_map_of_mem _ hkv
    rw [hq] at h1
    have h2 : renderPair kv.1 kv.2 ∈ ps.map (fun kv => renderPair kv.1 kv.2) :=
      hperm.mem_iff.mp h1
    obtain ⟨kv2, hkv2, heq⟩ := List.mem_map.mp h2
    obtain ⟨he1, he2⟩ := renderPair_inj kv2.1 kv2.2 kv.1 kv.2
      (by rw [pair_eta]; exact hpsclean kv2 hkv2)
      (by rw [pair_eta]; exact hqclean kv hkv) heq
    have : kv = kv2 := by
      rw [← pair_eta kv, ← pair_eta kv2, he1, he2]
    rw [this]
    exact hkv2
  have memb2 : ∀ kv ∈ ps, kv ∈ qs := by
    intro kv hkv
    have h1 : renderPair kv.1 kv.2 ∈ ps.map (fun kv => renderPair kv.1 kv.2) :=
      List.mem_map_of_mem _ hkv
    have h2 : renderPair kv.1 kv.2 ∈ sortedPairs ps := hperm.symm.mem_iff.mp h1
    rw [← hq] at h2
    obtain ⟨kv2, hkv2, heq⟩ := List.mem_map.mp h2
    obtain ⟨he1, he2⟩ := renderPair_inj kv2.1 kv2.2 kv.1 kv.2
      (by rw [pair_eta]; exact hqclean kv2 hkv2)
      (by rw [pair_eta]; exact hpsclean kv hkv) heq
    have : kv = kv2 := by
      rw [← pair_eta kv, ← pair_eta kv2, he1, he2]
    rw [this]
    exact hkv2
  have hpsnd : ps.Nodup := List.Nodup.of_map Prod.fst hpsnodup
  have hmapnd : (ps.map (fun kv => renderPair kv.1 kv.2)).Nodup := by
    apply List.Nodup.map_on ?_ hpsnd
    intro x hx y hy hxy
    obtain ⟨he1, he2⟩ := renderPair_inj x.1 x.2 y.1 y.2
      (by rw [pair_eta]; exact hpsclean x hx)
      (by rw [pair_eta]; exact hpsclean y hy) hxy
    rw [← pair_eta x, ← pair_eta y, he1, he2]
  have hsortnd : (sortedPairs ps).Nodup := (List.Perm.nodup_iff hperm).mpr hmapnd
  have hqmapnd : (qs.map (fun kv => renderPair kv.1 kv.2)).Nodup := by
    rw [hq]; exact hsortnd
  have hqnd : qs.Nodup := List.Nodup.of_map _ hqmapnd
  have hqknd : KeysNodup qs := by
    unfold KeysNodup
    apply List.Nodup.map_on ?_ hqnd
    intro x hx y hy hxy
    have hx' := memb1 x hx
    have hy' := memb1 y hy
    have h1 := mapGet_of_mem_nodup ps x.1 x.2 hx' hpsnodup
    have h2 := mapGet_of_mem_nodup ps y.1 y.2 hy' hpsnodup
    rw [hxy] at h1
    rw [h1] at h2
    have := Option.some.inj h2
    rw [← pair_eta x, ← pair_eta y, hxy, this]
  exact ⟨labelsEquivB_of ps qs memb2 memb1 hpsnodup hqknd, hqknd⟩

/-! ### C1 phase C-a: printed sample lines parse back -/


theorem digit_not_special (c : Char) (h : isDigitCh c = true) :
    (!(c == ' ')) = true ∧ (!(c == '\n')) = true := by
  unfold isDigitCh at h
  simp only [Bool.and_eq_true, decide_eq_true_eq] at h
  constructor <;>
  · simp only [Bool.not_eq_true', beq_eq_false_iff_ne, ne_eq]
    intro hc
    subst hc
    revert h
    decide

theorem formatG_ne_nil (v : FloatVal) : (formatG v).data ≠ [] := by
  match v with
  | .nan => decide
  | .inf true => decide
  | .inf false => decide
  | .dec num pow =>
    rw [formatG_dec_data]
    by_cases hneg : (stripDec pow num pow).1 < 0
    · rw [if_pos hneg]
      simp
    · rw [if_neg hneg, List.nil_append]
      by_cases hp : (stripDec pow num pow).2 = 0
      · rw [if_pos hp]
        exact natChars_ne_nil _
      · rw [if_neg hp]
        simp

theorem formatG_chars_ok (v : FloatVal) :
    ∀ c ∈ (formatG v).data, (!(c == ' ')) = true ∧ (!(c == '\n')) = true := by
  match v with
  | .nan =>
    have h : ∀ c ∈ (formatG FloatVal.nan).data,
        (!(c == ' ')) = true ∧ (!(c == '\n')) = true := by decide
    exact h
  | .inf true =>
    have h : ∀ c ∈ (formatG (FloatVal.inf true)).data,
        (!(c == ' ')) = true ∧ (!(c == '\n')) = true := by decide
    exact h
  | .inf false =>
    have h : ∀ c ∈ (formatG (FloatVal.inf false)).data,
        (!(c == ' ')) = true ∧ (!(c == '\n')) = true := by decide
    exact h
  | .dec num pow =>
    intro c hc
    rw [formatG_dec_data] at hc
    rcases List.mem_append.mp hc with h | h
    · have : c = '-' := by
        by_cases hneg : (stripDec pow num pow).1 < 0
        · rw [if_pos hneg] at h
          simpa using h
        · rw [if_neg hneg] at h
          simp at h
      subst this
      exact ⟨by decide, by decide⟩
    · by_cases hp : (stripDec pow num pow).2 = 0
      · rw [if_pos hp] at h
        exact digit_not_special c (natChars_digits _ c h)
      · rw [if_neg hp] at h
        rcases List.mem_append.mp h with h2 | h2
        · exact digit_not_special c (natChars_digits _ c h2)
        · rcases List.mem_cons.mp h2 with h3 | h3
          · subst h3
            exact ⟨by decide, by decide⟩
          · exact digit_not_special c (padDigits_digits _ _ c h3)

theorem cleanNameChar_not_stop (c : Char) (h : cleanNameChar c = true) :
    (!nameStop c) = true := by
  unfold cleanNameChar at h
  unfold nameStop
  simp only [Bool.and_eq_true, Bool.not_eq_true', beq_eq_false_iff_ne, ne_eq] at h
  simp only [Bool.not_eq_true', Bool.or_eq_false_iff, beq_eq_false_iff_ne, ne_eq]
  tauto

theorem joinSep_len_bound : ∀ ss : List String,
    ss.length ≤ (joinSep "," ss).data.length + 1
  | [] => by simp
  | [s] => by
    show 1 ≤ s.data.length + 1
    omega
  | s :: t :: r => by
    have ih := joinSep_len_bound (t :: r)
    have hlen : (joinSep "," (s :: t :: r)).data.length
        = s.data.length + ((joinSep "," (t :: r)).data.length + 1) := by
      rw [joinSep_data_cons, List.length_append]
      simp
    rw [hlen]
    simp only [List.length_cons] at ih ⊢
    omega

theorem dropWhile_not_head (p : Char → Bool) (cs : List Char)
    (h : ∀ c ∈ cs, (!p c) = true) : cs.dropWhile p = cs := by
  cases cs with
  | nil => rfl
  | cons c rest =>
    have := h c (by simp)
    rw [List.dropWhile_cons]
    simp only [Bool.not_eq_true'] at this
    rw [this]
    simp

theorem parseValueAfter_print (nm : String) (ps : LabelMap) (v : FloatVal)
    (w : FloatVal) (hw : parseValue (formatG v).data = some w) :
    parseValueAfter nm ps (' ' :: (formatG v).data) = .ok (nm, ps, w) := by
  unfold parseValueAfter
  rw [if_pos (show (' ' :: (formatG v).data).head? = some ' ' from rfl)]
  dsimp only [List.tail_cons]
  have hdrop : (formatG v).data.dropWhile (fun c => c == ' ') = (formatG v).data :=
    dropWhile_not_head _ _ (fun c hc => (formatG_chars_ok v c hc).1)
  have htake := takeWhile_all (fun c => !(c == ' ')) (formatG v).data
    (fun c hc => (formatG_chars_ok v c hc).1)
  rw [hdrop, htake.1, hw]


theorem printSimpleContent_data_labels (m : MetricData) (hl : m.Labels.length > 0) :
    (printSimpleContent m).data
      = m.Name.data ++ '\x7b' :: ((joinSep "," (sortedPairs m.Labels)).data
        ++ '\x7d' :: ' ' :: (formatG m.Value).data) := by
  unfold printSimpleContent
  rw [if_pos hl]
  simp [String.data_append]

theorem printSimpleContent_data_nolabels (m : MetricData) (hl : ¬ m.Labels.length > 0) :
    (printSimpleContent m).data
      = m.Name.data ++ ' ' :: (formatG m.Value).data := by
  unfold printSimpleContent
  rw [if_neg hl]
  simp [String.data_append]

theorem parseSampleLine_print (m : MetricData)
    (hname : m.Name.data ≠ []) (hnchars : ∀ c ∈ m.Name.data, cleanNameChar c = true)
    (hclean : ∀ kv ∈ m.Labels, cleanPair kv = true)
    (hnodup : KeysNodup m.Labels) :
    ∃ qs w, parseSampleLine (printSimpleContent m).data = .ok (m.Name, qs, w)
      ∧ labelsEquivB m.Labels qs = true ∧ KeysNodup qs
      ∧ valEq w m.Value = true := by
  obtain ⟨w, hw, hvw⟩ := parseValue_formatG m.Value
  by_cases hl : m.Labels.length > 0
  · -- labelled sample
    rw [printSimpleContent_data_labels m hl]
    unfold parseSampleLine
    have hsp := takeWhile_append_stop (fun c => !nameStop c) m.Name.data '\x7b'
      ((joinSep "," (sortedPairs m.Labels)).data ++ '\x7d' :: ' ' :: (formatG m.Value).data)
      (fun c hc => cleanNameChar_not_stop c (hnchars c hc)) (by decide)
    rw [hsp.1, hsp.2]
    dsimp only
    rw [isEmpty_false_of_ne_nil hname]
    simp only [Bool.false_eq_true, if_false, List.head?_cons, List.tail_cons]
    simp only [if_true]
    -- the label block
    have hss : sortedPairs m.Labels ≠ [] := by
      intro hc
      have := (sortedPairs_perm m.Labels).length_eq
      rw [hc] at this
      simp at this
      omega
    have hsscl : ∀ s ∈ sortedPairs m.Labels,
        ∃ kv : String × String, cleanPair kv = true ∧ s = renderPair kv.1 kv.2 := by
      intro s hs
      have : s ∈ m.Labels.map (fun kv => renderPair kv.1 kv.2) :=
        (sortedPairs_perm m.Labels).mem_iff.mp hs
      obtain ⟨kv, hkv, rfl⟩ := List.mem_map.mp this
      exact ⟨(kv.1, kv.2), by rw [pair_eta]; exact hclean kv hkv, rfl⟩
    have hfuel : (sortedPairs m.Labels).length
        ≤ ((joinSep "," (sortedPairs m.Labels)).data
            ++ '\x7d' :: ' ' :: (formatG m.Value).data).length + 1 := by
      have h1 := joinSep_len_bound (sortedPairs m.Labels)
      rw [List.length_append]
      simp only [List.length_cons]
      omega
    obtain ⟨qs, hq1, hq2, hq3⟩ := parsePairs_strings (sortedPairs m.Labels) _
      (' ' :: (formatG m.Value).data) hss hsscl hfuel
    rw [hq1]
    dsimp only
    obtain ⟨heq, hnd⟩ := parsed_labels_equiv m.Labels qs hclean hnodup hq2 hq3
    rw [parseValueAfter_print _ _ _ w hw]
    exact ⟨qs, w, rfl, heq, hnd, hvw⟩
  · -- label-free sample
    rw [printSimpleContent_data_nolabels m hl]
    unfold parseSampleLine
    have hsp := takeWhile_append_stop (fun c => !nameStop c) m.Name.data ' '
      ((formatG m.Value).data)
      (fun c hc => cleanNameChar_not_stop c (hnchars c hc)) (by decide)
    rw [hsp.1, hsp.2]
    dsimp only
    rw [isEmpty_false_of_ne_nil hname]
    simp only [Bool.false_eq_true, if_false, List.head?_cons]
    rw [if_neg (by decide)]
    rw [parseValueAfter_print _ _ _ w hw]
    have hempty : m.Labels = [] := by
      cases hml : m.Labels with
      | nil => rfl
      | cons a b => rw [hml] at hl; simp at hl
    refine ⟨[], w, rfl, ?_, by unfold KeysNodup; simp, hvw⟩
    rw [hempty]
    rfl

/-! ### C1 phases C-b to C-d: the amended round trip -/

/-! ### C1 phase C-b: state-update and routing lemmas -/



theorem famFind_none_of_fresh (S : List DtoFamily) (nm : String)
    (h : FreshName S nm) : famFind S nm = none := by
  unfold famFind
  rw [List.find?_eq_none]
  intro f hf
  simpa using h f hf

theorem famFind_append_last (S : List DtoFamily) (g : DtoFamily) (nm : String)
    (h : FreshName S nm) (hg : g.name = nm) : famFind (S ++ [g]) nm = some g := by
  induction S with
  | nil => unfold famFind; simp [List.find?, hg]
  | cons f fs ih =>
    have hne : (f.name == nm) = false := by
      simpa using h f (by simp)
    unfold famFind
    simp only [List.cons_append, List.find?]
    rw [hne]
    exact ih (fun x hx => h x (by simp [hx]))

theorem map_update_fresh (S : List DtoFamily) (nm : String)
    (F : DtoFamily → DtoFamily) (h : FreshName S nm) :
    S.map (fun f => if f.name == nm then F f else f) = S := by
  induction S with
  | nil => rfl
  | cons f fs ih =>
    have hne : (f.name == nm) = false := by
      simpa using h f (by simp)
    simp only [List.map_cons, hne, if_false, List.cons.injEq, true_and, Bool.false_eq_true]
    exact ih (fun x hx => h x (by simp [hx]))

theorem upd_append (S : List DtoFamily) (g : DtoFamily) (nm : String)
    (F : DtoFamily → DtoFamily) (h : FreshName S nm) (hg : g.name = nm) :
    (S ++ [g]).map (fun f => if f.name == nm then F f else f) = S ++ [F g] := by
  rw [List.map_append, map_update_fresh S nm F h]
  simp [hg]

theorem setHelp_fresh (S : List DtoFamily) (nm help : String)
    (h : FreshName S nm) : setHelp S nm help = S ++ [⟨nm, some help, none, []⟩] := by
  unfold setHelp
  rw [famFind_none_of_fresh S nm h]
  rfl

theorem setType_on_last (S : List DtoFamily) (nm : String) (ho : Option String)
    (hto : Option DtoMetricType) (ms : List DtoMetric) (t : DtoMetricType)
    (h : FreshName S nm) :
    setType (S ++ [⟨nm, ho, hto, ms⟩]) nm t = S ++ [⟨nm, ho, some t, ms⟩] := by
  unfold setType
  rw [famFind_append_last S _ nm h rfl]
  simp only [Option.isSome_some, if_true]
  exact upd_append S _ nm _ h rfl

theorem addMetric_on_last (S : List DtoFamily) (nm : String) (ho : Option String)
    (hto : Option DtoMetricType) (ms : List DtoMetric) (m : DtoMetric)
    (h : FreshName S nm) :
    addMetric (S ++ [⟨nm, ho, hto, ms⟩]) nm m = S ++ [⟨nm, ho, hto, ms ++ [m]⟩] := by
  unfold addMetric
  rw [famFind_append_last S _ nm h rfl]
  simp only [Option.isSome_some, if_true]
  exact upd_append S _ nm _ h rfl

theorem declType_append_last (S : List DtoFamily) (nm : String) (ho : Option String)
    (t : DtoMetricType) (ms : List DtoMetric) (h : FreshName S nm) :
    declType (S ++ [⟨nm, ho, some t, ms⟩]) nm = some t := by
  unfold declType
  rw [famFind_append_last S _ nm h rfl]
  rfl

theorem declType_simple (S : List DtoFamily) (hS : SimpleState S) (b : String)
    (t : DtoMetricType) (h : declType S b = some t) : simpleTypeB t = true := by
  unfold declType famFind at h
  cases hf : S.find? (fun f => f.name == b) with
  | none => rw [hf] at h; exact absurd h (by simp)
  | some f =>
    rw [hf] at h
    have hmem : f ∈ S := List.mem_of_find?_eq_some hf
    have : famType f = t := by simpa using h
    rw [← this]
    exact hS f hmem

theorem routeSample_simple (S : List DtoFamily) (hS : SimpleState S)
    (nm : String) (ps : LabelMap) (v : FloatVal) :
    routeSample S nm ps v = routePlain S nm ps v := by
  have hnh : ∀ b, ¬ declType S b = some DtoMetricType.histogram := by
    intro b hb
    have := declType_simple S hS b _ hb
    simp [simpleTypeB] at this
  have hns : ∀ b, ¬ declType S b = some DtoMetricType.summary := by
    intro b hb
    have := declType_simple S hS b _ hb
    simp [simpleTypeB] at this
  unfold routeSample
  cases h1 : stripSuffixStr nm "_bucket" with
  | some base => simp only [hnh base, if_false]
  | none =>
    cases h2 : stripSuffixStr nm "_sum" with
    | some base => simp only [hnh base, hns base, if_false]
    | none =>
      cases h3 : stripSuffixStr nm "_count" with
      | some base => simp only [hnh base, hns base, if_false]
      | none => rfl

theorem routePlain_simple_decl (S : List DtoFamily) (nm : String) (ps : LabelMap)
    (v : FloatVal) (t : DtoMetricType) (hd : declType S nm = some t)
    (ht : simpleTypeB t = true) :
    routePlain S nm ps v = .ok (addMetric S nm (plainMetric (some t) ps v)) := by
  unfold routePlain
  rw [hd]
  cases t with
  | counter => rfl
  | gauge => rfl
  | untyped => rfl
  | summary => simp [simpleTypeB] at ht
  | histogram => simp [simpleTypeB] at ht

theorem drop_seven (a b c d e g h : Char) (l : List Char) :
    (a :: b :: c :: d :: e :: g :: h :: l).drop 7 = l := rfl

theorem cleanNameChar_not_space (c : Char) (h : cleanNameChar c = true) :
    (!(c == ' ')) = true := by
  unfold cleanNameChar at h
  simp only [Bool.and_eq_true] at h
  exact h.1.2

theorem procLine_help (S : List DtoFamily) (nm help : String)
    (hname : nm.data ≠ []) (hnc : ∀ c ∈ nm.data, cleanNameChar c = true)
    (hfresh : FreshName S nm) :
    procLine S ("# HELP " ++ nm ++ " " ++ help).data
      = .ok (S ++ [⟨nm, some help, none, []⟩]) := by
  have hdata : ("# HELP " ++ nm ++ " " ++ help).data
      = '#' :: ' ' :: 'H' :: 'E' :: 'L' :: 'P' :: ' ' :: (nm.data ++ ' ' :: help.data) := by
    simp [String.data_append]
  rw [hdata]
  unfold procLine
  rw [show ('#' :: ' ' :: 'H' :: 'E' :: 'L' :: 'P' :: ' '
    :: (nm.data ++ ' ' :: help.data)).isEmpty = false from rfl]
  simp only [Bool.false_eq_true, if_false]
  rw [if_pos (show ('#' :: ' ' :: 'H' :: 'E' :: 'L' :: 'P' :: ' '
    :: (nm.data ++ ' ' :: help.data)).take 7 = "# HELP ".data from rfl)]
  simp only [drop_seven]
  have hsp := takeWhile_append_stop (fun c => !(c == ' ')) nm.data ' ' help.data
    (fun c hc => cleanNameChar_not_space c (hnc c hc)) (by decide)
  rw [hsp.1, hsp.2]
  rw [if_pos (show (' ' :: help.data).head? = some ' ' from rfl)]
  rw [isEmpty_false_of_ne_nil hname]
  simp only [Bool.false_eq_true, if_false, List.tail_cons]
  show Except.ok (setHelp S nm help) = _
  rw [setHelp_fresh S nm help hfresh]

theorem procLine_type (S : List DtoFamily) (nm kind : String)
    (hname : nm.data ≠ []) (hnc : ∀ c ∈ nm.data, cleanNameChar c = true) :
    procLine S ("# TYPE " ++ nm ++ " " ++ kind).data
      = .ok (setType S nm (parseTypeKeyword kind)) := by
  have hdata : ("# TYPE " ++ nm ++ " " ++ kind).data
      = '#' :: ' ' :: 'T' :: 'Y' :: 'P' :: 'E' :: ' ' :: (nm.data ++ ' ' :: kind.data) := by
    simp [String.data_append]
  rw [hdata]
  unfold procLine
  rw [show ('#' :: ' ' :: 'T' :: 'Y' :: 'P' :: 'E' :: ' '
    :: (nm.data ++ ' ' :: kind.data)).isEmpty = false from rfl]
  simp only [Bool.false_eq_true, if_false]
  rw [if_neg (show ¬ ('#' :: ' ' :: 'T' :: 'Y' :: 'P' :: 'E' :: ' '
    :: (nm.data ++ ' ' :: kind.data)).take 7 = "# HELP ".data by
    intro hcc
    have h1 : ('#' :: ' ' :: 'T' :: 'Y' :: 'P' :: 'E' :: ' '
      :: (nm.data ++ ' ' :: kind.data)).take 7 = ['#', ' ', 'T', 'Y', 'P', 'E', ' '] := rfl
    rw [h1] at hcc
    exact absurd hcc (by decide))]
  rw [if_pos (show ('#' :: ' ' :: 'T' :: 'Y' :: 'P' :: 'E' :: ' '
    :: (nm.data ++ ' ' :: kind.data)).take 7 = "# TYPE ".data from rfl)]
  simp only [drop_seven]
  have hsp := takeWhile_append_stop (fun c => !(c == ' ')) nm.data ' ' kind.data
    (fun c hc => cleanNameChar_not_space c (hnc c hc)) (by decide)
  rw [hsp.1, hsp.2]
  rw [if_pos (show (' ' :: kind.data).head? = some ' ' from rfl)]
  rw [isEmpty_false_of_ne_nil hname]
  simp only [Bool.false_eq_true, if_false, List.tail_cons]

theorem parseTypeKeyword_typeName (t : DtoMetricType) :
    parseTypeKeyword (lowStr (typeName t)) = t := by
  cases t <;> rfl

theorem SimpleState_append (S : List DtoFamily) (nm : String) (ho : Option String)
    (t : DtoMetricType) (ms : List DtoMetric) (hS : SimpleState S)
    (ht : simpleTypeB t = true) :
    SimpleState (S ++ [⟨nm, ho, some t, ms⟩]) := by
  intro f hf
  rcases List.mem_append.mp hf with h | h
  · exact hS f h
  · have : f = ⟨nm, ho, some t, ms⟩ := by simpa using h
    rw [this]
    exact ht

theorem printSimpleContent_head (m : MetricData) (c0 : Char) (nrest : List Char)
    (hnm : m.Name.data = c0 :: nrest) :
    ∃ lrest, (printSimpleContent m).data = c0 :: lrest := by
  by_cases hl : m.Labels.length > 0
  · rw [printSimpleContent_data_labels m hl, hnm]
    exact ⟨_, rfl⟩
  · rw [printSimpleContent_data_nolabels m hl, hnm]
    exact ⟨_, rfl⟩

theorem procLine_sample (S : List DtoFamily) (nm : String) (ho : Option String)
    (t : DtoMetricType) (ms : List DtoMetric) (m : MetricData)
    (hS : SimpleState S) (hfresh : FreshName S nm) (ht : simpleTypeB t = true)
    (hmname : m.Name = nm)
    (hname : nm.data ≠ []) (hnc : ∀ c ∈ nm.data, cleanNameChar c = true)
    (hhash : nm.data.head? ≠ some '#')
    (hclean : ∀ kv ∈ m.Labels, cleanPair kv = true) (hnodup : KeysNodup m.Labels) :
    ∃ qs w, procLine (S ++ [⟨nm, ho, some t, ms⟩]) (printSimpleContent m).data
      = .ok (S ++ [⟨nm, ho, some t, ms ++ [plainMetric (some t) qs w]⟩])
      ∧ labelsEquivB m.Labels qs = true ∧ KeysNodup qs
      ∧ valEq w m.Value = true := by
  obtain ⟨c0, nrest, hnmd⟩ : ∃ c0 nrest, m.Name.data = c0 :: nrest := by
    cases hn : m.Name.data with
    | nil => rw [hmname] at hn; exact absurd hn hname
    | cons a b => exact ⟨a, b, rfl⟩
  have hc0cn : cleanNameChar c0 = true := by
    apply hnc
    rw [← hmname, hnmd]
    simp
  have hc0hash : c0 ≠ '#' := by
    intro hcc
    apply hhash
    rw [← hmname, hnmd, hcc]
    rfl
  have hc0sp : c0 ≠ ' ' := by
    intro hcc
    have := cleanNameChar_not_space c0 hc0cn
    rw [hcc] at this
    simp at this
  obtain ⟨lrest, hline⟩ := printSimpleContent_head m c0 nrest hnmd
  obtain ⟨qs, w, hps, heq, hnd, hvw⟩ := parseSampleLine_print m
    (by rw [hmname]; exact hname) (by rw [hmname]; exact hnc) hclean hnodup
  refine ⟨qs, w, ?_, heq, hnd, hvw⟩
  rw [hline]
  unfold procLine
  rw [show (c0 :: lrest).isEmpty = false from rfl]
  simp only [Bool.false_eq_true, if_false]
  rw [if_neg (show ¬ (c0 :: lrest).take 7 = "# HELP ".data by
    intro hcc
    have h1 : (c0 :: lrest).take 7 = c0 :: lrest.take 6 := rfl
    have h2 : "# HELP ".data = '#' :: " HELP ".data := rfl
    rw [h1, h2] at hcc
    exact hc0hash (List.cons.inj hcc).1)]
  rw [if_neg (show ¬ (c0 :: lrest).take 7 = "# TYPE ".data by
    intro hcc
    have h1 : (c0 :: lrest).take 7 = c0 :: lrest.take 6 := rfl
    have h2 : "# TYPE ".data = '#' :: " TYPE ".data := rfl
    rw [h1, h2] at hcc
    exact hc0hash (List.cons.inj hcc).1)]
  rw [if_neg (show ¬ (c0 :: lrest).head? = some '#' by
    intro hcc
    exact hc0hash (Option.some.inj hcc))]
  rw [if_neg (show ¬ ((c0 :: lrest).all (fun c => c == ' ')) = true by
    intro hcc
    rw [List.all_cons, Bool.and_eq_true] at hcc
    exact hc0sp (by simpa using hcc.1))]
  rw [← hline, hps]
  dsimp only
  rw [hmname]
  rw [routeSample_simple _ (SimpleState_append S nm ho t ms hS ht) nm qs w]
  rw [routePlain_simple_decl _ nm qs w t (declType_append_last S nm ho t ms hfresh) ht]
  rw [addMetric_on_last S nm ho (some t) ms _ hfresh]


theorem setType_fresh (S : List DtoFamily) (nm : String) (t : DtoMetricType)
    (h : FreshName S nm) : setType S nm t = S ++ [⟨nm, none, some t, []⟩] := by
  unfold setType
  rw [famFind_none_of_fresh S nm h]
  rfl

theorem parseLines_cons_ok (l : List Char) (ls : List (List Char)) (S S2 : List DtoFamily)
    (h : procLine S l = .ok S2) : parseLines (l :: ls) S = parseLines ls S2 := by
  conv_lhs => unfold parseLines
  rw [h]

theorem parseLines_samples (t : DtoMetricType) (nm : String) (group : List MetricData) :
    ∀ (S : List DtoFamily) (ho : Option String) (ms : List DtoMetric)
      (rest : List (List Char)),
    SimpleState S → FreshName S nm → simpleTypeB t = true →
    nm.data ≠ [] → (∀ c ∈ nm.data, cleanNameChar c = true) →
    nm.data.head? ≠ some '#' →
    (∀ m ∈ group, m.Name = nm ∧ (∀ kv ∈ m.Labels, cleanPair kv = true) ∧ KeysNodup m.Labels) →
    ∃ ms2, parseLines (group.map (fun m => (printSimpleContent m).data) ++ rest)
        (S ++ [⟨nm, ho, some t, ms⟩])
      = parseLines rest (S ++ [⟨nm, ho, some t, ms ++ ms2⟩])
      ∧ List.Forall₂ (reconRel t) group ms2 := by
  induction group with
  | nil =>
    intro S ho ms rest _ _ _ _ _ _ _
    exact ⟨[], by simp, List.Forall₂.nil⟩
  | cons m g ih =>
    intro S ho ms rest hS hfresh ht hname hnc hhash hg
    obtain ⟨qs, w, hstep, heq, hnd, hvw⟩ := procLine_sample S nm ho t ms m hS hfresh ht
      (hg m (by simp)).1 hname hnc hhash (hg m (by simp)).2.1 (hg m (by simp)).2.2
    obtain ⟨ms2, hrec, hfa⟩ := ih S ho (ms ++ [plainMetric (some t) qs w]) rest
      hS hfresh ht hname hnc hhash (fun x hx => hg x (by simp [hx]))
    refine ⟨plainMetric (some t) qs w :: ms2, ?_,
      List.Forall₂.cons ⟨qs, w, rfl, heq, hnd, hvw⟩ hfa⟩
    rw [List.map_cons, List.cons_append]
    rw [parseLines_cons_ok _ _ _ _ hstep]
    rw [hrec]
    simp [List.append_assoc]

theorem parseLines_block (S : List DtoFamily) (nm : String) (t : DtoMetricType)
    (meta : MetricData) (grest : List MetricData) (rest : List (List Char))
    (hS : SimpleState S) (hfresh : FreshName S nm) (ht : simpleTypeB t = true)
    (hmT : meta.Typ = typeName t)
    (hname : nm.data ≠ []) (hnc : ∀ c ∈ nm.data, cleanNameChar c = true)
    (hhash : nm.data.head? ≠ some '#')
    (hg : ∀ m ∈ meta :: grest, m.Name = nm ∧ (∀ kv ∈ m.Labels, cleanPair kv = true)
      ∧ KeysNodup m.Labels) :
    ∃ ms2, parseLines
        (((if meta.Help ≠ "" then [("# HELP " ++ nm ++ " " ++ meta.Help).data] else [])
          ++ [("# TYPE " ++ nm ++ " " ++ lowStr meta.Typ).data]
          ++ (meta :: grest).map (fun m => (printSimpleContent m).data)) ++ rest) S
      = parseLines rest (S ++ [⟨nm, if meta.Help = "" then none else some meta.Help,
          some t, ms2⟩])
      ∧ List.Forall₂ (reconRel t) (meta :: grest) ms2 := by
  have htype : procLine S ("# TYPE " ++ nm ++ " " ++ lowStr meta.Typ).data
      = .ok (setType S nm t) := by
    rw [procLine_type S nm (lowStr meta.Typ) hname hnc, hmT, parseTypeKeyword_typeName]
  by_cases hH : meta.Help = ""
  · rw [if_neg (not_not_intro hH), if_pos hH]
    obtain ⟨ms2, hrec, hfa⟩ := parseLines_samples t nm (meta :: grest) S none [] rest
      hS hfresh ht hname hnc hhash hg
    refine ⟨ms2, ?_, hfa⟩
    simp only [List.nil_append, List.cons_append]
    rw [parseLines_cons_ok _ _ _ _ (by rw [htype, setType_fresh S nm t hfresh])]
    rw [hrec]
    simp
  · rw [if_pos hH, if_neg hH]
    have hhelp := procLine_help S nm meta.Help hname hnc hfresh
    obtain ⟨ms2, hrec, hfa⟩ := parseLines_samples t nm (meta :: grest) S
      (some meta.Help) [] rest hS hfresh ht hname hnc hhash hg
    have htype2 : procLine (S ++ [⟨nm, some meta.Help, none, []⟩])
        ("# TYPE " ++ nm ++ " " ++ lowStr meta.Typ).data
        = .ok (S ++ [⟨nm, some meta.Help, some t, []⟩]) := by
      rw [procLine_type _ nm (lowStr meta.Typ) hname hnc, hmT, parseTypeKeyword_typeName]
      rw [setType_on_last S nm (some meta.Help) none [] t hfresh]
    refine ⟨ms2, ?_, hfa⟩
    simp only [List.singleton_append, List.cons_append, List.nil_append]
    rw [parseLines_cons_ok _ _ _ _ hhelp]
    rw [parseLines_cons_ok _ _ _ _ htype2]
    rw [hrec]
    simp

/-! ### C1 phase C-c: the printed document splits into the block lines -/

theorem splitLinesAux_line (l : List Char) (hl : ∀ c ∈ l, c ≠ '\n') :
    ∀ (acc rest : List Char),
    splitLinesAux acc (l ++ '\n' :: rest) = (acc.reverse ++ l) :: splitLinesAux [] rest := by
  induction l with
  | nil =>
    intro acc rest
    show splitLinesAux acc ('\n' :: rest) = _
    conv_lhs => unfold splitLinesAux
    rw [if_pos rfl]
    simp
  | cons c l' ih =>
    intro acc rest
    have hc : c ≠ '\n' := hl c (by simp)
    show splitLinesAux acc (c :: (l' ++ '\n' :: rest)) = _
    conv_lhs => unfold splitLinesAux
    rw [if_neg hc]
    rw [ih (fun x hx => hl x (by simp [hx])) (c :: acc) rest]
    simp

theorem splitLines_flattenNl (ls : List (List Char))
    (hls : ∀ l ∈ ls, ∀ c ∈ l, c ≠ '\n') :
    ∀ rest : List Char,
    splitLinesAux [] (flattenNl ls ++ rest) = ls ++ splitLinesAux [] rest := by
  induction ls with
  | nil => intro rest; simp [flattenNl]
  | cons l ls' ih =>
    intro rest
    show splitLinesAux [] ((l ++ '\n' :: flattenNl ls') ++ rest) = _
    rw [List.append_assoc, List.cons_append]
    rw [splitLinesAux_line l (hls l (by simp)) [] (flattenNl ls' ++ rest)]
    rw [ih (fun x hx => hls x (by simp [hx])) rest]
    simp

theorem flattenNl_append (a b : List (List Char)) :
    flattenNl (a ++ b) = flattenNl a ++ flattenNl b := by
  induction a with
  | nil => simp [flattenNl]
  | cons l a' ih =>
    show l ++ '\n' :: flattenNl (a' ++ b) = (l ++ '\n' :: flattenNl a') ++ flattenNl b
    rw [ih]
    simp

theorem printSimple_content (m : MetricData) :
    printSimple m = printSimpleContent m ++ "\n" := by
  unfold printSimple printSimpleContent
  by_cases hl : m.Labels.length > 0
  · rw [if_pos hl, if_pos hl]
  · rw [if_neg hl, if_neg hl]

theorem printMetricLower_simple (m : MetricData)
    (h1 : ¬ lowStr m.Typ = "histogram") (h2 : ¬ lowStr m.Typ = "summary") :
    printMetricLower m = printSimple m := by
  unfold printMetricLower
  rw [if_neg h1, if_neg h2]

theorem concatAll_lower_data (group : List MetricData)
    (h : ∀ m ∈ group, ¬ lowStr m.Typ = "histogram" ∧ ¬ lowStr m.Typ = "summary") :
    (concatAll (group.map printMetricLower)).data
      = flattenNl (group.map (fun m => (printSimpleContent m).data)) := by
  induction group with
  | nil => rfl
  | cons m g ih =>
    rw [List.map_cons, List.map_cons]
    show (printMetricLower m ++ concatAll (g.map printMetricLower)).data = _
    rw [printMetricLower_simple m (h m (by simp)).1 (h m (by simp)).2]
    rw [printSimple_content]
    conv_rhs => unfold flattenNl
    rw [← ih (fun x hx => h x (by simp [hx]))]
    simp [String.data_append]

theorem cleanNameChar_nl (c : Char) (h : cleanNameChar c = true) : c ≠ '\n' := by
  unfold cleanNameChar at h
  simp only [Bool.and_eq_true, Bool.not_eq_true'] at h
  intro hc
  rw [hc] at h
  simp at h

theorem cleanKeyChar_nl (c : Char) (h : cleanKeyChar c = true) : c ≠ '\n' := by
  unfold cleanKeyChar at h
  simp only [Bool.and_eq_true, Bool.not_eq_true'] at h
  intro hc
  rw [hc] at h
  simp at h

theorem cleanValChar_nl (c : Char) (h : cleanValChar c = true) : c ≠ '\n' := by
  unfold cleanValChar at h
  simp only [Bool.and_eq_true, Bool.not_eq_true'] at h
  intro hc
  rw [hc] at h
  simp at h

theorem joinSep_chars (sep : String) :
    ∀ (ss : List String) (c : Char), c ∈ (joinSep sep ss).data →
      c ∈ sep.data ∨ ∃ s ∈ ss, c ∈ s.data
  | [], c, hc => by simp [joinSep] at hc
  | [s], c, hc => by
    right
    exact ⟨s, by simp, hc⟩
  | s :: s2 :: rest, c, hc => by
    have hd : (joinSep sep (s :: s2 :: rest)).data
        = s.data ++ sep.data ++ (joinSep sep (s2 :: rest)).data := by
      show (s ++ sep ++ joinSep sep (s2 :: rest)).data = _
      simp [String.data_append]
    rw [hd] at hc
    rcases List.mem_append.mp hc with hc1 | hc2
    · rcases List.mem_append.mp hc1 with hs | hsep
      · exact Or.inr ⟨s, by simp, hs⟩
      · exact Or.inl hsep
    · rcases joinSep_chars sep (s2 :: rest) c hc2 with h | ⟨t, ht, hct⟩
      · exact Or.inl h
      · exact Or.inr ⟨t, by simp [ht], hct⟩

theorem printSimpleContent_no_nl (m : MetricData)
    (hn : ∀ c ∈ m.Name.data, cleanNameChar c = true)
    (hl : ∀ kv ∈ m.Labels, cleanPair kv = true) :
    ∀ c ∈ (printSimpleContent m).data, c ≠ '\n' := by
  intro c hc
  by_cases hlen : m.Labels.length > 0
  · rw [printSimpleContent_data_labels m hlen] at hc
    rcases List.mem_append.mp hc with hc1 | hc2
    · exact cleanNameChar_nl c (hn c hc1)
    · simp only [List.mem_cons] at hc2
      rcases hc2 with hbrace | hc3
      · rw [hbrace]; decide
      · rcases List.mem_append.mp hc3 with hjoin | hc4
        · rcases joinSep_chars "," (sortedPairs m.Labels) c hjoin with hsep | ⟨s, hs, hcs⟩
          · simp only [List.mem_singleton] at hsep
            rw [hsep]; decide
          · have hsm : s ∈ m.Labels.map (fun kv => renderPair kv.1 kv.2) :=
              (sortedPairs_perm m.Labels).mem_iff.mp hs
            obtain ⟨kv, hkv, rfl⟩ := List.mem_map.mp hsm
            have hcl := hl kv hkv
            unfold cleanPair at hcl
            simp only [Bool.and_eq_true] at hcl
            rw [renderPair_data] at hcs
            rcases List.mem_append.mp hcs with hk | hv
            · exact cleanKeyChar_nl c (by
                have := hcl.1.2
                rw [List.all_eq_true] at this
                exact this c hk)
            · simp only [List.mem_cons] at hv
              rcases hv with he | hv2
              · rw [he]; decide
              · rcases hv2 with hq | hv3
                · rw [hq]; decide
                · rcases List.mem_append.mp hv3 with hvc | hq2
                  · exact cleanValChar_nl c (by
                      have := hcl.2
                      rw [List.all_eq_true] at this
                      exact this c hvc)
                  · simp only [List.mem_singleton] at hq2
                    rw [hq2]; decide
        · simp only [List.mem_cons] at hc4
          rcases hc4 with hcb | hc5
          · rw [hcb]; decide
          · rcases hc5 with hsp | hfv
            · rw [hsp]; decide
            · have := (formatG_chars_ok m.Value c hfv).2
              simp only [Bool.not_eq_true'] at this
              intro hcc
              rw [hcc] at this
              simp at this
  · rw [printSimpleContent_data_nolabels m hlen] at hc
    rcases List.mem_append.mp hc with hc1 | hc2
    · exact cleanNameChar_nl c (hn c hc1)
    · simp only [List.mem_cons] at hc2
      rcases hc2 with hsp | hfv
      · rw [hsp]; decide
      · have := (formatG_chars_ok m.Value c hfv).2
        simp only [Bool.not_eq_true'] at this
        intro hcc
        rw [hcc] at this
        simp at this

theorem famBlock_data (results : List MetricData) (nm : String)
    (meta : MetricData) (grest : List MetricData)
    (hfil : results.filter (fun m => m.Name == nm) = meta :: grest)
    (h : ∀ m ∈ meta :: grest, ¬ lowStr m.Typ = "histogram" ∧ ¬ lowStr m.Typ = "summary")
    (hT : meta.Typ ≠ "") :
    (famBlock results nm).data = flattenNl (blockLines results nm) := by
  unfold famBlock blockLines
  rw [hfil]
  dsimp only
  rw [flattenNl_append, flattenNl_append]
  rw [← concatAll_lower_data (meta :: grest) h]
  rw [if_pos hT, if_pos hT]
  by_cases hH : meta.Help ≠ ""
  · rw [if_pos hH, if_pos hH]
    simp [String.data_append, flattenNl]
  · rw [if_neg hH, if_neg hH]
    simp [String.data_append, flattenNl]

theorem blockLines_no_nl (results : List MetricData) (nm : String)
    (meta : MetricData) (grest : List MetricData)
    (hfil : results.filter (fun m => m.Name == nm) = meta :: grest)
    (hnm : ∀ c ∈ nm.data, cleanNameChar c = true)
    (hhelp : ∀ c ∈ meta.Help.data, c ≠ '\n')
    (htyp : ∀ c ∈ (lowStr meta.Typ).data, c ≠ '\n')
    (hsm : ∀ m ∈ meta :: grest, (∀ c ∈ m.Name.data, cleanNameChar c = true)
      ∧ (∀ kv ∈ m.Labels, cleanPair kv = true)) :
    ∀ l ∈ blockLines results nm, ∀ c ∈ l, c ≠ '\n' := by
  intro l hlmem c hc
  unfold blockLines at hlmem
  rw [hfil] at hlmem
  rcases List.mem_append.mp hlmem with hl1 | hl2
  · rcases List.mem_append.mp hl1 with hhl | htl
    · by_cases hH : meta.Help ≠ ""
      · rw [if_pos hH] at hhl
        simp only [List.mem_singleton] at hhl
        rw [hhl] at hc
        have hdata : ("# HELP " ++ nm ++ " " ++ meta.Help).data
            = '#' :: ' ' :: 'H' :: 'E' :: 'L' :: 'P' :: ' ' :: (nm.data ++ ' ' :: meta.Help.data) := by
          simp [String.data_append]
        rw [hdata] at hc
        simp only [List.mem_cons] at hc
        rcases hc with h1|h1|h1|h1|h1|h1|h1|h1
        · rw [h1]; decide
        · rw [h1]; decide
        · rw [h1]; decide
        · rw [h1]; decide
        · rw [h1]; decide
        · rw [h1]; decide
        · rw [h1]; decide
        · rcases List.mem_append.mp h1 with h2 | h2
          · exact cleanNameChar_nl c (hnm c h2)
          · simp only [List.mem_cons] at h2
            rcases h2 with h3 | h3
            · rw [h3]; decide
            · exact hhelp c h3
      · rw [if_neg hH] at hhl
        cases hhl
    · by_cases hT2 : meta.Typ ≠ ""
      · rw [if_pos hT2] at htl
        simp only [List.mem_singleton] at htl
        rw [htl] at hc
        have hdata : ("# TYPE " ++ nm ++ " " ++ lowStr meta.Typ).data
            = '#' :: ' ' :: 'T' :: 'Y' :: 'P' :: 'E' :: ' ' :: (nm.data ++ ' ' :: (lowStr meta.Typ).data) := by
          simp [String.data_append]
        rw [hdata] at hc
        simp only [List.mem_cons] at hc
        rcases hc with h1|h1|h1|h1|h1|h1|h1|h1
        · rw [h1]; decide
        · rw [h1]; decide
        · rw [h1]; decide
        · rw [h1]; decide
        · rw [h1]; decide
        · rw [h1]; decide
        · rw [h1]; decide
        · rcases List.mem_append.mp h1 with h2 | h2
          · exact cleanNameChar_nl c (hnm c h2)
          · simp only [List.mem_cons] at h2
            rcases h2 with h3 | h3
            · rw [h3]; decide
            · exact htyp c h3
      · rw [if_neg hT2] at htl
        cases htl
  · obtain ⟨m, hm, hml⟩ := List.mem_map.mp hl2
    rw [← hml] at hc
    exact printSimpleContent_no_nl m (hsm m hm).1 (hsm m hm).2 c hc


theorem splitLines_doc (results : List MetricData) :
    ∀ names : List String,
    (∀ nm ∈ names, (famBlock results nm).data = flattenNl (blockLines results nm)
      ∧ ∀ l ∈ blockLines results nm, ∀ c ∈ l, c ≠ '\n') →
    splitLinesAux [] ((joinSep "\n" (names.map (famBlock results))).data)
      = blockSeq results names
  | [], _ => rfl
  | [nm], hB => by
    show splitLinesAux [] ((famBlock results nm).data) = _
    rw [(hB nm (by simp)).1]
    have := splitLines_flattenNl (blockLines results nm) (hB nm (by simp)).2 []
    rw [List.append_nil] at this
    rw [this]
    rfl
  | nm1 :: nm2 :: rest, hB => by
    have hd : (joinSep "\n" ((nm1 :: nm2 :: rest).map (famBlock results))).data
        = (famBlock results nm1).data
          ++ '\n' :: (joinSep "\n" ((nm2 :: rest).map (famBlock results))).data := by
      show (famBlock results nm1 ++ "\n" ++ joinSep "\n" ((nm2 :: rest).map (famBlock results))).data = _
      simp [String.data_append]
    rw [hd, (hB nm1 (by simp)).1]
    rw [splitLines_flattenNl (blockLines results nm1) (hB nm1 (by simp)).2]
    show _ ++ splitLinesAux [] ('\n' :: _) = _
    conv_lhs => rw [show splitLinesAux []
      ('\n' :: (joinSep "\n" ((nm2 :: rest).map (famBlock results))).data)
      = [] :: splitLinesAux [] ((joinSep "\n" ((nm2 :: rest).map (famBlock results))).data) from rfl]
    rw [splitLines_doc results (nm2 :: rest) (fun x hx => hB x (by simp [hx]))]
    rfl



theorem typeName_ne_empty (t : DtoMetricType) : typeName t ≠ "" := by
  cases t <;> decide

theorem blockLines_eq (results : List MetricData) (nm : String)
    (meta : MetricData) (grest : List MetricData)
    (hfil : results.filter (fun m => m.Name == nm) = meta :: grest)
    (hT : meta.Typ ≠ "") :
    blockLines results nm
      = (if meta.Help ≠ "" then [("# HELP " ++ nm ++ " " ++ meta.Help).data] else [])
        ++ [("# TYPE " ++ nm ++ " " ++ lowStr meta.Typ).data]
        ++ (meta :: grest).map (fun m => (printSimpleContent m).data) := by
  unfold blockLines
  rw [hfil]
  dsimp only
  rw [if_pos hT]

theorem parseLines_blockSeq (results : List MetricData) :
    ∀ (names : List String) (S : List DtoFamily),
    SimpleState S → names.Nodup →
    (∀ nm ∈ names, ∀ f ∈ S, f.name ≠ nm) →
    (∀ nm ∈ names, blockOk results nm) →
    ∃ S2, parseLines (blockSeq results names) S = .ok (S ++ S2)
      ∧ List.Forall₂ (famRecon results) names S2
  | [], S, hS, _, _, _ => by
    refine ⟨[], ?_, List.Forall₂.nil⟩
    rw [show blockSeq results [] = [[]] from rfl]
    rw [parseLines_cons_ok [] [] S S rfl]
    simp [parseLines]
  | [nm], S, hS, hnd, hfr, hok => by
    obtain ⟨t, meta, grest, hfil, ht, hmT, hname, hnc, hhash, hg⟩ := hok nm (by simp)
    have hTne : meta.Typ ≠ "" := by rw [hmT]; exact typeName_ne_empty t
    obtain ⟨ms2, hrec, hfa⟩ := parseLines_block S nm t meta grest [[]] hS
      (fun f hf => hfr nm (by simp) f hf) ht hmT hname hnc hhash hg
    refine ⟨[⟨nm, if meta.Help = "" then none else some meta.Help, some t, ms2⟩], ?_,
      List.Forall₂.cons ⟨t, meta, grest, ms2, hfil, ht, hmT, rfl, hfa⟩ List.Forall₂.nil⟩
    rw [show blockSeq results [nm] = blockLines results nm ++ [[]] from rfl]
    rw [blockLines_eq results nm meta grest hfil hTne]
    rw [hrec]
    rw [parseLines_cons_ok [] [] _ _ rfl]
    rfl
  | nm1 :: nm2 :: rest, S, hS, hnd, hfr, hok => by
    obtain ⟨t, meta, grest, hfil, ht, hmT, hname, hnc, hhash, hg⟩ := hok nm1 (by simp)
    have hTne : meta.Typ ≠ "" := by rw [hmT]; exact typeName_ne_empty t
    obtain ⟨ms2, hrec, hfa⟩ := parseLines_block S nm1 t meta grest
      ([] :: blockSeq results (nm2 :: rest)) hS
      (fun f hf => hfr nm1 (by simp) f hf) ht hmT hname hnc hhash hg
    have hS' : SimpleState (S ++ [⟨nm1, if meta.Help = "" then none else some meta.Help,
        some t, ms2⟩]) := SimpleState_append S nm1 _ t ms2 hS ht
    have hn1 : ¬ nm1 ∈ nm2 :: rest := (List.nodup_cons.mp hnd).1
    have hfr' : ∀ nm ∈ nm2 :: rest,
        ∀ f ∈ S ++ [⟨nm1, if meta.Help = "" then none else some meta.Help,
          some t, ms2⟩], f.name ≠ nm := by
      intro nm hmm f hf
      rcases List.mem_append.mp hf with h1 | h1
      · exact hfr nm (by simp [hmm]) f h1
      · have hfe : f = ⟨nm1, if meta.Help = "" then none else some meta.Help,
          some t, ms2⟩ := by simpa using h1
        rw [hfe]
        show nm1 ≠ nm
        intro hcc
        rw [hcc] at hn1
        exact hn1 hmm
    obtain ⟨S2', hrec2, hfa2⟩ := parseLines_blockSeq results (nm2 :: rest)
      (S ++ [⟨nm1, if meta.Help = "" then none else some meta.Help, some t, ms2⟩])
      hS' (List.Nodup.of_cons hnd) hfr' (fun x hx => hok x (by simp [hx]))
    refine ⟨⟨nm1, if meta.Help = "" then none else some meta.Help, some t, ms2⟩ :: S2', ?_,
      List.Forall₂.cons ⟨t, meta, grest, ms2, hfil, ht, hmT, rfl, hfa⟩ hfa2⟩
    rw [show blockSeq results (nm1 :: nm2 :: rest)
      = blockLines results nm1 ++ [] :: blockSeq results (nm2 :: rest) from rfl]
    rw [blockLines_eq results nm1 meta grest hfil hTne]
    rw [hrec]
    rw [parseLines_cons_ok [] _ _ _ rfl]
    rw [hrec2]
    simp

theorem mapSet_fresh (m : LabelMap) (k v : String)
    (h : ∀ kv ∈ m, ¬ kv.1 = k) : mapSet m k v = m ++ [(k, v)] := by
  unfold mapSet
  rw [if_neg ?_]
  intro hc
  rw [List.any_eq_true] at hc
  obtain ⟨kv, hkv, hbeq⟩ := hc
  exact h kv hkv (by simpa using hbeq)

theorem foldl_mapSet_fresh : ∀ (ps acc : LabelMap),
    (ps.map Prod.fst).Nodup → (∀ kv ∈ acc, ∀ kv2 ∈ ps, ¬ kv.1 = kv2.1) →
    ps.foldl (fun m kv => mapSet m kv.1 kv.2) acc = acc ++ ps
  | [], acc, _, _ => by simp
  | kv :: ps', acc, hnd, hdisj => by
    rw [List.foldl_cons]
    rw [mapSet_fresh acc kv.1 kv.2 (fun kv' hkv' => hdisj kv' hkv' kv (by simp))]
    rw [foldl_mapSet_fresh ps' (acc ++ [kv]) (by simpa using hnd.of_cons) ?_]
    · simp
    · intro kv' hkv' kv2 hkv2
      rcases List.mem_append.mp hkv' with h1 | h1
      · exact hdisj kv' h1 kv2 (by simp [hkv2])
      · have : kv' = kv := by simpa using h1
        rw [this]
        intro hcc
        have hk1 : kv.1 ∈ ps'.map Prod.fst := by
          rw [hcc]
          exact List.mem_map.mpr ⟨kv2, hkv2, rfl⟩
        have h2 : (kv.1 :: ps'.map Prod.fst).Nodup := by
          rw [List.map_cons] at hnd
          exact hnd
        exact (List.nodup_cons.mp h2).1 hk1

theorem labelsOf_id (mtr : DtoMetric) (h : KeysNodup mtr.label) :
    labelsOf mtr = mtr.label := by
  unfold labelsOf
  rw [foldl_mapSet_fresh mtr.label [] h (by intro kv hkv; cases hkv)]
  simp


theorem extract_name (f : DtoFamily) (mtr : DtoMetric) :
    (extractMetricData f mtr).Name = f.name := by
  unfold extractMetricData extractTyped
  cases hft : famType f
  case counter => cases hc : mtr.counter <;> rfl
  case gauge => cases hc : mtr.gauge <;> rfl
  case histogram => cases hc : mtr.histogram <;> rfl
  case summary => cases hc : mtr.summary <;> rfl
  case untyped => cases hc : mtr.untyped <;> rfl

theorem extract_simple (f : DtoFamily) (mtr : DtoMetric)
    (ht : simpleTypeB (famType f) = true)
    (hcm : cleanMetricAt (famType f) mtr = true) :
    ∃ v, dtoSimpleValue (famType f) mtr = some v
      ∧ extractMetricData f mtr
        = ⟨f.name, famHelp f, typeName (famType f), labelsOf mtr, v, none, none, [], []⟩ := by
  unfold cleanMetricAt at hcm
  cases hft : famType f
  case counter =>
    rw [hft] at hcm
    simp only [Bool.and_eq_true] at hcm
    have hval := hcm.2.1
    cases hc : mtr.counter with
    | none => rw [hc] at hval; simp at hval
    | some c =>
      rw [hc] at hval
      simp only [Option.isSome_iff_exists] at hval
      obtain ⟨v, hv⟩ := hval.1
      refine ⟨v, by simp [dtoSimpleValue, hc, hv], ?_⟩
      unfold extractMetricData extractTyped
      rw [hft, hc]
      dsimp only
      rw [hv]
      rfl
  case gauge =>
    rw [hft] at hcm
    simp only [Bool.and_eq_true] at hcm
    have hval := hcm.2.1
    cases hc : mtr.gauge with
    | none => rw [hc] at hval; simp at hval
    | some g =>
      rw [hc] at hval
      simp only [Option.isSome_iff_exists] at hval
      obtain ⟨v, hv⟩ := hval.1
      refine ⟨v, by simp [dtoSimpleValue, hc, hv], ?_⟩
      unfold extractMetricData extractTyped
      rw [hft, hc]
      dsimp only
      rw [hv]
      rfl
  case untyped =>
    rw [hft] at hcm
    simp only [Bool.and_eq_true] at hcm
    have hval := hcm.2.1
    cases hc : mtr.untyped with
    | none => rw [hc] at hval; simp at hval
    | some u =>
      rw [hc] at hval
      simp only [Option.isSome_iff_exists] at hval
      obtain ⟨v, hv⟩ := hval.1
      refine ⟨v, by simp [dtoSimpleValue, hc, hv], ?_⟩
      unfold extractMetricData extractTyped
      rw [hft, hc]
      dsimp only
      rw [hv]
      rfl
  case summary => rw [hft] at ht; simp [simpleTypeB] at ht
  case histogram => rw [hft] at ht; simp [simpleTypeB] at ht

theorem fetchFilter_nofilter (fams : List DtoFamily) :
    fetchFilter fams [] []
      = fams.flatMap (fun f => f.metric.map (extractMetricData f)) := by
  unfold fetchFilter
  congr 1
  funext f
  rw [if_neg (by simp)]
  have hfun : (fun metric => if ([] : List String).length > 0
        && !(hasMatchingLabels (labelsOf metric) []) then none
      else some (extractMetricData f metric))
      = fun metric => some (extractMetricData f metric) := by
    funext metric
    rw [if_neg (by simp)]
  rw [hfun]
  induction f.metric with
  | nil => rfl
  | cons mtr ms ih => simp [List.filterMap_cons, ih]

theorem filter_flatMap_group : ∀ (fams : List DtoFamily) (f : DtoFamily),
    (fams.map (fun f => f.name)).Nodup → f ∈ fams →
    (fams.flatMap (fun g => g.metric.map (extractMetricData g))).filter
        (fun m => m.Name == f.name)
      = f.metric.map (extractMetricData f)
  | [], f, _, hf => absurd hf (by simp)
  | f' :: rest, f, hnd, hf => by
    have hnd2 : (f'.name :: rest.map (fun f => f.name)).Nodup := by
      rw [List.map_cons] at hnd
      exact hnd
    rw [List.flatMap_cons, List.filter_append]
    rcases List.mem_cons.mp hf with heq | hmem
    · subst heq
    -- the head family is f itself
      have h1 : (f.metric.map (extractMetricData f)).filter (fun m => m.Name == f.name)
          = f.metric.map (extractMetricData f) := by
        apply List.filter_eq_self.mpr
        intro m hm
        obtain ⟨mtr, hmtr, hex⟩ := List.mem_map.mp hm
        rw [← hex, extract_name]
        simp
      have h2 : ((rest.flatMap (fun g => g.metric.map (extractMetricData g))).filter
          (fun m => m.Name == f.name)) = [] := by
        rw [List.filter_eq_nil_iff]
        intro m hm
        obtain ⟨g, hg, hmg⟩ := List.mem_flatMap.mp hm
        obtain ⟨mtr, hmtr, hex⟩ := List.mem_map.mp hmg
        rw [← hex, extract_name]
        have hne : ¬ g.name = f.name := by
          intro hcc
          apply (List.nodup_cons.mp hnd2).1
          rw [← hcc]
          exact List.mem_map.mpr ⟨g, hg, rfl⟩
        simp [hne]
      rw [h1, h2, List.append_nil]
    · have hfn : f.name ∈ rest.map (fun f => f.name) :=
        List.mem_map.mpr ⟨f, hmem, rfl⟩
      have hne : ¬ f'.name = f.name := by
        intro hcc
        apply (List.nodup_cons.mp hnd2).1
        rw [hcc]
        exact hfn
      have h1 : (f'.metric.map (extractMetricData f')).filter (fun m => m.Name == f.name)
          = [] := by
        rw [List.filter_eq_nil_iff]
        intro m hm
        obtain ⟨mtr, hmtr, hex⟩ := List.mem_map.mp hm
        rw [← hex, extract_name]
        simp [hne]
      rw [h1, List.nil_append]
      exact filter_flatMap_group rest f (List.Nodup.of_cons hnd2) hmem

theorem collect_step_mem : ∀ (ms : List MetricData) (acc : List String),
    (∀ m ∈ ms, m.Name ∈ acc) →
    ms.foldl (fun acc m => if acc.contains m.Name then acc else acc ++ [m.Name]) acc = acc
  | [], acc, _ => rfl
  | m :: ms', acc, h => by
    rw [List.foldl_cons]
    rw [if_pos ?_]
    · exact collect_step_mem ms' acc (fun x hx => h x (by simp [hx]))
    · exact (List.elem_iff).mpr (h m (by simp))

theorem collect_step_group (ms : List MetricData) (nm : String) (acc : List String)
    (hall : ∀ m ∈ ms, m.Name = nm) (hne : ms ≠ []) (hnin : ¬ nm ∈ acc) :
    ms.foldl (fun acc m => if acc.contains m.Name then acc else acc ++ [m.Name]) acc
      = acc ++ [nm] := by
  cases ms with
  | nil => exact absurd rfl hne
  | cons m ms' =>
    rw [List.foldl_cons]
    rw [hall m (by simp)]
    rw [if_neg (fun hc => hnin ((List.elem_iff).mp hc))]
    exact collect_step_mem ms' (acc ++ [nm])
      (fun x hx => by rw [hall x (by simp [hx])]; simp)

theorem collect_main : ∀ (fams : List DtoFamily) (acc : List String),
    (fams.map (fun f => f.name)).Nodup →
    (∀ f ∈ fams, ¬ f.name ∈ acc) →
    (∀ f ∈ fams, f.metric ≠ []) →
    (fams.flatMap (fun g => g.metric.map (extractMetricData g))).foldl
        (fun acc m => if acc.contains m.Name then acc else acc ++ [m.Name]) acc
      = acc ++ fams.map (fun f => f.name)
  | [], acc, _, _, _ => by simp
  | f :: rest, acc, hnd, hacc, hne => by
    have hnd2 : (f.name :: rest.map (fun f => f.name)).Nodup := by
      rw [List.map_cons] at hnd
      exact hnd
    rw [List.flatMap_cons, List.foldl_append]
    rw [collect_step_group (f.metric.map (extractMetricData f)) f.name acc
      (by
        intro m hm
        obtain ⟨mtr, hmtr, hex⟩ := List.mem_map.mp hm
        rw [← hex, extract_name])
      (by
        intro hc
        apply hne f (by simp)
        cases hm : f.metric with
        | nil => rfl
        | cons a b => rw [hm] at hc; simp at hc)
      (hacc f (by simp))]
    rw [collect_main rest (acc ++ [f.name]) (List.Nodup.of_cons hnd2)
      (by
        intro g hg hcc
        rcases List.mem_append.mp hcc with h1 | h1
        · exact hacc g (by simp [hg]) h1
        · apply (List.nodup_cons.mp hnd2).1
          have : g.name = f.name := by simpa using h1
          rw [← this]
          exact List.mem_map.mpr ⟨g, hg, rfl⟩)
      (fun g hg => hne g (by simp [hg]))]
    simp

theorem collectNames_eq (fams : List DtoFamily)
    (hnd : (fams.map (fun f => f.name)).Nodup)
    (hne : ∀ f ∈ fams, f.metric ≠ []) :
    collectNames (fams.flatMap (fun g => g.metric.map (extractMetricData g)))
      = fams.map (fun f => f.name) := by
  unfold collectNames
  rw [collect_main fams [] hnd (by intro f hf hc; cases hc) hne]
  simp

theorem valEq_symm (a b : FloatVal) (h : valEq a b = true) : valEq b a = true := by
  cases a <;> cases b <;> simp [valEq] at h ⊢
  · exact h.symm
  · exact h.symm

theorem famFind_of_mem_nodup : ∀ (S2 : List DtoFamily) (g : DtoFamily),
    (S2.map (fun f => f.name)).Nodup → g ∈ S2 → famFind S2 g.name = some g
  | [], g, _, hg => absurd hg (by simp)
  | f' :: rest, g, hnd, hg => by
    have hnd2 : (f'.name :: rest.map (fun f => f.name)).Nodup := by
      rw [List.map_cons] at hnd
      exact hnd
    rcases List.mem_cons.mp hg with heq | hmem
    · subst heq
      unfold famFind
      rw [List.find?_cons_of_pos _ (by simp)]
    · have hne : ¬ (f'.name == g.name) = true := by
        simp only [beq_iff_eq]
        intro hcc
        apply (List.nodup_cons.mp hnd2).1
        rw [hcc]
        exact List.mem_map.mpr ⟨g, hmem, rfl⟩
      unfold famFind
      rw [show List.find? (fun f => f.name == g.name) (f' :: rest)
        = List.find? (fun f => f.name == g.name) rest from List.find?_cons_of_neg rest hne]
      exact famFind_of_mem_nodup rest g (List.Nodup.of_cons hnd2) hmem

theorem names_of_forall₂ (results : List MetricData) :
    ∀ {ns : List String} {S2 : List DtoFamily},
    List.Forall₂ (famRecon results) ns S2 → S2.map (fun f => f.name) = ns := by
  intro ns S2 h
  induction h with
  | nil => rfl
  | cons hr _ ih =>
    obtain ⟨t, meta, grest, ms2, _, _, _, hge, _⟩ := hr
    rw [List.map_cons, ih, hge]

theorem forall₂_mem_left {α β : Type} {R : α → β → Prop} :
    ∀ {as : List α} {bs : List β}, List.Forall₂ R as bs →
    ∀ a ∈ as, ∃ b ∈ bs, R a b := by
  intro as bs h
  induction h with
  | nil => intro a ha; cases ha
  | cons hr _ ih =>
    intro a ha
    rcases List.mem_cons.mp ha with heq | hmem
    · subst heq
      exact ⟨_, by simp, hr⟩
    · obtain ⟨b, hb, hrb⟩ := ih a hmem
      exact ⟨b, by simp [hb], hrb⟩

theorem forall₂_mem_right {α β : Type} {R : α → β → Prop} :
    ∀ {as : List α} {bs : List β}, List.Forall₂ R as bs →
    ∀ b ∈ bs, ∃ a ∈ as, R a b := by
  intro as bs h
  induction h with
  | nil => intro b hb; cases hb
  | cons hr _ ih =>
    intro b hb
    rcases List.mem_cons.mp hb with heq | hmem
    · subst heq
      exact ⟨_, by simp, hr⟩
    · obtain ⟨a, ha, hra⟩ := ih b hmem
      exact ⟨a, by simp [ha], hra⟩

theorem isNone_eq_none {α : Type} (o : Option α) (h : o.isNone = true) : o = none := by
  cases o with
  | none => rfl
  | some x => simp at h

theorem extract_typ (f : DtoFamily) (mtr : DtoMetric) :
    (extractMetricData f mtr).Typ = typeName (famType f) := by
  unfold extractMetricData extractTyped
  cases hft : famType f
  case counter => cases hc : mtr.counter <;> rfl
  case gauge => cases hc : mtr.gauge <;> rfl
  case histogram => cases hc : mtr.histogram <;> rfl
  case summary => cases hc : mtr.summary <;> rfl
  case untyped => cases hc : mtr.untyped <;> rfl

theorem extract_help (f : DtoFamily) (mtr : DtoMetric) :
    (extractMetricData f mtr).Help = famHelp f := by
  unfold extractMetricData extractTyped
  cases hft : famType f
  case counter => cases hc : mtr.counter <;> rfl
  case gauge => cases hc : mtr.gauge <;> rfl
  case histogram => cases hc : mtr.histogram <;> rfl
  case summary => cases hc : mtr.summary <;> rfl
  case untyped => cases hc : mtr.untyped <;> rfl

theorem extract_labels (f : DtoFamily) (mtr : DtoMetric) :
    (extractMetricData f mtr).Labels = labelsOf mtr := by
  unfold extractMetricData extractTyped
  cases hft : famType f
  case counter => cases hc : mtr.counter <;> rfl
  case gauge => cases hc : mtr.gauge <;> rfl
  case histogram => cases hc : mtr.histogram <;> rfl
  case summary => cases hc : mtr.summary <;> rfl
  case untyped => cases hc : mtr.untyped <;> rfl

theorem typeName_inj (a b : DtoMetricType) (h : typeName a = typeName b) : a = b := by
  cases a <;> cases b <;> first | rfl | exact absurd h (by decide)

theorem lowTypeName_not_hist (t : DtoMetricType) (ht : simpleTypeB t = true) :
    ¬ lowStr (typeName t) = "histogram" := by
  cases t
  case counter => decide
  case gauge => decide
  case untyped => decide
  case summary => simp [simpleTypeB] at ht
  case histogram => simp [simpleTypeB] at ht

theorem lowTypeName_not_summ (t : DtoMetricType) (ht : simpleTypeB t = true) :
    ¬ lowStr (typeName t) = "summary" := by
  cases t
  case counter => decide
  case gauge => decide
  case untyped => decide
  case summary => simp [simpleTypeB] at ht
  case histogram => simp [simpleTypeB] at ht

theorem lowTypeName_no_nl (t : DtoMetricType) :
    ∀ c ∈ (lowStr (typeName t)).data, c ≠ '\n' := by
  cases t <;> decide

theorem metricEquiv_recon (t : DtoMetricType) (f : DtoFamily) (mtr : DtoMetric)
    (dm : DtoMetric) (hft : famType f = t) (ht : simpleTypeB t = true)
    (hcm : cleanMetricAt t mtr = true)
    (hr : reconRel t (extractMetricData f mtr) dm) :
    metricEquiv mtr dm = true := by
  obtain ⟨qs, w, hdm, heq, hnd, hvw⟩ := hr
  obtain ⟨v, hv, hex⟩ := extract_simple f mtr (by rw [hft]; exact ht)
    (by rw [hft]; exact hcm)
  have hlab : labelsEquivB (labelsOf mtr) qs = true := by
    rw [hex] at heq
    exact heq
  have hwv : valEq w v = true := by
    rw [hex] at hvw
    exact hvw
  rw [hft] at hv
  unfold cleanMetricAt at hcm
  cases t
  case counter =>
    simp only [Bool.and_eq_true] at hcm
    obtain ⟨⟨⟨⟨hall, hnd2⟩, hhist⟩, hsumm⟩, ⟨hmatch, hgauge⟩, hunt⟩ := hcm
    have hlab2 : labelsEquivB mtr.label qs = true := by
      rw [labelsOf_id mtr (of_decide_eq_true hnd2)] at hlab
      exact hlab
    cases hc : mtr.counter with
    | none => rw [hc] at hmatch; simp at hmatch
    | some c =>
      have hcv : c.value = some v := by
        simp [dtoSimpleValue, hc] at hv
        exact hv
      rw [hdm]
      show metricEquiv mtr ⟨qs, some ⟨some w⟩, none, none, none, none⟩ = true
      unfold metricEquiv
      rw [hc, isNone_eq_none _ hgauge, isNone_eq_none _ hunt,
        isNone_eq_none _ hhist, isNone_eq_none _ hsumm]
      simp only [Bool.and_eq_true]
      refine ⟨⟨⟨⟨⟨hlab2, ?_⟩, rfl⟩, rfl⟩, rfl⟩, rfl⟩
      show valOptEq c.value (some w) = true
      rw [hcv]
      exact valEq_symm w v hwv
  case gauge =>
    simp only [Bool.and_eq_true] at hcm
    obtain ⟨⟨⟨⟨hall, hnd2⟩, hhist⟩, hsumm⟩, ⟨hmatch, hcoun⟩, hunt⟩ := hcm
    have hlab2 : labelsEquivB mtr.label qs = true := by
      rw [labelsOf_id mtr (of_decide_eq_true hnd2)] at hlab
      exact hlab
    cases hc : mtr.gauge with
    | none => rw [hc] at hmatch; simp at hmatch
    | some g =>
      have hcv : g.value = some v := by
        simp [dtoSimpleValue, hc] at hv
        exact hv
      rw [hdm]
      show metricEquiv mtr ⟨qs, none, some ⟨some w⟩, none, none, none⟩ = true
      unfold metricEquiv
      rw [hc, isNone_eq_none _ hcoun, isNone_eq_none _ hunt,
        isNone_eq_none _ hhist, isNone_eq_none _ hsumm]
      simp only [Bool.and_eq_true]
      refine ⟨⟨⟨⟨⟨hlab2, rfl⟩, ?_⟩, rfl⟩, rfl⟩, rfl⟩
      show valOptEq g.value (some w) = true
      rw [hcv]
      exact valEq_symm w v hwv
  case untyped =>
    simp only [Bool.and_eq_true] at hcm
    obtain ⟨⟨⟨⟨hall, hnd2⟩, hhist⟩, hsumm⟩, ⟨hmatch, hcoun⟩, hgauge⟩ := hcm
    have hlab2 : labelsEquivB mtr.label qs = true := by
      rw [labelsOf_id mtr (of_decide_eq_true hnd2)] at hlab
      exact hlab
    cases hc : mtr.untyped with
    | none => rw [hc] at hmatch; simp at hmatch
    | some u =>
      have hcv : u.value = some v := by
        simp [dtoSimpleValue, hc] at hv
        exact hv
      rw [hdm]
      show metricEquiv mtr ⟨qs, none, none, none, none, some ⟨some w⟩⟩ = true
      unfold metricEquiv
      rw [hc, isNone_eq_none _ hcoun, isNone_eq_none _ hgauge,
        isNone_eq_none _ hhist, isNone_eq_none _ hsumm]
      simp only [Bool.and_eq_true]
      refine ⟨⟨⟨⟨⟨hlab2, rfl⟩, rfl⟩, ?_⟩, rfl⟩, rfl⟩
      show valOptEq u.value (some w) = true
      rw [hcv]
      exact valEq_symm w v hwv
  case summary => simp [simpleTypeB] at ht
  case histogram => simp [simpleTypeB] at ht

theorem metricsEquiv_recon (t : DtoMetricType) (f : DtoFamily)
    (hft : famType f = t) (ht : simpleTypeB t = true) :
    ∀ (ms : List DtoMetric) (ms2 : List DtoMetric),
    (∀ mtr ∈ ms, cleanMetricAt t mtr = true) →
    List.Forall₂ (reconRel t) (ms.map (extractMetricData f)) ms2 →
    metricsEquiv ms ms2 = true
  | [], ms2, _, h => by
    cases h
    rfl
  | mtr :: ms', ms2, hcl, h => by
    rw [List.map_cons] at h
    cases h with
    | cons hr htail =>
      rename_i dm ms2'
      show metricsEquiv (mtr :: ms') (dm :: ms2') = true
      have h1 := metricEquiv_recon t f mtr dm hft ht (hcl mtr (by simp)) hr
      have h2 := metricsEquiv_recon t f hft ht ms' ms2'
        (fun x hx => hcl x (by simp [hx])) htail
      show (metricEquiv mtr dm && metricsEquiv ms' ms2') = true
      rw [h1, h2]
      rfl

theorem cleanFam_parts (f : DtoFamily) (h : cleanFam f = true) :
    f.name.data ≠ [] ∧ (∀ c ∈ f.name.data, cleanNameChar c = true)
    ∧ f.name.data.head? ≠ some '#' ∧ simpleTypeB (famType f) = true
    ∧ (∀ c ∈ (famHelp f).data, c ≠ '\n') ∧ f.metric ≠ []
    ∧ (∀ mtr ∈ f.metric, cleanMetricAt (famType f) mtr = true) := by
  unfold cleanFam at h
  simp only [Bool.and_eq_true] at h
  obtain ⟨⟨⟨⟨⟨⟨h1, h2⟩, h3⟩, h4⟩, h5⟩, h6⟩, h7⟩ := h
  refine ⟨?_, ?_, ?_, h4, ?_, ?_, ?_⟩
  · intro hc
    rw [hc] at h1
    simp at h1
  · rw [List.all_eq_true] at h2
    exact h2
  · intro hc
    rw [hc] at h3
    simp at h3
  · rw [List.all_eq_true] at h5
    intro c hcmem hceq
    have := h5 c hcmem
    rw [hceq] at this
    simp at this
  · intro hc
    rw [hc] at h6
    simp at h6
  · rw [List.all_eq_true] at h7
    exact h7

theorem famEquivAt_recon (R : List MetricData) (f : DtoFamily) (g : DtoFamily)
    (hcf : cleanFam f = true)
    (hfil : R.filter (fun m => m.Name == f.name) = f.metric.map (extractMetricData f))
    (hr : famRecon R f.name g) : famEquivAt f g = true := by
  obtain ⟨t, meta, grest, ms2, hfil2, ht, hmT, hge, hfa⟩ := hr
  have hmap : f.metric.map (extractMetricData f) = meta :: grest := by
    rw [← hfil, hfil2]
  obtain ⟨hne, hnc, hnh, hst, hhc, hme, hall⟩ := cleanFam_parts f hcf
  cases hfm : f.metric with
  | nil => exact absurd hfm hme
  | cons mtr0 mrest =>
    have hmeta : meta = extractMetricData f mtr0 := by
      rw [hfm, List.map_cons] at hmap
      exact (List.cons.inj hmap).1.symm
    have htf : famType f = t := by
      apply typeName_inj
      rw [← hmT, hmeta, extract_typ]
    have hhelp : meta.Help = famHelp f := by rw [hmeta, extract_help]
    unfold famEquivAt
    simp only [Bool.and_eq_true]
    refine ⟨⟨?_, ?_⟩, ?_⟩
    · have hfg : famHelp g = famHelp f := by
        rw [hge]
        show (if meta.Help = "" then none else some meta.Help).getD "" = famHelp f
        by_cases hH : meta.Help = ""
        · rw [if_pos hH, ← hhelp, hH]
          rfl
        · rw [if_neg hH, ← hhelp]
          rfl
      rw [hfg]
      simp
    · rw [hge]
      rw [show famType (⟨f.name, if meta.Help = "" then none else some meta.Help,
        some t, ms2⟩ : DtoFamily) = t from rfl]
      rw [htf]
      simp
    · rw [hge]
      show metricsEquiv f.metric ms2 = true
      refine metricsEquiv_recon t f htf ht f.metric ms2 ?_ ?_
      · intro mtr hmtr
        rw [← htf]
        exact hall mtr hmtr
      · rw [hmap]
        exact hfa

theorem cleanMetric_labels (t : DtoMetricType) (mtr : DtoMetric)
    (h : cleanMetricAt t mtr = true) :
    (∀ kv ∈ mtr.label, cleanPair kv = true) ∧ KeysNodup mtr.label := by
  unfold cleanMetricAt at h
  simp only [Bool.and_eq_true] at h
  obtain ⟨⟨⟨⟨ha, hb⟩, _⟩, _⟩, _⟩ := h
  refine ⟨?_, of_decide_eq_true hb⟩
  rw [List.all_eq_true] at ha
  exact ha

/-- C1 (amended): for every well-formed exposition document `D` whose
parsed family map `fams` consists of clean simple families (counter,
gauge or untyped type; distinct non-empty names without structural or
whitespace characters, not starting with `#`; newline-free help; at
least one sample per family; unique, escape-free label pairs; exactly
the type-selected value field present), serializing the fetched
samples back to exposition text with `printPrometheusFormat` (the
repository's full serializer: `# HELP` and `# TYPE` headers followed
by each sample line) yields a document that re-parses successfully to
a family map semantically equivalent to `fams`: the same family names,
and for each name the same help, the same type and pointwise the same
samples — equal label maps and numerically equal values — even though
the bytes may differ (labels are reordered, numbers are
re-formatted). -/
theorem roundtrip_simple (D : String) (fams : List DtoFamily)
    (hD : parseExposition D = .ok fams) (hclean : cleanFams fams = true) :
    ∃ fams2,
      parseExposition (printPrometheusFormat (fetchFilter fams [] [])) = .ok fams2
      ∧ famsEquivB fams fams2 = true := by
  have hcl := hclean
  unfold cleanFams at hcl
  rw [Bool.and_eq_true] at hcl
  have hnd : (fams.map (fun f => f.name)).Nodup := of_decide_eq_true hcl.1
  have hcf : ∀ f ∈ fams, cleanFam f = true := by
    have h2 := hcl.2
    rw [List.all_eq_true] at h2
    exact h2
  rw [fetchFilter_nofilter fams]
  have hmne : ∀ f ∈ fams, f.metric ≠ [] :=
    fun f hf => (cleanFam_parts f (hcf f hf)).2.2.2.2.2.1
  have hnames : collectNames
      (fams.flatMap (fun g => g.metric.map (extractMetricData g)))
      = fams.map (fun f => f.name) := collectNames_eq fams hnd hmne
  have hperm : (sortStrings (fams.map (fun f => f.name))).Perm
      (fams.map (fun f => f.name)) := List.perm_insertionSort _ _
  have hsnd : (sortStrings (fams.map (fun f => f.name))).Nodup :=
    (hperm.nodup_iff).mpr hnd
  have hfind : ∀ nm ∈ fams.map (fun f => f.name), ∃ fo, fo ∈ fams ∧ fo.name = nm
      ∧ (fams.flatMap (fun g => g.metric.map (extractMetricData g))).filter
          (fun m => m.Name == nm) = fo.metric.map (extractMetricData fo) := by
    intro nm hnm
    obtain ⟨fo, hfo, hfon⟩ := List.mem_map.mp hnm
    refine ⟨fo, hfo, hfon, ?_⟩
    rw [← hfon]
    exact filter_flatMap_group fams fo hnd hfo
  have hok : ∀ nm ∈ sortStrings (fams.map (fun f => f.name)),
      blockOk (fams.flatMap (fun g => g.metric.map (extractMetricData g))) nm := by
    intro nm hnm
    obtain ⟨fo, hfo, hfon, hfil⟩ := hfind nm (hperm.mem_iff.mp hnm)
    obtain ⟨hpne, hpnc, hpnh, hpst, hphc, hpme, hpall⟩ := cleanFam_parts fo (hcf fo hfo)
    cases hfm : fo.metric with
    | nil => exact absurd hfm hpme
    | cons mtr0 mrest =>
      refine ⟨famType fo, extractMetricData fo mtr0,
        mrest.map (extractMetricData fo), ?_, hpst, ?_, ?_, ?_, ?_, ?_⟩
      · rw [hfil, hfm, List.map_cons]
      · rw [extract_typ]
      · rw [← hfon]; exact hpne
      · rw [← hfon]; exact hpnc
      · rw [← hfon]; exact hpnh
      · intro m hm
        have hm2 : m ∈ fo.metric.map (extractMetricData fo) := by
          rw [hfm, List.map_cons]
          exact hm
        obtain ⟨mtr, hmtr, hex⟩ := List.mem_map.mp hm2
        have hlp := cleanMetric_labels (famType fo) mtr (hpall mtr hmtr)
        have hlabs : m.Labels = mtr.label := by
          rw [← hex, extract_labels]
          exact labelsOf_id mtr hlp.2
        refine ⟨?_, ?_, ?_⟩
        · rw [← hex, extract_name, hfon]
        · rw [hlabs]
          exact hlp.1
        · rw [hlabs]
          exact hlp.2
  have hB : ∀ nm ∈ sortStrings (fams.map (fun f => f.name)),
      (famBlock (fams.flatMap (fun g => g.metric.map (extractMetricData g))) nm).data
        = flattenNl (blockLines
            (fams.flatMap (fun g => g.metric.map (extractMetricData g))) nm)
      ∧ ∀ l ∈ blockLines
          (fams.flatMap (fun g => g.metric.map (extractMetricData g))) nm,
          ∀ c ∈ l, c ≠ '\n' := by
    intro nm hnm
    obtain ⟨fo, hfo, hfon, hfil⟩ := hfind nm (hperm.mem_iff.mp hnm)
    obtain ⟨hpne, hpnc, hpnh, hpst, hphc, hpme, hpall⟩ := cleanFam_parts fo (hcf fo hfo)
    cases hfm : fo.metric with
    | nil => exact absurd hfm hpme
    | cons mtr0 mrest =>
      have hfil2 : (fams.flatMap (fun g => g.metric.map (extractMetricData g))).filter
          (fun m => m.Name == nm)
          = extractMetricData fo mtr0 :: mrest.map (extractMetricData fo) := by
        rw [hfil, hfm, List.map_cons]
      have hhs : ∀ m ∈ extractMetricData fo mtr0 :: mrest.map (extractMetricData fo),
          ¬ lowStr m.Typ = "histogram" ∧ ¬ lowStr m.Typ = "summary" := by
        intro m hm
        have hm2 : m ∈ fo.metric.map (extractMetricData fo) := by
          rw [hfm, List.map_cons]
          exact hm
        obtain ⟨mtr, hmtr, hex⟩ := List.mem_map.mp hm2
        rw [← hex, extract_typ]
        exact ⟨lowTypeName_not_hist _ hpst, lowTypeName_not_summ _ hpst⟩
      refine ⟨famBlock_data _ nm _ _ hfil2 hhs ?_, ?_⟩
      · rw [extract_typ]
        exact typeName_ne_empty _
      · apply blockLines_no_nl _ nm _ _ hfil2
        · rw [← hfon]
          exact hpnc
        · rw [extract_help]
          exact hphc
        · rw [extract_typ]
          exact lowTypeName_no_nl _
        · intro m hm
          have hm2 : m ∈ fo.metric.map (extractMetricData fo) := by
            rw [hfm, List.map_cons]
            exact hm
          obtain ⟨mtr, hmtr, hex⟩ := List.mem_map.mp hm2
          have hlp := cleanMetric_labels (famType fo) mtr (hpall mtr hmtr)
          have hlabs : m.Labels = mtr.label := by
            rw [← hex, extract_labels]
            exact labelsOf_id mtr hlp.2
          constructor
          · rw [← hex, extract_name]
            exact hpnc
          · rw [hlabs]
            exact hlp.1
  obtain ⟨S2, hparse, hfa⟩ := parseLines_blockSeq
    (fams.flatMap (fun g => g.metric.map (extractMetricData g)))
    (sortStrings (fams.map (fun f => f.name))) [] (fun f hf => absurd hf (by simp))
    hsnd (fun nm _ f hf => absurd hf (by simp)) hok
  refine ⟨S2, ?_, ?_⟩
  · unfold parseExposition printPrometheusFormat
    rw [hnames]
    rw [splitLines_doc (fams.flatMap (fun g => g.metric.map (extractMetricData g)))
      (sortStrings (fams.map (fun f => f.name))) hB]
    rw [hparse]
    rfl
  · have hS2names : S2.map (fun f => f.name)
        = sortStrings (fams.map (fun f => f.name)) := names_of_forall₂ _ hfa
    have hS2nd : (S2.map (fun f => f.name)).Nodup := by
      rw [hS2names]
      exact hsnd
    unfold famsEquivB
    rw [Bool.and_eq_true]
    constructor
    · rw [List.all_eq_true]
      intro f hf
      have hfn : f.name ∈ sortStrings (fams.map (fun f => f.name)) :=
        hperm.mem_iff.mpr (List.mem_map.mpr ⟨f, hf, rfl⟩)
      obtain ⟨g, hgS2, hrg⟩ := forall₂_mem_left hfa f.name hfn
      have hgname : g.name = f.name := by
        obtain ⟨t, meta, grest, ms2, _, _, _, hge, _⟩ := hrg
        rw [hge]
      have hfind2 : famFind S2 f.name = some g := by
        rw [← hgname]
        exact famFind_of_mem_nodup S2 g hS2nd hgS2
      show (match famFind S2 f.name with
        | some g => famEquivAt f g
        | none => false) = true
      rw [hfind2]
      exact famEquivAt_recon _ f g (hcf f hf)
        (filter_flatMap_group fams f hnd hf) hrg
    · rw [List.all_eq_true]
      intro g hgS2
      obtain ⟨nm, hnmS, hrg⟩ := forall₂_mem_right hfa g hgS2
      have hgname : g.name = nm := by
        obtain ⟨t, meta, grest, ms2, _, _, _, hge, _⟩ := hrg
        rw [hge]
      obtain ⟨f, hf, hfon⟩ := List.mem_map.mp (hperm.mem_iff.mp hnmS)
      have hfind2 : famFind fams g.name = some f := by
        rw [hgname, ← hfon]
        exact famFind_of_mem_nodup fams f hnd hf
      show (match famFind fams g.name with
        | some f => famEquivAt f g
        | none => false) = true
      rw [hfind2]
      refine famEquivAt_recon _ f g (hcf f hf)
        (filter_flatMap_group fams f hnd hf) ?_
      rw [hfon]
      exact hrg

set_option maxHeartbeats 2000000 in
theorem roundtrip_simple_witness :
    parseExposition docW = .ok famsW ∧ cleanFams famsW = true
    ∧ ∃ fams2,
        parseExposition (printPrometheusFormat (fetchFilter famsW [] [])) = .ok fams2
        ∧ famsEquivB famsW fams2 = true :=
  ⟨by decide, by decide, roundtrip_simple docW famsW (by decide) (by decide)⟩

end Fetcher
